import Mathlib

/-!
# Builder configuration resolver (builder/config_reader.go, pkg/dist/target.go)

A shallow embedding of the multi-architecture target enumeration
(`Target.Range`), of the per-target derivation of builder configs
(`MultiArchConfig.BuilderConfigs`, `processTarget`, `copyConfig`) and of the
environment directive merge (`ParseBuildConfigEnv`), followed by the theorems
that settle the specification's claims about them.

Conventions of the embedding.

* Go strings are Lean `String`s, Go slices are Lean `List`s (a nil slice and an
  empty slice are both `[]`; the code under study only ever takes `len` of a
  slice or ranges over it, so the two are indistinguishable to it).
* A Go `error` result is an `Option`: `none` is `nil`.
* A Go closure that mutates captured variables, and an injected collaborator
  that may perform I/O, are functions that take the current state and return
  the next one (explicit state passing).  The state type `σ` is arbitrary.
-/

set_option autoImplicit false

namespace Pack

/-! ## pkg/dist/target.go -/

/-- Go `dist.Distribution`. -/
structure Distribution where
  Name : String
  Versions : List String
deriving DecidableEq

/-- Go `dist.TargetSpecs`; the two Go maps are association lists. -/
structure TargetSpecs where
  Features : List String := []
  OSFeatures : List String := []
  URLs : List String := []
  Annotations : List (String × String) := []
  Flatten : Bool := false
  FlattenExclude : List String := []
  Labels : List (String × String) := []
  OSVersion : String := ""
  Path : String := ""
deriving DecidableEq

/-- Go `dist.Target`. -/
structure Target where
  OS : String := ""
  Arch : String := ""
  ArchVariant : String := ""
  Distributions : List Distribution := []
  Specs : TargetSpecs := {}
deriving DecidableEq

/-- The callback handed to `Target.Range`: Go
`func(target Target, distroName, distroVersion string) error`, whose effects on
the variables it captures are the state `σ`. -/
abbrev RangeOp (σ ε : Type) := Target → String → String → σ → Option ε × σ

/-- The inner loop of `Target.Range`:
`for _, version := range distro.Versions { if err := op(t, distro.Name, version); err != nil { return err } }`. -/
def rangeVersions {σ ε : Type} (t : Target) (op : RangeOp σ ε) (name : String) :
    List String → σ → Option ε × σ
  | [], s => (none, s)
  | version :: rest, s =>
    match op t name version s with
    | (some err, s1) => (some err, s1)
    | (none, s1) => rangeVersions t op name rest s1

/-- The outer loop of `Target.Range`, `for _, distro := range t.Distributions`:
a distribution without versions gets one call with the empty version, the
others one call per version; the first error returns at once. -/
def rangeDistros {σ ε : Type} (t : Target) (op : RangeOp σ ε) :
    List Distribution → σ → Option ε × σ
  | [], s => (none, s)
  | distro :: rest, s =>
    if distro.Versions.length = 0 then
      match op t distro.Name "" s with
      | (some err, s1) => (some err, s1)
      | (none, s1) => rangeDistros t op rest s1
    else
      match rangeVersions t op distro.Name distro.Versions s with
      | (some err, s1) => (some err, s1)
      | (none, s1) => rangeDistros t op rest s1

/-- Go `func (t Target) Range(op func(target Target, distroName, distroVersion string) error) error`. -/
def Target.Range {σ ε : Type} (t : Target) (op : RangeOp σ ε) (s : σ) : Option ε × σ :=
  if t.Distributions.length = 0 then
    op t "" "" s
  else
    rangeDistros t op t.Distributions s

/-- The counting callback of the two `MultiArch` methods:
`length++; return nil`. -/
def countOp : RangeOp Nat Unit :=
  fun _ _ _ n => (none, n + 1)

/-- Go `func (t *Target) MultiArch() bool`: `Range` with the counting callback. -/
def Target.MultiArch (t : Target) : Bool :=
  let length : Nat := (t.Range countOp 0).2
  decide (length > 1)

/-! ## builder/config_reader.go: the data model -/

/-- Modelled from the spec: `dist.ModuleInfo` is declared outside the sources
under study; the spec describes it as the registry identity of a module
(id and version). -/
structure ModuleInfo where
  ID : String := ""
  Version : String := ""
deriving DecidableEq

/-- Modelled from the spec: `dist.ImageOrURI` is declared outside the sources
under study; the spec describes it as the URI or image reference of a module.
The code reads and writes its promoted field `URI`. -/
structure ImageOrURI where
  URI : String := ""
  ImageName : String := ""
deriving DecidableEq

/-- Go `builder.ModuleConfig`, which embeds `dist.ModuleInfo` and
`dist.ImageOrURI`. -/
structure ModuleConfig extends ModuleInfo, ImageOrURI
deriving DecidableEq

/-- Modelled from the spec: an entry of `dist.Order`, declared outside the
sources under study; the spec describes an order as a sequence of module
groups. -/
structure OrderEntry where
  Group : List ModuleInfo := []
deriving DecidableEq

/-- Go `builder.StackConfig`. -/
structure StackConfig where
  ID : String := ""
  BuildImage : String := ""
  RunImage : String := ""
  RunImageMirrors : List String := []
deriving DecidableEq

/-- Go `builder.LifecycleConfig`. -/
structure LifecycleConfig where
  URI : String := ""
  Version : String := ""
deriving DecidableEq

/-- Go `builder.RunImageConfig`. -/
structure RunImageConfig where
  Image : String := ""
  Mirrors : List String := []
deriving DecidableEq

/-- Go `builder.RunConfig`. -/
structure RunConfig where
  Images : List RunImageConfig := []
deriving DecidableEq

/-- Go `builder.Suffix`, a string type; its constants are `NONE`, `DEFAULT`,
`OVERRIDE`, `APPEND` and `PREPEND`. -/
abbrev Suffix := String

/-- Go `builder.BuildConfigEnv`. -/
structure BuildConfigEnv where
  Name : String := ""
  Value : String := ""
  Suffix : Suffix := ""
  Delim : String := ""
deriving DecidableEq

/-- Go `builder.BuildConfig`. -/
structure BuildConfig where
  Image : String := ""
  Env : List BuildConfigEnv := []
deriving DecidableEq

/-- Go `builder.Config`; every field defaults to its Go zero value. -/
structure Config where
  Description : String := ""
  Buildpacks : List ModuleConfig := []
  Extensions : List ModuleConfig := []
  Order : List OrderEntry := []
  OrderExtensions : List OrderEntry := []
  Stack : StackConfig := {}
  Lifecycle : LifecycleConfig := {}
  Run : RunConfig := {}
  Build : BuildConfig := {}
  WithTargets : List Target := []
deriving DecidableEq

/-- Go `builder.MultiArchConfig`, which embeds `Config`. -/
structure MultiArchConfig extends Config where
  flagTargets : List Target := []
  relativeBaseDir : String := ""
deriving DecidableEq

/-- The functions of package `buildpackage` that `processTarget` calls.  The
package is not among the sources under study, so they are parameters.
`ProcessTarget` is the platform-normalisation helper
`ProcessTarget(target, distroName, distroVersion) Target`.
`GetRelativeURI uri relativeBaseDir target` and `ParseURItoString uri target`
are the two resolver entry points, with the `getIndexManifest` callback already
supplied; each returns its string result together with its error (Go assigns
both), and may have effects, which are the state `σ`.  Following the contract of
the spec, a resolver does not modify the target it is given. -/
structure Collaborators (σ ε : Type) where
  ProcessTarget : Target → String → String → Target
  GetRelativeURI : String → String → Target → σ → String × Option ε × σ
  ParseURItoString : String → Target → σ → String × Option ε × σ

/-! ## builder/config_reader.go: target resolution -/

/-- Go `func (c *MultiArchConfig) Targets() []dist.Target`. -/
def MultiArchConfig.Targets (c : MultiArchConfig) : List Target :=
  if c.flagTargets.length ≠ 0 then c.flagTargets else c.WithTargets

/-- Go `func copyConfig(config Config) Config`: only `Description` is copied;
each `make(T, n)` is a list of `n` zero values; the fields the literal leaves
out (`Stack.ID`, `Stack.BuildImage`, `Stack.RunImage`, `Lifecycle`, `Build`,
`WithTargets`) are zero. -/
def copyConfig (config : Config) : Config :=
  { Description := config.Description
    Buildpacks := List.replicate config.Buildpacks.length {}
    Extensions := List.replicate config.Extensions.length {}
    Order := List.replicate config.Order.length {}
    OrderExtensions := List.replicate config.OrderExtensions.length {}
    Stack := { RunImageMirrors := List.replicate config.Stack.RunImageMirrors.length "" }
    Run := { Images := List.replicate config.Run.Images.length {} } }

/-- The loops of `processTarget` over the buildpacks and over the extensions:
`for i, bp := range base { if bp.URI != "" { if out[i].URI, err = resolve(bp.URI); err != nil { return } } }`.
The string is assigned also when the call fails. -/
def resolveModules {σ ε : Type} (resolve : String → σ → String × Option ε × σ) :
    List ModuleConfig → Nat → List ModuleConfig → σ → List ModuleConfig × Option ε × σ
  | [], _, out, s => (out, none, s)
  | bp :: rest, i, out, s =>
    if bp.URI ≠ "" then
      match resolve bp.URI s with
      | (uri, some err, s1) => (out.set i { out.getD i {} with URI := uri }, some err, s1)
      | (uri, none, s1) => resolveModules resolve rest (i + 1) (out.set i { out.getD i {} with URI := uri }) s1
    else
      resolveModules resolve rest (i + 1) out s

/-- The mirror loops of `processTarget`:
`for j, mirror := range mirrors { if out[j], err = resolve(mirror); err == nil { break } }`.
The fourth argument is the value of `err` on entry, which an empty loop leaves
as it is. -/
def resolveMirrors {σ ε : Type} (resolve : String → σ → String × Option ε × σ) :
    List String → Nat → List String → Option ε → σ → List String × Option ε × σ
  | [], _, out, err, s => (out, err, s)
  | mirror :: rest, j, out, _, s =>
    match resolve mirror s with
    | (r, none, s1) => (out.set j r, none, s1)
    | (r, some err, s1) => resolveMirrors resolve rest (j + 1) (out.set j r) (some err) s1

/-- One iteration of the run-image loop of `processTarget`, on the entry
`cur = config.Run.Images[i]` for the base entry `runImg`: resolve the image,
allocate the mirrors when there are none yet, and when the image failed try the
mirrors in order up to the first success. -/
def resolveRunImage {σ ε : Type} (resolve : String → σ → String × Option ε × σ)
    (runImg cur : RunImageConfig) (s : σ) : RunImageConfig × Option ε × σ :=
  match resolve runImg.Image s with
  | (image, err, s1) =>
    let cur1 : RunImageConfig := { cur with Image := image }
    let cur2 : RunImageConfig :=
      if cur1.Mirrors.length = 0 then
        { cur1 with Mirrors := List.replicate runImg.Mirrors.length "" }
      else cur1
    match err with
    | none => (cur2, none, s1)
    | some e =>
      match resolveMirrors resolve runImg.Mirrors 0 cur2.Mirrors (some e) s1 with
      | (mirrors, err2, s2) => ({ cur2 with Mirrors := mirrors }, err2, s2)

/-- The run-image loop of `processTarget`,
`for i, runImg := range c.Config.Run.Images`, which returns at the first entry
whose image and mirrors all fail. -/
def resolveRunImages {σ ε : Type} (resolve : String → σ → String × Option ε × σ) :
    List RunImageConfig → Nat → List RunImageConfig → σ → List RunImageConfig × Option ε × σ
  | [], _, out, s => (out, none, s)
  | runImg :: rest, i, out, s =>
    match resolveRunImage resolve runImg (out.getD i {}) s with
    | (cur, some err, s1) => (out.set i cur, some err, s1)
    | (cur, none, s1) => resolveRunImages resolve rest (i + 1) (out.set i cur) s1

/-- The build-image step of `processTarget`:
`if img := c.Config.Build.Image; img != "" { config.Build.Image, err = ParseURItoString(img, target, ...) }`. -/
def resolveBuildImage {σ ε : Type} (c : MultiArchConfig) (target : Target)
    (R : Collaborators σ ε) (config : Config) (s : σ) : Config × Option ε × σ :=
  if c.Build.Image ≠ "" then
    match R.ParseURItoString c.Build.Image target s with
    | (img, err, s1) => ({ config with Build := { config.Build with Image := img } }, err, s1)
  else (config, none, s)

/-- The stack build-image step of `processTarget`:
`if img := c.Config.Stack.BuildImage; img != "" { config.Stack.BuildImage, err = ParseURItoString(img, target, ...) }`. -/
def resolveStackBuildImage {σ ε : Type} (c : MultiArchConfig) (target : Target)
    (R : Collaborators σ ε) (config : Config) (s : σ) : Config × Option ε × σ :=
  if c.Stack.BuildImage ≠ "" then
    match R.ParseURItoString c.Stack.BuildImage target s with
    | (img, err, s1) => ({ config with Stack := { config.Stack with BuildImage := img } }, err, s1)
  else (config, none, s)

/-- The stack run-image step of `processTarget`:
`if img := c.Config.Stack.RunImage; img != "" { config.Stack.RunImage, err = ParseURItoString(img, target, ...) }`,
entered with a nil `err`. -/
def resolveStackRunImage {σ ε : Type} (c : MultiArchConfig) (target : Target)
    (R : Collaborators σ ε) (config : Config) (s : σ) : Config × Option ε × σ :=
  if c.Stack.RunImage ≠ "" then
    match R.ParseURItoString c.Stack.RunImage target s with
    | (img, err, s1) => ({ config with Stack := { config.Stack with RunImage := img } }, err, s1)
  else (config, none, s)

/-- The stack mirror step of `processTarget`:
`if err != nil { for i, mirror := range c.Config.Stack.RunImageMirrors { ... } }`. -/
def resolveStackMirrors {σ ε : Type} (c : MultiArchConfig) (target : Target)
    (R : Collaborators σ ε) (config : Config) (err : Option ε) (s : σ) : Config × Option ε × σ :=
  match err with
  | some e =>
    match resolveMirrors (fun uri => R.ParseURItoString uri target)
        c.Stack.RunImageMirrors 0 config.Stack.RunImageMirrors (some e) s with
    | (mirrors, err2, s1) =>
      ({ config with Stack := { config.Stack with RunImageMirrors := mirrors } }, err2, s1)
  | none => (config, none, s)

/-- The last three assignments of `processTarget`:
`config.Order = c.Order`, `config.OrderExtensions = c.OrderExtensions` and
`config.WithTargets = []dist.Target{target}`. -/
def assignOrderAndTarget (c : MultiArchConfig) (target : Target) (config : Config) : Config :=
  { config with
      Order := c.Order
      OrderExtensions := c.OrderExtensions
      WithTargets := [target] }

/-- The end of `processTarget`, from the resolution of `Stack.BuildImage` on:
the stack build image (an error returns at once), the stack run image, its
mirrors when `err` is set, and the three final assignments. -/
def processStack {σ ε : Type} (c : MultiArchConfig) (target : Target)
    (R : Collaborators σ ε) (config : Config) (s : σ) : Config × Option ε × σ :=
  match resolveStackBuildImage c target R config s with
  | (config1, some err, s1) => (config1, some err, s1)
  | (config1, none, s1) =>
    match resolveStackRunImage c target R config1 s1 with
    | (config2, err, s2) =>
      match resolveStackMirrors c target R config2 err s2 with
      | (config3, err3, s3) => (assignOrderAndTarget c target config3, err3, s3)

/-- The middle of `processTarget`: the build image (an error returns at once)
and the run images (an error returns at once), then `processStack`. -/
def processImages {σ ε : Type} (c : MultiArchConfig) (target : Target)
    (R : Collaborators σ ε) (config : Config) (s : σ) : Config × Option ε × σ :=
  match resolveBuildImage c target R config s with
  | (config1, some err, s1) => (config1, some err, s1)
  | (config1, none, s1) =>
    match resolveRunImages (fun uri => R.ParseURItoString uri target)
        c.Run.Images 0 config1.Run.Images s1 with
    | (images, some err, s2) => ({ config1 with Run := { config1.Run with Images := images } }, some err, s2)
    | (images, none, s2) =>
      processStack c target R { config1 with Run := { config1.Run with Images := images } } s2

/-- Go `func (c *MultiArchConfig) processTarget(target dist.Target, distroName, distroVersion string, getIndexManifest buildpackage.GetIndexManifestFn) (config Config, err error)`. -/
def MultiArchConfig.processTarget {σ ε : Type} (c : MultiArchConfig) (target : Target)
    (distroName distroVersion : String) (R : Collaborators σ ε) (s : σ) :
    Config × Option ε × σ :=
  let config := copyConfig c.toConfig
  let target := R.ProcessTarget target distroName distroVersion
  match resolveModules (fun uri => R.GetRelativeURI uri c.relativeBaseDir target)
      c.Buildpacks 0 config.Buildpacks s with
  | (bps, some err, s1) => ({ config with Buildpacks := bps }, some err, s1)
  | (bps, none, s1) =>
    match resolveModules (fun uri => R.GetRelativeURI uri c.relativeBaseDir target)
        c.Extensions 0 config.Extensions s1 with
    | (exts, some err, s2) => ({ config with Buildpacks := bps, Extensions := exts }, some err, s2)
    | (exts, none, s2) =>
      processImages c target R { config with Buildpacks := bps, Extensions := exts } s2

/-- The callback that `BuilderConfigs` hands to `Range`:
`cfg, err := c.processTarget(target, "", "", getIndexManifest); configs = append(configs, cfg); return err`.
Its state is the captured `configs` together with the state of the
collaborators. -/
def builderConfigsOp {σ ε : Type} (c : MultiArchConfig) (R : Collaborators σ ε) :
    RangeOp (List Config × σ) ε :=
  fun target _distroName _distroVersion st =>
    match c.processTarget target "" "" R st.2 with
    | (cfg, err, s1) => (err, (st.1 ++ [cfg], s1))

/-- The loop of `BuilderConfigs`, `for _, target := range c.Targets()`, which
returns at the first target whose `Range` returns an error. -/
def builderConfigsLoop {σ ε : Type} (c : MultiArchConfig) (R : Collaborators σ ε) :
    List Target → List Config × σ → Option ε × (List Config × σ)
  | [], st => (none, st)
  | target :: rest, st =>
    match target.Range (builderConfigsOp c R) st with
    | (some err, st1) => (some err, st1)
    | (none, st1) => builderConfigsLoop c R rest st1

/-- Go `func (c *MultiArchConfig) BuilderConfigs(getIndexManifest buildpackage.GetIndexManifestFn) (configs []Config, err error)`. -/
def MultiArchConfig.BuilderConfigs {σ ε : Type} (c : MultiArchConfig)
    (R : Collaborators σ ε) (s : σ) : List Config × Option ε × σ :=
  match builderConfigsLoop c R c.Targets ([], s) with
  | (err, (configs, s1)) => (configs, err, s1)

/-- Go `func (c *MultiArchConfig) MultiArch() bool`. -/
def MultiArchConfig.MultiArch (c : MultiArchConfig) : Bool :=
  let targets := c.Targets
  if targets.length > 1 then
    true
  else
    let targetsLen : Nat := targets.foldl (fun n target => (target.Range countOp n).2) 0
    decide (targetsLen > 1)

/-! ## builder/config_reader.go: validation and normalisation -/

/-- What a call of `ValidateConfig` comes to: it returns its `error` result
(`none` is nil), or the index expression `c.Run.Images[0]` is evaluated on an
empty slice and the Go runtime stops the call with
`index out of range [index] with length length`. -/
inductive ValidateOutcome where
  /-- The call returns this error. -/
  | returns (err : Option String)
  /-- The call ends in an index-out-of-range failure. -/
  | indexOutOfRange (index length : Nat)
deriving DecidableEq

/-- The loop of `ValidateConfig`,
`for _, runImage := range c.Run.Images { if runImage.Image == "" { return errors.New("run.images.image is required") } }`:
the error it returns, if any. -/
def validateRunImages : List RunImageConfig → Option String
  | [] => none
  | runImage :: rest =>
    if runImage.Image = "" then some "run.images.image is required"
    else validateRunImages rest

/-- Go `func ValidateConfig(c Config) error`.  In the last test the right
operand of `&&` is evaluated, and with it `c.Run.Images[0]`, only when
`c.Stack.RunImage != ""`. -/
def ValidateConfig (c : Config) : ValidateOutcome :=
  if c.Build.Image = "" ∧ c.Stack.BuildImage = "" then
    ValidateOutcome.returns (some "build.image is required")
  else if c.Build.Image ≠ "" ∧ c.Stack.BuildImage ≠ "" ∧ c.Build.Image ≠ c.Stack.BuildImage then
    ValidateOutcome.returns (some "build.image and stack.build-image do not match")
  else if c.Run.Images.length = 0 ∧ (c.Stack.RunImage = "" ∨ c.Stack.ID = "") then
    ValidateOutcome.returns (some "run.images are required")
  else
    match validateRunImages c.Run.Images with
    | some err => ValidateOutcome.returns (some err)
    | none =>
      if c.Stack.RunImage ≠ "" then
        match c.Run.Images with
        | [] => ValidateOutcome.indexOutOfRange 0 0
        | first :: _ =>
          if first.Image ≠ c.Stack.RunImage then
            ValidateOutcome.returns (some "run.images and stack.run-image do not match")
          else ValidateOutcome.returns none
      else ValidateOutcome.returns none

/-- The first half of `mergeStackWithImages`, on the build image:
`if c.Build.Image != "" { c.Stack.BuildImage = c.Build.Image } else if c.Build.Image == "" && c.Stack.BuildImage != "" { c.Build.Image = c.Stack.BuildImage }`. -/
def mergeBuildImage (c : Config) : Config :=
  if c.Build.Image ≠ "" then
    { c with Stack := { c.Stack with BuildImage := c.Build.Image } }
  else if c.Build.Image = "" ∧ c.Stack.BuildImage ≠ "" then
    { c with Build := { c.Build with Image := c.Stack.BuildImage } }
  else c

/-- The second half of `mergeStackWithImages`, on the run images: with run
images, the first one becomes the run image and the mirrors of the stack
(the index `0` is in range under the test `len(c.Run.Images) != 0`); without
run images and with a run image of the stack, that one becomes the only run
image. -/
def mergeRunImages (c : Config) : Config :=
  if c.Run.Images.length ≠ 0 then
    { c with Stack := { c.Stack with
        RunImage := (c.Run.Images.getD 0 {}).Image
        RunImageMirrors := (c.Run.Images.getD 0 {}).Mirrors } }
  else if c.Run.Images.length = 0 ∧ c.Stack.RunImage ≠ "" then
    { c with Run := { c.Run with
        Images := [{ Image := c.Stack.RunImage, Mirrors := c.Stack.RunImageMirrors }] } }
  else c

/-- Go `func (c *Config) mergeStackWithImages()`: the config that the receiver
points to after the call. -/
def Config.mergeStackWithImages (c : Config) : Config :=
  mergeRunImages (mergeBuildImage c)

/-! ## builder/config_reader.go: the environment directives -/

/-- Go `NONE Suffix = ""`. -/
def NONE : Suffix := ""

/-- Go `DEFAULT Suffix = "default"`. -/
def DEFAULT : Suffix := "default"

/-- Go `OVERRIDE Suffix = "override"`. -/
def OVERRIDE : Suffix := "override"

/-- Go `APPEND Suffix = "append"`. -/
def APPEND : Suffix := "append"

/-- Go `PREPEND Suffix = "prepend"`. -/
def PREPEND : Suffix := "prepend"

/-- The errors of `ParseBuildConfigEnv` and its helpers, one constructor per
message, with the arguments of the message. -/
inductive EnvError where
  /-- Wrapped `env name should not be empty`, with the path of the file. -/
  | emptyName (path : String)
  /-- Text `unknown action type %s`. -/
  | unknownActionType (suffix : String)
  /-- Text `Suffix might be null`. -/
  | suffixMightBeNull
  /-- Text `error parsing [[build.env]] in file '%s'`. -/
  | parsing (path : String)
deriving DecidableEq

/-- The warnings of `ParseBuildConfigEnv`, one constructor per message, with the
arguments the code gives to the message, in its order. -/
inductive EnvWarning where
  /-- Text `empty value for key/name %s`. -/
  | emptyValue (name : String)
  /-- Text `overriding env with name: %s and suffix: %s from %s to %s`. -/
  | overridingSuffix (name suffix old new : String)
  /-- Text `overriding env with name: %s and delim: %s from %s to %s`. -/
  | overridingDelim (name delim old new : String)
  /-- Text `env with name/key %s with suffix %s must to have a %s value`. -/
  | missingDelim (name suffix : String)
deriving DecidableEq

/-- A Go `map[string]string`, as an association list with distinct keys, in
the order in which the keys were first written. -/
abbrev EnvMap := List (String × String)

/-- Go `val, ok := envMap[k]`: `none` when `ok` is false. -/
def envGet : EnvMap → String → Option String
  | [], _ => none
  | (k1, v1) :: rest, k => if k1 = k then some v1 else envGet rest k

/-- Go `envMap[k] = v`. -/
def envSet : EnvMap → String → String → EnvMap
  | [], k, v => [(k, v)]
  | (k1, v1) :: rest, k, v => if k1 = k then (k, v) :: rest else (k1, v1) :: envSet rest k v

/-- Go `func getActionType(suffix Suffix) (suffixString string, err error)`. -/
def getActionType (suffix : Suffix) : String × Option EnvError :=
  if suffix = NONE then ("", none)
  else if suffix = DEFAULT then ("." ++ DEFAULT, none)
  else if suffix = OVERRIDE then ("." ++ OVERRIDE, none)
  else if suffix = APPEND then ("." ++ APPEND, none)
  else if suffix = PREPEND then ("." ++ PREPEND, none)
  else ("", some (EnvError.unknownActionType suffix))

/-- Go `func getBuildConfigEnvFileName(env BuildConfigEnv) (suffixName, delimName string, err error)`. -/
def getBuildConfigEnvFileName (env : BuildConfigEnv) : String × String × Option EnvError :=
  match getActionType env.Suffix with
  | (_, some err) => ("", "", some err)
  | (suffix, none) =>
    let suffixName := if suffix = "" then env.Name else env.Name ++ suffix
    let delimName := if env.Delim ≠ "" then env.Name ++ ".delim" else ""
    (suffixName, delimName, none)

/-- Go `strings.Split(s, ".")` on the characters of `s`: the pieces between
the dots, and one empty piece for the empty string. -/
def splitOnDot : List Char → List (List Char)
  | [] => [[]]
  | ch :: rest =>
    if ch = '.' then [] :: splitOnDot rest
    else
      match splitOnDot rest with
      | [] => [[ch]]
      | piece :: pieces => (ch :: piece) :: pieces

/-- Go `func getFilePrefixSuffix(filename string) (prefix, suffix string, err error)`. -/
def getFilePrefixSuffix (filename : String) : String × String × Option EnvError :=
  let val : List String := (splitOnDot filename.data).map String.mk
  if val.length ≤ 1 then
    (val.headD "", "", some EnvError.suffixMightBeNull)
  else if val.length = 2 then
    (val.headD "", val.getD 1 "", none)
  else
    (val.headD "", ".".intercalate val.tail, none)

/-- The second loop of `ParseBuildConfigEnv`, `for k := range envMap`, over the
entries still to visit: a key whose suffix is `append` or `prepend` and whose
`name + ".delim"` is not in `envMap` adds a warning and counts.  Go visits the
keys of a map in no fixed order: the entries to visit are an argument of their
own, in the order of the visit. -/
def checkDelims (envMap : EnvMap) : List (String × String) → List EnvWarning → Nat →
    List EnvWarning × Nat
  | [], warnings, n => (warnings, n)
  | (k, _) :: rest, warnings, n =>
    match getFilePrefixSuffix k with
    | (_, _, some _) => checkDelims envMap rest warnings n
    | (name, suffix, none) =>
      if (suffix = "append" ∨ suffix = "prepend") ∧ envGet envMap (name ++ ".delim") = none then
        checkDelims envMap rest (warnings ++ [EnvWarning.missingDelim name suffix]) (n + 1)
      else
        checkDelims envMap rest warnings n

/-- The part of `ParseBuildConfigEnv` after its first loop, in the run that
visits the keys of the map in the order in which they were first written. -/
def finishBuildConfigEnv (path : String) (envMap : EnvMap) (warnings : List EnvWarning) :
    Option EnvMap × List EnvWarning × Option EnvError :=
  match checkDelims envMap envMap warnings 0 with
  | (warnings1, appendOrPrependWithoutDelim) =>
    if appendOrPrependWithoutDelim > 0 then
      (some envMap, warnings1, some (EnvError.parsing path))
    else
      (some envMap, warnings1, none)

/-- The first loop of `ParseBuildConfigEnv`, `for _, v := range env`, followed
by the rest of the function.  A nil map is `none`. -/
def parseBuildConfigEnvLoop (path : String) :
    List BuildConfigEnv → EnvMap → List EnvWarning →
    Option EnvMap × List EnvWarning × Option EnvError
  | [], envMap, warnings => finishBuildConfigEnv path envMap warnings
  | v :: rest, envMap, warnings =>
    if v.Name = "" then
      (none, [], some (EnvError.emptyName path))
    else
      let warnings1 :=
        if v.Value = "" then warnings ++ [EnvWarning.emptyValue v.Name] else warnings
      match getBuildConfigEnvFileName v with
      | (_, _, some err) => (some envMap, warnings1, some err)
      | (suffixName, delimName, none) =>
        let warnings2 :=
          match envGet envMap suffixName with
          | some val => warnings1 ++ [EnvWarning.overridingSuffix v.Name v.Suffix val v.Value]
          | none => warnings1
        let warnings3 :=
          match envGet envMap delimName with
          | some val => warnings2 ++ [EnvWarning.overridingDelim v.Name v.Delim val v.Value]
          | none => warnings2
        let envMap1 :=
          if v.Delim ≠ "" ∧ delimName ≠ "" then envSet envMap delimName v.Delim else envMap
        parseBuildConfigEnvLoop path rest (envSet envMap1 suffixName v.Value) warnings3

/-- Go `func ParseBuildConfigEnv(env []BuildConfigEnv, path string) (envMap map[string]string, warnings []string, err error)`. -/
def ParseBuildConfigEnv (env : List BuildConfigEnv) (path : String) :
    Option EnvMap × List EnvWarning × Option EnvError :=
  parseBuildConfigEnvLoop path env [] []

/-- The part of `ParseBuildConfigEnv` after its first loop, with the order in
which `for k := range envMap` visits the keys made explicit: `order envMap`
lists the entries of the map in the order of the visit.  Go fixes no order;
every permutation of the entries is a possible visit. -/
def finishBuildConfigEnvIn (order : EnvMap → EnvMap) (path : String) (envMap : EnvMap)
    (warnings : List EnvWarning) : Option EnvMap × List EnvWarning × Option EnvError :=
  match checkDelims envMap (order envMap) warnings 0 with
  | (warnings1, appendOrPrependWithoutDelim) =>
    if appendOrPrependWithoutDelim > 0 then
      (some envMap, warnings1, some (EnvError.parsing path))
    else
      (some envMap, warnings1, none)

/-- The first loop of `ParseBuildConfigEnv`, `for _, v := range env`, followed
by the rest of the function in which the keys are visited in the given
order. -/
def parseBuildConfigEnvLoopIn (order : EnvMap → EnvMap) (path : String) :
    List BuildConfigEnv → EnvMap → List EnvWarning →
    Option EnvMap × List EnvWarning × Option EnvError
  | [], envMap, warnings => finishBuildConfigEnvIn order path envMap warnings
  | v :: rest, envMap, warnings =>
    if v.Name = "" then
      (none, [], some (EnvError.emptyName path))
    else
      let warnings1 :=
        if v.Value = "" then warnings ++ [EnvWarning.emptyValue v.Name] else warnings
      match getBuildConfigEnvFileName v with
      | (_, _, some err) => (some envMap, warnings1, some err)
      | (suffixName, delimName, none) =>
        let warnings2 :=
          match envGet envMap suffixName with
          | some val => warnings1 ++ [EnvWarning.overridingSuffix v.Name v.Suffix val v.Value]
          | none => warnings1
        let warnings3 :=
          match envGet envMap delimName with
          | some val => warnings2 ++ [EnvWarning.overridingDelim v.Name v.Delim val v.Value]
          | none => warnings2
        let envMap1 :=
          if v.Delim ≠ "" ∧ delimName ≠ "" then envSet envMap delimName v.Delim else envMap
        parseBuildConfigEnvLoopIn order path rest (envSet envMap1 suffixName v.Value) warnings3

/-- Go `func ParseBuildConfigEnv(env []BuildConfigEnv, path string) (envMap map[string]string, warnings []string, err error)`
for a run in which `for k := range envMap` visits the keys in the given order;
`ParseBuildConfigEnv` is the run in which the keys are visited in the order in
which they were first written. -/
def ParseBuildConfigEnvIn (order : EnvMap → EnvMap) (env : List BuildConfigEnv)
    (path : String) : Option EnvMap × List EnvWarning × Option EnvError :=
  parseBuildConfigEnvLoopIn order path env [] []

/-! ## Vocabulary of the statements -/

/-- The concrete units of a target, as `(distroName, distroVersion)` pairs in
enumeration order: the pair of empty strings when the target declares no
distribution; otherwise, distribution after distribution, the pair
`(Name, "")` for a distribution without versions and the pairs
`(Name, version)` in the order of the versions for the others. -/
def Target.units (t : Target) : List (String × String) :=
  if t.Distributions.length = 0 then
    [("", "")]
  else
    t.Distributions.flatMap (fun d =>
      if d.Versions.length = 0 then [(d.Name, "")]
      else d.Versions.map (fun v => (d.Name, v)))

/-- The pairs `(distribution.Name, version)` of a target, distributions in
declaration order and versions in declaration order within each: there are
`v_1 + ... + v_k` of them. -/
def Target.declaredPairs (t : Target) : List (String × String) :=
  t.Distributions.flatMap (fun d => d.Versions.map (fun v => (d.Name, v)))

/-- The state reached from `s` when the callback is invoked for the receiver
`t` with each pair of the list, in order. -/
def invokeAll {σ ε : Type} (op : RangeOp σ ε) (t : Target) (us : List (String × String))
    (s : σ) : σ :=
  us.foldl (fun acc u => (op t u.1 u.2 acc).2) s

/-- Whether every invocation returns nil, when the callback is invoked from
`s` for the receiver `t` with each pair of the list, in order. -/
def allNil {σ ε : Type} (op : RangeOp σ ε) (t : Target) : List (String × String) → σ → Bool
  | [], _ => true
  | u :: rest, s => (op t u.1 u.2 s).1.isNone && allNil op t rest (op t u.1 u.2 s).2

/-- A callback that records its arguments and returns nil. -/
def logOp : RangeOp (List (Target × String × String)) Unit :=
  fun t distroName distroVersion log => (none, log ++ [(t, distroName, distroVersion)])

/-- A callback that records its arguments and fails, with the version as the
error, on the version `20.04`. -/
def failingLogOp : RangeOp (List (String × String)) String :=
  fun _ distroName distroVersion log =>
    (if distroVersion = "20.04" then some distroVersion else none,
      log ++ [(distroName, distroVersion)])

/-- The number of units that `Range` enumerates for a target: the value of the
counter after `Range` with the counting callback. -/
def Target.rangeCount (t : Target) : Nat :=
  (t.Range countOp 0).2

/-- The total number of units that `Range` enumerates over all targets of
`Targets()`. -/
def MultiArchConfig.totalUnits (c : MultiArchConfig) : Nat :=
  (c.Targets.map Target.rangeCount).sum

/-- The units of all targets of `Targets()` in enumeration order: the targets
in order and, for each, its units in `Range` order. -/
def MultiArchConfig.enumeration (c : MultiArchConfig) : List (Target × String × String) :=
  c.Targets.flatMap (fun t => t.units.map (fun u => (t, u)))

/-- A target with one distribution that declares no version. -/
def versionlessTarget : Target :=
  { OS := "linux", Arch := "amd64", Distributions := [{ Name := "ubuntu", Versions := [] }] }

/-- A target with two distributions, of two versions and of one version. -/
def sampleTarget : Target :=
  { OS := "linux", Arch := "arm", ArchVariant := "v6",
    Distributions := [{ Name := "ubuntu", Versions := ["22.04", "20.04"] },
                      { Name := "debian", Versions := ["8.0"] }] }

/-- Calling the callback on the pairs of a list, in order, up to the first
error: the shape to which the loops of `Range` are reduced. -/
def runUnits {σ ε : Type} (op : RangeOp σ ε) (t : Target) :
    List (String × String) → σ → Option ε × σ
  | [], s => (none, s)
  | u :: rest, s =>
    match op t u.1 u.2 s with
    | (some err, s1) => (some err, s1)
    | (none, s1) => runUnits op t rest s1

/-- A resolver that always succeeds: neither entry point ever returns an
error. -/
def Collaborators.AlwaysSucceeds {σ ε : Type} (R : Collaborators σ ε) : Prop :=
  (∀ uri dir target s, (R.GetRelativeURI uri dir target s).2.1 = none) ∧
  (∀ uri target s, (R.ParseURItoString uri target s).2.1 = none)

/-- Calling a callback on the units of a list, each with its own target, in
order, up to the first error: the shape to which the loop of `BuilderConfigs`
is reduced. -/
def runOps {σ ε : Type} (op : RangeOp σ ε) :
    List (Target × String × String) → σ → Option ε × σ
  | [], s => (none, s)
  | u :: rest, s =>
    match op u.1 u.2.1 u.2.2 s with
    | (some err, s1) => (some err, s1)
    | (none, s1) => runOps op rest s1

/-- The resolution of one enumerated unit as `BuilderConfigs` does it: the call
`c.processTarget(target, "", "", getIndexManifest)` of its callback. -/
def MultiArchConfig.resolveUnit {σ ε : Type} (c : MultiArchConfig) (R : Collaborators σ ε)
    (u : Target × String × String) (s : σ) : Config × Option ε × σ :=
  c.processTarget u.1 "" "" R s

/-- The state of the collaborators after the units of the list have been
resolved from `s`, one after the other. -/
def MultiArchConfig.stateAfter {σ ε : Type} (c : MultiArchConfig) (R : Collaborators σ ε)
    (us : List (Target × String × String)) (s : σ) : σ :=
  us.foldl (fun acc u => (c.resolveUnit R u acc).2.2) s

/-- The configs that the units of the list resolve to, in order, when they are
resolved from `s` one after the other. -/
def MultiArchConfig.configsOf {σ ε : Type} (c : MultiArchConfig) (R : Collaborators σ ε) :
    List (Target × String × String) → σ → List Config
  | [], _ => []
  | u :: rest, s => (c.resolveUnit R u s).1 :: configsOf c R rest (c.resolveUnit R u s).2.2

/-- Whether every unit of the list resolves without error, when they are
resolved from `s` one after the other. -/
def MultiArchConfig.allResolve {σ ε : Type} (c : MultiArchConfig) (R : Collaborators σ ε) :
    List (Target × String × String) → σ → Bool
  | [], _ => true
  | u :: rest, s =>
    (c.resolveUnit R u s).2.1.isNone && allResolve c R rest (c.resolveUnit R u s).2.2

/-- A platform-normalisation helper for the examples: the enumerated pair
becomes the one distribution of the target, with its one version. -/
def foldUnit (target : Target) (distroName distroVersion : String) : Target :=
  { target with Distributions := [{ Name := distroName, Versions := [distroVersion] }] }

/-- A resolver for the examples.  It appends the URI it is given to the state;
it fails with the error `unresolvable` on the URI `bad` and on a target without
architecture, and returns the URI behind the operating system of the target. -/
def logResolve (uri : String) (target : Target) (log : List String) :
    String × Option String × List String :=
  (target.OS ++ ":" ++ uri,
    if uri = "bad" then some "unresolvable"
    else if target.Arch = "" then some "unresolvable"
    else none,
    log ++ [uri])

/-- Collaborators for the examples: `foldUnit` and, as both entry points of the
resolver, `logResolve`. -/
def logResolver : Collaborators (List String) String :=
  { ProcessTarget := foldUnit
    GetRelativeURI := fun uri _dir target log => logResolve uri target log
    ParseURItoString := logResolve }

/-- Collaborators for the examples that always succeed and return the URI they
are given; they have no state. -/
def idResolver : Collaborators Unit String :=
  { ProcessTarget := foldUnit
    GetRelativeURI := fun uri _dir _target s => (uri, none, s)
    ParseURItoString := fun uri _target s => (uri, none, s) }

/-- A config with two targets and, in all, four units; nothing in it fails to
resolve with `logResolver`. -/
def sampleConfig : MultiArchConfig :=
  { Description := "sample builder"
    Buildpacks := [{ ID := "some/bp", Version := "1.0" }, { URI := "bp.tgz" }]
    Build := { Image := "build" }
    Run := { Images := [{ Image := "run" }] }
    WithTargets := [sampleTarget, { OS := "windows", Arch := "amd64" }] }

/-- A config whose modules are all registry-id entries (no URI), with every
other field set. -/
def registryConfig : MultiArchConfig :=
  { Description := "registry builder"
    Buildpacks := [{ ID := "some/bp", Version := "1.0" }]
    Extensions := [{ ID := "some/ext", Version := "2.0" }]
    Order := [{ Group := [{ ID := "some/bp", Version := "1.0" }] }]
    OrderExtensions := [{ Group := [{ ID := "some/ext", Version := "2.0" }] }]
    Stack := { ID := "stack", BuildImage := "build", RunImage := "run", RunImageMirrors := ["mirror"] }
    Lifecycle := { Version := "0.17.0" }
    Run := { Images := [{ Image := "run", Mirrors := ["mirror"] }] }
    Build := { Image := "build", Env := [{ Name := "A", Value := "1" }] }
    WithTargets := [{ OS := "linux", Arch := "amd64" }] }

/-- The registry config with a build image that does not resolve with
`logResolver`. -/
def failingRegistryConfig : MultiArchConfig :=
  { registryConfig with Build := { Image := "bad" } }

/-- A config of three targets without distributions, the second of which has
no architecture and so fails to resolve with `logResolver`. -/
def partlyFailingConfig : MultiArchConfig :=
  { Description := "builder"
    Build := { Image := "build" }
    Run := { Images := [{ Image := "run" }] }
    WithTargets := [{ OS := "linux", Arch := "amd64" }, { OS := "linux" },
                    { OS := "windows", Arch := "amd64" }] }

/-- Whether a suffix is one of the five recognised ones: none (the empty
string), `default`, `override`, `append` or `prepend`. -/
def recognised (suffix : Suffix) : Bool :=
  suffix = "" || suffix = "default" || suffix = "override" || suffix = "append" ||
    suffix = "prepend"

/-- The effective key of a directive in the words of the spec: `Name` for the
suffix none, and `Name + "." + suffix` for the other suffixes. -/
def effectiveKey (d : BuildConfigEnv) : String :=
  if d.Suffix = "" then d.Name else d.Name ++ "." ++ d.Suffix

/-- What one directive writes, in the words of the spec: its `Delim` under the
key `Name + ".delim"`, only when the `Delim` is not empty, and then its `Value`
under its effective key. -/
def directiveWrites (d : BuildConfigEnv) : List (String × String) :=
  (if d.Delim ≠ "" then [(d.Name ++ ".delim", d.Delim)] else []) ++ [(effectiveKey d, d.Value)]

/-- All the writes of a directive list, from left to right. -/
def specWrites (env : List BuildConfigEnv) : List (String × String) :=
  env.flatMap directiveWrites

/-- The left-to-right fold of the spec: each directive writes its `Delim`, when
it has one, and then its `Value`, into the map built so far. -/
def specFold (env : List BuildConfigEnv) (start : EnvMap) : EnvMap :=
  env.foldl (fun m d =>
    envSet (if d.Delim ≠ "" then envSet m (d.Name ++ ".delim") d.Delim else m)
      (effectiveKey d) d.Value) start

/-- The value of the last write to the key `k` in a list of writes, if any. -/
def lastWrite : List (String × String) → String → Option String
  | [], _ => none
  | w :: rest, k =>
    match lastWrite rest k with
    | some v => some v
    | none => if w.1 = k then some w.2 else none

/-- Three directives: an `append` with its delimiter, a second `append` of the
same name, which overwrites the value, and a plain variable. -/
def sampleEnv : List BuildConfigEnv :=
  [{ Name := "A", Value := "1", Suffix := "append", Delim := "_" },
   { Name := "A", Value := "2", Suffix := "append" },
   { Name := "B", Value := "x" }]

/-- One `append` directive without delimiter, whose name holds a dot. -/
def dottedEnv : List BuildConfigEnv :=
  [{ Name := "A.B", Value := "1", Suffix := "append" }]

/-- One `append` directive without delimiter, and a plain variable. -/
def undelimitedEnv : List BuildConfigEnv :=
  [{ Name := "A", Value := "1", Suffix := "append" }, { Name := "B", Value := "x" }]

/-- A config whose build image and stack build image are both set and
disagree, with one run image. -/
def mismatchConfig : Config :=
  { Build := { Image := "x" }
    Stack := { BuildImage := "y" }
    Run := { Images := [{ Image := "run" }] } }

/-- A config with only the stack build image set. -/
def stackOnlyConfig : Config :=
  { Stack := { BuildImage := "x" } }

/-- A config with a build image and two run images, whose stack names another
run image. -/
def runImagesConfig : Config :=
  { Build := { Image := "build" }
    Stack := { ID := "stack", RunImage := "old", RunImageMirrors := ["old-mirror"] }
    Run := { Images := [{ Image := "a", Mirrors := ["a-mirror"] }, { Image := "b" }] } }

/-- A config with a build image and, for the run image, only the legacy fields
of the stack. -/
def legacyStackConfig : Config :=
  { Build := { Image := "build" }
    Stack := { ID := "stack", RunImage := "run", RunImageMirrors := ["mirror"] } }

/-- A config with a build image and no run image at all. -/
def noRunImageConfig : Config :=
  { Build := { Image := "build" } }

/-- Whether a warning is a missing-delimiter warning. -/
def EnvWarning.isMissingDelim : EnvWarning → Bool
  | EnvWarning.missingDelim _ _ => true
  | _ => false

/-- Whether a warning is an overwrite warning, for an effective key or for a
delimiter key. -/
def EnvWarning.isOverwrite : EnvWarning → Bool
  | EnvWarning.overridingSuffix _ _ _ _ => true
  | EnvWarning.overridingDelim _ _ _ _ => true
  | _ => false

/-- The missing-delimiter warning that a key of the map calls for, if any: the
key splits at its first dot into a name and a suffix, the suffix is `append` or
`prepend`, and `name + ".delim"` is not a key of the map. -/
def missingDelimOf (m : EnvMap) (k : String) : Option EnvWarning :=
  match getFilePrefixSuffix k with
  | (name, suffix, none) =>
    if (suffix = "append" ∨ suffix = "prepend") ∧ envGet m (name ++ ".delim") = none then
      some (EnvWarning.missingDelim name suffix)
    else none
  | (_, _, some _) => none

/-- The pieces of a string put together again, with a dot between two pieces. -/
def joinDot : List (List Char) → List Char
  | [] => []
  | piece :: pieces => piece ++ pieces.flatMap (fun q => '.' :: q)

/-- Two `append` directives of the same name, each with a delimiter. -/
def twiceDelimitedEnv : List BuildConfigEnv :=
  [{ Name := "A", Value := "1", Suffix := "append", Delim := ":" },
   { Name := "A", Value := "2", Suffix := "append", Delim := ":" }]

/-- Two `append` directives without delimiter and a plain variable. -/
def twoUndelimitedEnv : List BuildConfigEnv :=
  [{ Name := "A", Value := "1", Suffix := "append" },
   { Name := "B", Value := "", Suffix := "prepend" },
   { Name := "C", Value := "x" }]

/-- One plain directive whose name ends in `.append`. -/
def plainDottedEnv : List BuildConfigEnv :=
  [{ Name := "A.append", Value := "1" }]

/-- An `append` with its delimiter, whose value is overwritten by an empty
one, and a plain variable with an empty value. -/
def emptyValueEnv : List BuildConfigEnv :=
  [{ Name := "A", Value := "1", Suffix := "append", Delim := ":" },
   { Name := "A", Value := "", Suffix := "append" },
   { Name := "B", Value := "" }]

/-- The sample config with one target given on the command line. -/
def flaggedConfig : MultiArchConfig :=
  { sampleConfig with flagTargets := [{ OS := "freebsd", Arch := "amd64" }] }

/-- A config with only the run image of the stack set. -/
def stackRunOnlyConfig : Config :=
  { Stack := { RunImage := "run" } }

/-- A config with a build image and the run image of the stack, without the
stack id. -/
def stackRunNoIdConfig : Config :=
  { Build := { Image := "build" }
    Stack := { RunImage := "run" } }

/-- A directive list with dot-free names in which the `append` of `A` has its
delimiter from another directive of the name `A`. -/
def delimitedElsewhereEnv : List BuildConfigEnv :=
  [{ Name := "A", Value := "1", Suffix := "append" },
   { Name := "A", Value := "2", Suffix := "default", Delim := ":" }]

/-- A resolver whose results are those of two functions: `g` of the URI, the
base directory and the target for `GetRelativeURI`, and `f` of the URI and the
target for `ParseURItoString`, whatever the state. -/
def Collaborators.Returns {σ ε : Type} (R : Collaborators σ ε)
    (g : String → String → Target → String) (f : String → Target → String) : Prop :=
  (∀ uri dir target s, (R.GetRelativeURI uri dir target s).1 = g uri dir target) ∧
  (∀ uri target s, (R.ParseURItoString uri target s).1 = f uri target)

/-- The config of a unit for the normalised target `target`, when the resolver
always succeeds and returns `g` and `f`: the description and the orders of the
base config; for each module a zero value, with the resolved URI when the
module has one; the resolved build image, run images, stack build image and
stack run image; mirrors that are empty strings, as many as the base config
has; and the target. -/
def MultiArchConfig.resolvedConfig (c : MultiArchConfig)
    (g : String → String → Target → String) (f : String → Target → String)
    (target : Target) : Config :=
  { Description := c.Description
    Buildpacks := c.Buildpacks.map (fun bp =>
      if bp.URI ≠ "" then { URI := g bp.URI c.relativeBaseDir target } else {})
    Extensions := c.Extensions.map (fun ext =>
      if ext.URI ≠ "" then { URI := g ext.URI c.relativeBaseDir target } else {})
    Order := c.Order
    OrderExtensions := c.OrderExtensions
    Stack :=
      { BuildImage := if c.Stack.BuildImage ≠ "" then f c.Stack.BuildImage target else ""
        RunImage := if c.Stack.RunImage ≠ "" then f c.Stack.RunImage target else ""
        RunImageMirrors := List.replicate c.Stack.RunImageMirrors.length "" }
    Run := { Images := c.Run.Images.map (fun runImg =>
      { Image := f runImg.Image target
        Mirrors := List.replicate runImg.Mirrors.length "" }) }
    Build := { Image := if c.Build.Image ≠ "" then f c.Build.Image target else "" }
    WithTargets := [target] }

/-- Collaborators for the examples that always succeed and return the URI
behind the operating system of the target; they have no state. -/
def tagResolver : Collaborators Unit String :=
  { ProcessTarget := foldUnit
    GetRelativeURI := fun uri dir target s => (target.OS ++ ":" ++ dir ++ uri, none, s)
    ParseURItoString := fun uri target s => (target.OS ++ ":" ++ uri, none, s) }

/-- The strings that the resolver returns when the mirrors of the list are
resolved from `s` one after the other, whether the calls fail or not. -/
def triedResults {σ ε : Type} (resolve : String → σ → String × Option ε × σ) :
    List String → σ → List String
  | [], _ => []
  | mirror :: rest, s => (resolve mirror s).1 :: triedResults resolve rest (resolve mirror s).2.2

/-- The state reached when the mirrors of the list are resolved from `s` one
after the other. -/
def triedState {σ ε : Type} (resolve : String → σ → String × Option ε × σ)
    (mirrors : List String) (s : σ) : σ :=
  mirrors.foldl (fun acc mirror => (resolve mirror acc).2.2) s

/-- Whether every mirror of the list fails to resolve, when they are resolved
from `s` one after the other. -/
def allFail {σ ε : Type} (resolve : String → σ → String × Option ε × σ) :
    List String → σ → Bool
  | [], _ => true
  | mirror :: rest, s =>
    (resolve mirror s).2.1.isSome && allFail resolve rest (resolve mirror s).2.2

/-- A base config with a build image and one run image whose image is empty. -/
def emptyRunImageBase : Config :=
  { Build := { Image := "build" }
    Run := { Images := [{ Image := "" }] }
    WithTargets := [{ OS := "linux", Arch := "amd64" }] }

/-- The multi-arch config of the normalised `emptyRunImageBase`. -/
def emptyRunImageConfig : MultiArchConfig :=
  { toConfig := emptyRunImageBase.mergeStackWithImages }

/-- The multi-arch config of the normalised `runImagesConfig`, with one target
and two modules, of which one has a URI. -/
def normalisedConfig : MultiArchConfig :=
  { toConfig :=
      { runImagesConfig.mergeStackWithImages with
          Buildpacks := [{ ID := "some/bp", Version := "1.0" }, { URI := "bp.tgz" }]
          WithTargets := [{ OS := "linux", Arch := "amd64" }] }
    relativeBaseDir := "base/" }

/-- A config with one target whose run image `bad` has three mirrors, the first
of which is `bad` too, and whose stack run image `bad` has two mirrors, the
first of which is `bad`: with `logResolver` the images fail and the second
mirrors resolve. -/
def mirrorsConfig : MultiArchConfig :=
  { Build := { Image := "build" }
    Run := { Images := [{ Image := "bad", Mirrors := ["bad", "m2", "m3"] }] }
    Stack := { RunImage := "bad", RunImageMirrors := ["bad", "s2", "s3"] }
    WithTargets := [{ OS := "linux", Arch := "amd64" }] }

/-- A resolver entry point whose returned string and error do not depend on
the state in which it is called. -/
def stateless {σ ε : Type} (resolve : String → σ → String × Option ε × σ) : Prop :=
  ∀ uri sa sb, (resolve uri sa).1 = (resolve uri sb).1 ∧
    (resolve uri sa).2.1 = (resolve uri sb).2.1

/-- A deterministic resolver: what each entry point returns is a function of
its arguments, whatever the state of the collaborators.  The normaliser
`ProcessTarget` is a function already. -/
def Collaborators.Deterministic {σ ε : Type} (R : Collaborators σ ε) : Prop :=
  (∀ dir target, stateless (fun uri => R.GetRelativeURI uri dir target)) ∧
  (∀ target, stateless (fun uri => R.ParseURItoString uri target))

/-- A config without run image, with the run image and the id of the stack
set, whose build image and stack build image are both set and differ. -/
def stackMismatchConfig : Config :=
  { Build := { Image := "x" }
    Stack := { ID := "stack", BuildImage := "y", RunImage := "run" } }

/-- Two `append` directives without delimiter, the first with a name that
holds a dot. -/
def dottedAndPlainEnv : List BuildConfigEnv :=
  [{ Name := "A.B", Value := "1", Suffix := "append" },
   { Name := "C", Value := "2", Suffix := "append" }]

/-- A resolver whose errors are a function of its arguments, whatever the
state of the collaborators: `eg` gives the error of `GetRelativeURI` and `ef`
that of `ParseURItoString`. -/
def Collaborators.Errors {σ ε : Type} (R : Collaborators σ ε)
    (eg : String → String → Target → Option ε) (ef : String → Target → Option ε) : Prop :=
  (∀ uri dir target s, (R.GetRelativeURI uri dir target s).2.1 = eg uri dir target) ∧
  (∀ uri target s, (R.ParseURItoString uri target s).2.1 = ef uri target)

/-- The mirrors of a fallback, when `f1` is what the resolver returns and
`fails` tells on which URIs it fails: the mirrors are resolved in order up to
and with the first one that resolves, and the later ones are left empty. -/
def fallbackMirrors (f1 : String → String) (fails : String → Bool) : List String → List String
  | [] => []
  | mirror :: rest =>
    if fails mirror then f1 mirror :: fallbackMirrors f1 fails rest
    else f1 mirror :: List.replicate rest.length ""

/-- A run image after its resolution: the image is resolved; the mirrors are
all left empty when the image resolves, and are a fallback when it fails. -/
def runImageFallback (f1 : String → String) (fails : String → Bool)
    (runImg : RunImageConfig) : RunImageConfig :=
  { Image := f1 runImg.Image
    Mirrors :=
      if fails runImg.Image then fallbackMirrors f1 fails runImg.Mirrors
      else List.replicate runImg.Mirrors.length "" }

/-- Whether the resolution of a run image fails altogether: its image fails
and every one of its mirrors fails. -/
def runImageFails (fails : String → Bool) (runImg : RunImageConfig) : Bool :=
  fails runImg.Image && runImg.Mirrors.all fails

/-- A config with one target whose one run image `bad` has the one mirror
`bad`: with `logResolver` the image and the mirror fail. -/
def failingMirrorsConfig : MultiArchConfig :=
  { Build := { Image := "build" }
    Run := { Images := [{ Image := "bad", Mirrors := ["bad"] }] }
    WithTargets := [{ OS := "linux", Arch := "amd64" }] }

/-- A config with one target whose stack run image `bad` has the one mirror
`bad`: with `logResolver` the image and the mirror fail. -/
def failingStackConfig : MultiArchConfig :=
  { Build := { Image := "build" }
    Run := { Images := [{ Image := "run" }] }
    Stack := { RunImage := "bad", RunImageMirrors := ["bad"] }
    WithTargets := [{ OS := "linux", Arch := "amd64" }] }

/-! ## Theorems: `Target.Range` -/

theorem runUnits_append {σ ε : Type} (op : RangeOp σ ε) (t : Target)
    (us vs : List (String × String)) (s : σ) :
    runUnits op t (us ++ vs) s =
      match runUnits op t us s with
      | (some err, s1) => (some err, s1)
      | (none, s1) => runUnits op t vs s1 := by
  induction us generalizing s with
  | nil => simp [runUnits]
  | cons u rest ih =>
    simp only [List.cons_append, runUnits]
    rcases h : op t u.1 u.2 s with ⟨_ | err, s1⟩
    · simp [ih]
    · simp

theorem rangeVersions_eq_runUnits {σ ε : Type} (op : RangeOp σ ε) (t : Target) (name : String)
    (vs : List String) (s : σ) :
    rangeVersions t op name vs s = runUnits op t (vs.map (fun v => (name, v))) s := by
  induction vs generalizing s with
  | nil => simp [rangeVersions, runUnits]
  | cons v rest ih =>
    simp only [rangeVersions, List.map_cons, runUnits]
    rcases h : op t name v s with ⟨_ | err, s1⟩
    · simp [ih]
    · simp

theorem rangeDistros_eq_runUnits {σ ε : Type} (op : RangeOp σ ε) (t : Target)
    (ds : List Distribution) (s : σ) :
    rangeDistros t op ds s =
      runUnits op t (ds.flatMap (fun d =>
        if d.Versions.length = 0 then [(d.Name, "")]
        else d.Versions.map (fun v => (d.Name, v)))) s := by
  induction ds generalizing s with
  | nil => simp [rangeDistros, runUnits]
  | cons d rest ih =>
    simp only [rangeDistros, List.flatMap_cons, runUnits_append]
    by_cases hv : d.Versions.length = 0
    · simp only [hv, if_true, runUnits]
      rcases h : op t d.Name "" s with ⟨_ | err, s1⟩
      · simp [ih]
      · simp
    · simp only [hv, if_false, rangeVersions_eq_runUnits]
      rcases h : runUnits op t (d.Versions.map (fun v => (d.Name, v))) s with ⟨_ | err, s1⟩
      · simp [ih]
      · simp

/-- The loops of `Range` call the callback on the units of the target, in
order, up to the first error. -/
theorem Range_eq_runUnits {σ ε : Type} (op : RangeOp σ ε) (t : Target) (s : σ) :
    t.Range op s = runUnits op t t.units s := by
  unfold Target.Range Target.units
  by_cases hd : t.Distributions.length = 0
  · simp only [hd, if_true, runUnits]
    rcases h : op t "" "" s with ⟨_ | err, s1⟩ <;> simp
  · simp only [hd, if_false, rangeDistros_eq_runUnits]

theorem runUnits_of_allNil {σ ε : Type} (op : RangeOp σ ε) (t : Target)
    (us : List (String × String)) (s : σ) (h : allNil op t us s = true) :
    runUnits op t us s = (none, invokeAll op t us s) := by
  induction us generalizing s with
  | nil => simp [runUnits, invokeAll]
  | cons u rest ih =>
    simp only [allNil, Bool.and_eq_true, Option.isNone_iff_eq_none] at h
    obtain ⟨h1, h2⟩ := h
    have hop : op t u.1 u.2 s = (none, (op t u.1 u.2 s).2) := Prod.ext h1 rfl
    have hrun : runUnits op t (u :: rest) s = runUnits op t rest (op t u.1 u.2 s).2 := by
      simp only [runUnits]
      rw [hop]
    rw [hrun, ih _ h2]
    simp [invokeAll]

theorem allNil_of_never_fails {σ ε : Type} (op : RangeOp σ ε) (t : Target)
    (h : ∀ n v s, (op t n v s).1 = none) (us : List (String × String)) (s : σ) :
    allNil op t us s = true := by
  induction us generalizing s with
  | nil => rfl
  | cons u rest ih => simp [allNil, h, ih]

theorem sum_map_length_flatMap {α β : Type} (f : α → List β) (l : List α) :
    (l.flatMap f).length = (l.map (fun a => (f a).length)).sum := by
  induction l with
  | nil => rfl
  | cons a rest ih => simp [List.flatMap_cons, ih]

/-- The number of units of a target: one without distributions, and otherwise
the sum over the distributions of the number of versions, a distribution
without versions counting for one. -/
theorem units_length (t : Target) :
    t.units.length =
      if t.Distributions.length = 0 then 1
      else (t.Distributions.map (fun d => max 1 d.Versions.length)).sum := by
  unfold Target.units
  by_cases hd : t.Distributions.length = 0
  · simp [hd]
  · simp only [hd, if_false, sum_map_length_flatMap]
    congr 1
    apply List.map_congr_left
    intro d _
    by_cases hv : d.Versions.length = 0
    · simp [hv]
    · simp only [hv, if_false, List.length_map]
      omega

theorem units_length_pos (t : Target) : 0 < t.units.length := by
  unfold Target.units
  by_cases hd : t.Distributions.length = 0
  · simp [hd]
  · simp only [hd, if_false]
    cases hds : t.Distributions with
    | nil => simp [hds] at hd
    | cons d rest =>
      simp only [List.flatMap_cons, List.length_append]
      by_cases hv : d.Versions.length = 0
      · simp [hv]
      · have : 0 < (d.Versions.map (fun v => (d.Name, v))).length := by
          simp only [List.length_map]; omega
        simp only [hv, if_false]
        omega

/-- Claim C6, as the code has it.  For every target and every callback that
never fails, `Range` returns nil after invoking the callback exactly once per
unit of the target, in order and always with the receiver itself: the state it
leaves is the one reached by invoking the callback on `t.units` one after the
other.  The number of invocations is 1 for a target without distributions and
otherwise the sum over the distributions of `max 1 v_i`, because a distribution
without versions gets one call with its name and the empty version; when every
distribution has a version the units are exactly the declared
`(Name, version)` pairs and the count is `v_1 + ... + v_k`. -/
theorem C6_range_invokes_once_per_unit {σ ε : Type} (t : Target) (op : RangeOp σ ε) (s : σ)
    (hop : ∀ n v s1, (op t n v s1).1 = none) :
    t.Range op s = (none, invokeAll op t t.units s) ∧
    t.units.length =
      (if t.Distributions.length = 0 then 1
       else (t.Distributions.map (fun d => max 1 d.Versions.length)).sum) ∧
    (t.Distributions.length = 0 → t.units = [("", "")]) ∧
    (t.Distributions.length ≠ 0 → (∀ d ∈ t.Distributions, d.Versions.length ≠ 0) →
      t.units = t.declaredPairs ∧
      t.units.length = (t.Distributions.map (fun d => d.Versions.length)).sum) := by
  refine ⟨?_, units_length t, ?_, ?_⟩
  · rw [Range_eq_runUnits]
    exact runUnits_of_allNil op t t.units s (allNil_of_never_fails op t hop t.units s)
  · intro hd
    simp [Target.units, hd]
  · intro hd hv
    have hu : t.units = t.declaredPairs := by
      unfold Target.units Target.declaredPairs
      simp only [hd, if_false]
      apply List.flatMap_congr
      intro d hmem
      simp [hv d hmem]
    refine ⟨hu, ?_⟩
    rw [hu, Target.declaredPairs, sum_map_length_flatMap]
    simp

/-- Witness of C6: the logging callback on the sample target. -/
theorem C6_range_invokes_once_per_unit_witness :
    (∀ n v s1, (logOp sampleTarget n v s1).1 = none) ∧
    sampleTarget.Range logOp [] =
      (none, [(sampleTarget, "ubuntu", "22.04"), (sampleTarget, "ubuntu", "20.04"),
              (sampleTarget, "debian", "8.0")]) :=
  ⟨fun _ _ _ => rfl,
   (C6_range_invokes_once_per_unit sampleTarget logOp [] (fun _ _ _ => rfl)).1.trans (by decide)⟩

/-- Counterexample to C6 as stated: a target whose one distribution declares
no version has `k = 1 > 0` and `v_1 = 0`, yet `Range` invokes a never-failing
callback once, with the name of the distribution and the empty version, and
not `v_1 = 0` times. -/
theorem C6_counterexample :
    versionlessTarget.Distributions.length > 0 ∧
    (versionlessTarget.Distributions.map (fun d => d.Versions.length)).sum = 0 ∧
    versionlessTarget.Range logOp [] = (none, [(versionlessTarget, "ubuntu", "")]) ∧
    (versionlessTarget.Range logOp []).2.length ≠
      (versionlessTarget.Distributions.map (fun d => d.Versions.length)).sum := by
  decide

/-- Claim C7.  `Range` is fail-fast.  For every target `t`, callback and start
state: if the units of `t` are `pre`, then `u`, then `post`, every invocation
for the units of `pre` returns nil and the invocation for `u` returns the error
`e` leaving the state `s2`, then `Range` returns `e` in the state `s2`, so that
no invocation is made after the failing one; and if every invocation returns
nil, `Range` returns nil after invoking the callback for every unit. -/
theorem C7_range_fail_fast {σ ε : Type} (t : Target) (op : RangeOp σ ε) (s : σ) :
    (∀ (pre post : List (String × String)) (u : String × String) (e : ε) (s2 : σ),
      t.units = pre ++ u :: post →
      allNil op t pre s = true →
      op t u.1 u.2 (invokeAll op t pre s) = (some e, s2) →
      t.Range op s = (some e, s2)) ∧
    (allNil op t t.units s = true → t.Range op s = (none, invokeAll op t t.units s)) := by
  constructor
  · intro pre post u e s2 hsplit hpre hfail
    rw [Range_eq_runUnits, hsplit, runUnits_append, runUnits_of_allNil op t pre s hpre]
    simp only [runUnits, hfail]
  · intro hall
    rw [Range_eq_runUnits]
    exact runUnits_of_allNil op t t.units s hall

/-- Witness of C7: on the sample target the callback fails at the second unit,
`Range` returns that error and the log holds the first two units only; on the
target without versions nothing fails and `Range` returns nil. -/
theorem C7_range_fail_fast_witness :
    sampleTarget.Range failingLogOp [] =
      (some "20.04", [("ubuntu", "22.04"), ("ubuntu", "20.04")]) ∧
    versionlessTarget.Range failingLogOp [] = (none, [("ubuntu", "")]) :=
  ⟨(C7_range_fail_fast sampleTarget failingLogOp []).1
      [("ubuntu", "22.04")] [("debian", "8.0")] ("ubuntu", "20.04") "20.04"
      [("ubuntu", "22.04"), ("ubuntu", "20.04")] (by decide) (by decide) (by decide),
   ((C7_range_fail_fast versionlessTarget failingLogOp []).2 (by decide)).trans (by decide)⟩

/-! ## Theorems: `MultiArch` -/

theorem runUnits_countOp (t : Target) (us : List (String × String)) (n : Nat) :
    runUnits countOp t us n = (none, n + us.length) := by
  induction us generalizing n with
  | nil => simp [runUnits]
  | cons u rest ih =>
    simp only [runUnits, countOp, ih, List.length_cons]
    congr 1
    omega

theorem Range_countOp (t : Target) (n : Nat) :
    (t.Range countOp n).2 = n + t.units.length := by
  rw [Range_eq_runUnits, runUnits_countOp]

theorem rangeCount_eq (t : Target) : t.rangeCount = t.units.length := by
  simp [Target.rangeCount, Range_countOp]

theorem rangeCount_pos (t : Target) : 1 ≤ t.rangeCount := by
  rw [rangeCount_eq]
  exact units_length_pos t

theorem foldl_count (ts : List Target) (n : Nat) :
    ts.foldl (fun k target => (target.Range countOp k).2) n =
      n + (ts.map Target.rangeCount).sum := by
  induction ts generalizing n with
  | nil => simp
  | cons t rest ih =>
    rw [List.foldl_cons, ih, Range_countOp, List.map_cons, List.sum_cons, rangeCount_eq]
    omega

theorem length_le_sum_rangeCount (ts : List Target) :
    ts.length ≤ (ts.map Target.rangeCount).sum := by
  induction ts with
  | nil => simp
  | cons t rest ih =>
    have := rangeCount_pos t
    simp only [List.length_cons, List.map_cons, List.sum_cons]
    omega

/-- Claim C8.  For every `MultiArchConfig`, `MultiArch()` is true if and only
if the total number of units that `Range` enumerates over the targets of
`Targets()` is greater than one; it is false without targets and true with two
or more targets, whatever their distributions. -/
theorem C8_multiArch_iff_more_than_one_unit (c : MultiArchConfig) :
    (c.MultiArch = true ↔ c.totalUnits > 1) ∧
    (c.Targets.length = 0 → c.MultiArch = false) ∧
    (c.Targets.length ≥ 2 → c.MultiArch = true) := by
  have hsum := length_le_sum_rangeCount c.Targets
  refine ⟨?_, ?_, ?_⟩
  · unfold MultiArchConfig.MultiArch MultiArchConfig.totalUnits
    by_cases hlen : c.Targets.length > 1
    · simp only [hlen, if_true, true_iff]
      omega
    · simp only [hlen, if_false, foldl_count, decide_eq_true_eq, Nat.zero_add]
  · intro h0
    unfold MultiArchConfig.MultiArch
    have hnil : c.Targets = [] := List.length_eq_zero.mp h0
    simp [hnil]
  · intro h2
    unfold MultiArchConfig.MultiArch
    have hlen : c.Targets.length > 1 := h2
    simp [hlen]

/-- Witness of C8: the sample config enumerates four units and is multi-arch;
the config without targets is not. -/
theorem C8_multiArch_iff_more_than_one_unit_witness :
    sampleConfig.totalUnits > 1 ∧ sampleConfig.MultiArch = true ∧
    ({} : MultiArchConfig).MultiArch = false :=
  ⟨by decide, (C8_multiArch_iff_more_than_one_unit sampleConfig).1.mpr (by decide),
   (C8_multiArch_iff_more_than_one_unit {}).2.1 (by decide)⟩

/-! ## Theorems: the loop of `BuilderConfigs` -/

theorem runOps_append {σ ε : Type} (op : RangeOp σ ε)
    (us vs : List (Target × String × String)) (s : σ) :
    runOps op (us ++ vs) s =
      match runOps op us s with
      | (some err, s1) => (some err, s1)
      | (none, s1) => runOps op vs s1 := by
  induction us generalizing s with
  | nil => simp [runOps]
  | cons u rest ih =>
    simp only [List.cons_append, runOps]
    rcases h : op u.1 u.2.1 u.2.2 s with ⟨_ | err, s1⟩
    · simp [ih]
    · simp

theorem runUnits_eq_runOps {σ ε : Type} (op : RangeOp σ ε) (t : Target)
    (us : List (String × String)) (s : σ) :
    runUnits op t us s = runOps op (us.map (fun u => (t, u))) s := by
  induction us generalizing s with
  | nil => simp [runUnits, runOps]
  | cons u rest ih =>
    simp only [runUnits, List.map_cons, runOps]
    rcases h : op t u.1 u.2 s with ⟨_ | err, s1⟩
    · simp [ih]
    · simp

/-- The nested loops of `BuilderConfigs` call the callback on the units of the
targets, in enumeration order, up to the first error. -/
theorem builderConfigsLoop_eq_runOps {σ ε : Type} (c : MultiArchConfig) (R : Collaborators σ ε)
    (ts : List Target) (st : List Config × σ) :
    builderConfigsLoop c R ts st =
      runOps (builderConfigsOp c R)
        (ts.flatMap (fun t => t.units.map (fun u => (t, u)))) st := by
  induction ts generalizing st with
  | nil => simp [builderConfigsLoop, runOps]
  | cons t rest ih =>
    simp only [builderConfigsLoop, List.flatMap_cons, runOps_append, Range_eq_runUnits,
      runUnits_eq_runOps]
    rcases h : runOps (builderConfigsOp c R) (t.units.map (fun u => (t, u))) st
      with ⟨_ | err, st1⟩
    · simp [ih]
    · simp

theorem BuilderConfigs_eq_runOps {σ ε : Type} (c : MultiArchConfig) (R : Collaborators σ ε)
    (s : σ) :
    c.BuilderConfigs R s =
      ((runOps (builderConfigsOp c R) c.enumeration ([], s)).2.1,
       (runOps (builderConfigsOp c R) c.enumeration ([], s)).1,
       (runOps (builderConfigsOp c R) c.enumeration ([], s)).2.2) := by
  unfold MultiArchConfig.BuilderConfigs MultiArchConfig.enumeration
  rw [builderConfigsLoop_eq_runOps]

theorem builderConfigsOp_eq {σ ε : Type} (c : MultiArchConfig) (R : Collaborators σ ε)
    (u : Target × String × String) (st : List Config × σ) :
    builderConfigsOp c R u.1 u.2.1 u.2.2 st =
      ((c.resolveUnit R u st.2).2.1, (st.1 ++ [(c.resolveUnit R u st.2).1], (c.resolveUnit R u st.2).2.2)) := by
  simp [builderConfigsOp, MultiArchConfig.resolveUnit]

/-- As long as the units resolve, the loop appends their configs in order and
threads the state of the collaborators through them. -/
theorem runOps_of_allResolve {σ ε : Type} (c : MultiArchConfig) (R : Collaborators σ ε)
    (us : List (Target × String × String)) (cfgs : List Config) (s : σ)
    (h : c.allResolve R us s = true) :
    runOps (builderConfigsOp c R) us (cfgs, s) =
      (none, (cfgs ++ c.configsOf R us s, c.stateAfter R us s)) := by
  induction us generalizing cfgs s with
  | nil => simp [runOps, MultiArchConfig.configsOf, MultiArchConfig.stateAfter]
  | cons u rest ih =>
    simp only [MultiArchConfig.allResolve, Bool.and_eq_true, Option.isNone_iff_eq_none] at h
    obtain ⟨h1, h2⟩ := h
    simp only [runOps, builderConfigsOp_eq, h1]
    rw [ih _ _ h2]
    simp [MultiArchConfig.configsOf, MultiArchConfig.stateAfter]

/-- The result of `BuilderConfigs` when the first failing unit comes after the
units of `pre`: the configs of `pre`, then the config that the failing unit
returned with its error, that error, and the state in which the failing unit
left the collaborators. -/
theorem BuilderConfigs_first_failure {σ ε : Type} (c : MultiArchConfig) (R : Collaborators σ ε)
    (s : σ) (pre post : List (Target × String × String)) (u : Target × String × String)
    (cfg : Config) (e : ε) (s2 : σ)
    (hsplit : c.enumeration = pre ++ u :: post)
    (hpre : c.allResolve R pre s = true)
    (hfail : c.resolveUnit R u (c.stateAfter R pre s) = (cfg, some e, s2)) :
    c.BuilderConfigs R s = (c.configsOf R pre s ++ [cfg], some e, s2) := by
  have hrun : runOps (builderConfigsOp c R) c.enumeration ([], s) =
      (some e, (c.configsOf R pre s ++ [cfg], s2)) := by
    rw [hsplit, runOps_append, runOps_of_allResolve c R pre [] s hpre]
    simp only [runOps, builderConfigsOp_eq, hfail, List.nil_append]
  rw [BuilderConfigs_eq_runOps, hrun]

/-- The result of `BuilderConfigs` when every unit resolves. -/
theorem BuilderConfigs_all_resolve {σ ε : Type} (c : MultiArchConfig) (R : Collaborators σ ε)
    (s : σ) (h : c.allResolve R c.enumeration s = true) :
    c.BuilderConfigs R s =
      (c.configsOf R c.enumeration s, none, c.stateAfter R c.enumeration s) := by
  rw [BuilderConfigs_eq_runOps, runOps_of_allResolve c R c.enumeration [] s h]
  simp

theorem configsOf_length {σ ε : Type} (c : MultiArchConfig) (R : Collaborators σ ε)
    (us : List (Target × String × String)) (s : σ) :
    (c.configsOf R us s).length = us.length := by
  induction us generalizing s with
  | nil => rfl
  | cons u rest ih => simp [MultiArchConfig.configsOf, ih]

theorem enumeration_length (c : MultiArchConfig) : c.enumeration.length = c.totalUnits := by
  unfold MultiArchConfig.enumeration MultiArchConfig.totalUnits
  rw [sum_map_length_flatMap]
  congr 1
  apply List.map_congr_left
  intro t _
  simp [rangeCount_eq]

/-! ## Theorems: `processTarget` -/

theorem resolveModules_ok {σ ε : Type} (resolve : String → σ → String × Option ε × σ)
    (h : ∀ uri s, (resolve uri s).2.1 = none) (base : List ModuleConfig) (i : Nat)
    (out : List ModuleConfig) (s : σ) :
    (resolveModules resolve base i out s).2.1 = none := by
  induction base generalizing i out s with
  | nil => rfl
  | cons bp rest ih =>
    simp only [resolveModules]
    by_cases hu : bp.URI = ""
    · simp [hu, ih]
    · have hr := h bp.URI s
      rcases hres : resolve bp.URI s with ⟨uri, err, s1⟩
      rw [hres] at hr
      simp only at hr
      subst hr
      simp [hu, ih]

theorem resolveModules_length {σ ε : Type} (resolve : String → σ → String × Option ε × σ)
    (base : List ModuleConfig) (i : Nat) (out : List ModuleConfig) (s : σ) :
    (resolveModules resolve base i out s).1.length = out.length := by
  induction base generalizing i out s with
  | nil => rfl
  | cons bp rest ih =>
    simp only [resolveModules]
    by_cases hu : bp.URI = ""
    · simp [hu, ih]
    · rcases hres : resolve bp.URI s with ⟨uri, _ | err, s1⟩
      · simp [hu, ih]
      · simp [hu]

/-- Modules that are all registry-id entries are left as they are, without any
call to the resolver. -/
theorem resolveModules_no_uri {σ ε : Type} (resolve : String → σ → String × Option ε × σ)
    (base : List ModuleConfig) (h : ∀ bp ∈ base, bp.URI = "") (i : Nat)
    (out : List ModuleConfig) (s : σ) :
    resolveModules resolve base i out s = (out, none, s) := by
  induction base generalizing i out s with
  | nil => rfl
  | cons bp rest ih =>
    have hbp : bp.URI = "" := h bp (List.mem_cons_self _ _)
    simp only [resolveModules, hbp, ne_eq, not_true_eq_false, if_false]
    exact ih (fun b hb => h b (List.mem_cons_of_mem _ hb)) _ _ _

theorem resolveRunImage_ok {σ ε : Type} (resolve : String → σ → String × Option ε × σ)
    (h : ∀ uri s, (resolve uri s).2.1 = none) (runImg cur : RunImageConfig) (s : σ) :
    (resolveRunImage resolve runImg cur s).2.1 = none := by
  have hr := h runImg.Image s
  rcases hres : resolve runImg.Image s with ⟨image, err, s1⟩
  rw [hres] at hr
  simp only at hr
  subst hr
  simp [resolveRunImage, hres]

theorem resolveRunImages_ok {σ ε : Type} (resolve : String → σ → String × Option ε × σ)
    (h : ∀ uri s, (resolve uri s).2.1 = none) (base : List RunImageConfig) (i : Nat)
    (out : List RunImageConfig) (s : σ) :
    (resolveRunImages resolve base i out s).2.1 = none := by
  induction base generalizing i out s with
  | nil => rfl
  | cons runImg rest ih =>
    simp only [resolveRunImages]
    have hr := resolveRunImage_ok resolve h runImg (out.getD i {}) s
    rcases hres : resolveRunImage resolve runImg (out.getD i {}) s with ⟨cur, err, s1⟩
    rw [hres] at hr
    simp only at hr
    subst hr
    simp [ih]

theorem resolveBuildImage_ok {σ ε : Type} (c : MultiArchConfig) (t : Target)
    (R : Collaborators σ ε) (hR : R.AlwaysSucceeds) (config : Config) (s : σ) :
    (resolveBuildImage c t R config s).2.1 = none := by
  unfold resolveBuildImage
  by_cases hb : c.Build.Image = ""
  · simp [hb]
  · simp only [ne_eq, hb, not_false_eq_true, if_true]
    exact hR.2 _ _ _

theorem resolveStackBuildImage_ok {σ ε : Type} (c : MultiArchConfig) (t : Target)
    (R : Collaborators σ ε) (hR : R.AlwaysSucceeds) (config : Config) (s : σ) :
    (resolveStackBuildImage c t R config s).2.1 = none := by
  unfold resolveStackBuildImage
  by_cases hb : c.Stack.BuildImage = ""
  · simp [hb]
  · simp only [ne_eq, hb, not_false_eq_true, if_true]
    exact hR.2 _ _ _

theorem resolveStackRunImage_ok {σ ε : Type} (c : MultiArchConfig) (t : Target)
    (R : Collaborators σ ε) (hR : R.AlwaysSucceeds) (config : Config) (s : σ) :
    (resolveStackRunImage c t R config s).2.1 = none := by
  unfold resolveStackRunImage
  by_cases hb : c.Stack.RunImage = ""
  · simp [hb]
  · simp only [ne_eq, hb, not_false_eq_true, if_true]
    exact hR.2 _ _ _

/-- When no error is returned, `processStack` has made the three final
assignments. -/
theorem processStack_of_no_error {σ ε : Type} (c : MultiArchConfig) (t : Target)
    (R : Collaborators σ ε) (config : Config) (s : σ)
    (h : (processStack c t R config s).2.1 = none) :
    (processStack c t R config s).1.Order = c.Order ∧
    (processStack c t R config s).1.OrderExtensions = c.OrderExtensions ∧
    (processStack c t R config s).1.WithTargets = [t] := by
  unfold processStack at h ⊢
  rcases h1 : resolveStackBuildImage c t R config s with ⟨config1, _ | err, s1⟩
  · rw [h1] at h
    simp only at h ⊢
    simp [assignOrderAndTarget]
  · rw [h1] at h
    simp at h

theorem processStack_ok {σ ε : Type} (c : MultiArchConfig) (t : Target)
    (R : Collaborators σ ε) (hR : R.AlwaysSucceeds) (config : Config) (s : σ) :
    (processStack c t R config s).2.1 = none := by
  unfold processStack
  have hb := resolveStackBuildImage_ok c t R hR config s
  rcases h1 : resolveStackBuildImage c t R config s with ⟨config1, err1, s1⟩
  rw [h1] at hb
  simp only at hb
  subst hb
  simp only
  have hr := resolveStackRunImage_ok c t R hR config1 s1
  rcases h2 : resolveStackRunImage c t R config1 s1 with ⟨config2, err2, s2⟩
  rw [h2] at hr
  simp only at hr
  subst hr
  simp [resolveStackMirrors]

theorem processImages_ok {σ ε : Type} (c : MultiArchConfig) (t : Target)
    (R : Collaborators σ ε) (hR : R.AlwaysSucceeds) (config : Config) (s : σ) :
    (processImages c t R config s).2.1 = none := by
  unfold processImages
  have hb := resolveBuildImage_ok c t R hR config s
  rcases h1 : resolveBuildImage c t R config s with ⟨config1, err1, s1⟩
  rw [h1] at hb
  simp only at hb
  subst hb
  simp only
  have hr := resolveRunImages_ok (fun uri => R.ParseURItoString uri t)
    (fun uri s0 => hR.2 uri t s0) c.Run.Images 0 config1.Run.Images s1
  rcases h2 : resolveRunImages (fun uri => R.ParseURItoString uri t)
    c.Run.Images 0 config1.Run.Images s1 with ⟨images, err2, s2⟩
  rw [h2] at hr
  simp only at hr
  subst hr
  simp only
  exact processStack_ok c t R hR _ _

theorem processImages_of_no_error {σ ε : Type} (c : MultiArchConfig) (t : Target)
    (R : Collaborators σ ε) (config : Config) (s : σ)
    (h : (processImages c t R config s).2.1 = none) :
    (processImages c t R config s).1.Order = c.Order ∧
    (processImages c t R config s).1.OrderExtensions = c.OrderExtensions ∧
    (processImages c t R config s).1.WithTargets = [t] := by
  unfold processImages at h ⊢
  rcases h1 : resolveBuildImage c t R config s with ⟨config1, _ | err1, s1⟩
  · rw [h1] at h
    simp only at h ⊢
    rcases h2 : resolveRunImages (fun uri => R.ParseURItoString uri t)
      c.Run.Images 0 config1.Run.Images s1 with ⟨images, _ | err2, s2⟩
    · rw [h2] at h
      simp only at h ⊢
      exact processStack_of_no_error c t R _ _ h
    · rw [h2] at h
      simp at h
  · rw [h1] at h
    simp at h

/-- With a resolver that always succeeds, `processTarget` returns no error. -/
theorem processTarget_ok {σ ε : Type} (c : MultiArchConfig) (t : Target) (dn dv : String)
    (R : Collaborators σ ε) (hR : R.AlwaysSucceeds) (s : σ) :
    (c.processTarget t dn dv R s).2.1 = none := by
  unfold MultiArchConfig.processTarget
  simp only
  have hb := resolveModules_ok (fun uri => R.GetRelativeURI uri c.relativeBaseDir (R.ProcessTarget t dn dv))
    (fun uri s0 => hR.1 uri _ _ s0) c.Buildpacks 0 (copyConfig c.toConfig).Buildpacks s
  rcases h1 : resolveModules (fun uri => R.GetRelativeURI uri c.relativeBaseDir (R.ProcessTarget t dn dv))
    c.Buildpacks 0 (copyConfig c.toConfig).Buildpacks s with ⟨bps, err1, s1⟩
  rw [h1] at hb
  simp only at hb
  subst hb
  simp only
  have he := resolveModules_ok (fun uri => R.GetRelativeURI uri c.relativeBaseDir (R.ProcessTarget t dn dv))
    (fun uri s0 => hR.1 uri _ _ s0) c.Extensions 0 (copyConfig c.toConfig).Extensions s1
  rcases h2 : resolveModules (fun uri => R.GetRelativeURI uri c.relativeBaseDir (R.ProcessTarget t dn dv))
    c.Extensions 0 (copyConfig c.toConfig).Extensions s1 with ⟨exts, err2, s2⟩
  rw [h2] at he
  simp only at he
  subst he
  simp only
  exact processImages_ok c _ R hR _ _

/-- When `processTarget` returns no error, the config it returns has the order
groups of the base config and exactly one target, the normalised one. -/
theorem processTarget_of_no_error {σ ε : Type} (c : MultiArchConfig) (t : Target)
    (dn dv : String) (R : Collaborators σ ε) (s : σ)
    (h : (c.processTarget t dn dv R s).2.1 = none) :
    (c.processTarget t dn dv R s).1.Order = c.Order ∧
    (c.processTarget t dn dv R s).1.OrderExtensions = c.OrderExtensions ∧
    (c.processTarget t dn dv R s).1.WithTargets = [R.ProcessTarget t dn dv] := by
  unfold MultiArchConfig.processTarget at h ⊢
  simp only at h ⊢
  rcases h1 : resolveModules (fun uri => R.GetRelativeURI uri c.relativeBaseDir (R.ProcessTarget t dn dv))
    c.Buildpacks 0 (copyConfig c.toConfig).Buildpacks s with ⟨bps, _ | err1, s1⟩
  · rw [h1] at h
    simp only at h ⊢
    rcases h2 : resolveModules (fun uri => R.GetRelativeURI uri c.relativeBaseDir (R.ProcessTarget t dn dv))
      c.Extensions 0 (copyConfig c.toConfig).Extensions s1 with ⟨exts, _ | err2, s2⟩
    · rw [h2] at h
      simp only at h ⊢
      exact processImages_of_no_error c _ R _ _ h
    · rw [h2] at h
      simp at h
  · rw [h1] at h
    simp at h

/-! ## Theorems: `BuilderConfigs` -/

/-- Every config in the list that the loop returns was in the list before or
is the config returned by the resolution of a unit, and has what each such
config has. -/
theorem runOps_builder_all {σ ε : Type} (c : MultiArchConfig) (R : Collaborators σ ε)
    (P : Config → Prop) (hP : ∀ u s, P (c.resolveUnit R u s).1)
    (us : List (Target × String × String)) (cfgs : List Config) (s : σ)
    (hcfgs : ∀ cfg ∈ cfgs, P cfg) :
    ∀ cfg ∈ (runOps (builderConfigsOp c R) us (cfgs, s)).2.1, P cfg := by
  induction us generalizing cfgs s with
  | nil => simpa [runOps] using hcfgs
  | cons u rest ih =>
    have hnext : ∀ cfg ∈ cfgs ++ [(c.resolveUnit R u s).1], P cfg := by
      intro cfg hmem
      rcases List.mem_append.mp hmem with h | h
      · exact hcfgs cfg h
      · rw [List.mem_singleton.mp h]
        exact hP u s
    simp only [runOps, builderConfigsOp_eq]
    rcases herr : (c.resolveUnit R u s).2.1 with _ | err
    · simp only
      exact ih _ _ hnext
    · simpa using hnext

/-- When the loop returns no error, every config it added is the config of a
unit that resolved without error, and has what each such config has. -/
theorem runOps_builder_all_of_no_error {σ ε : Type} (c : MultiArchConfig)
    (R : Collaborators σ ε) (Q : Config → Prop)
    (hQ : ∀ u s, (c.resolveUnit R u s).2.1 = none → Q (c.resolveUnit R u s).1)
    (us : List (Target × String × String)) (cfgs : List Config) (s : σ)
    (hcfgs : ∀ cfg ∈ cfgs, Q cfg)
    (hnone : (runOps (builderConfigsOp c R) us (cfgs, s)).1 = none) :
    ∀ cfg ∈ (runOps (builderConfigsOp c R) us (cfgs, s)).2.1, Q cfg := by
  induction us generalizing cfgs s with
  | nil => simpa [runOps] using hcfgs
  | cons u rest ih =>
    simp only [runOps, builderConfigsOp_eq] at hnone ⊢
    rcases herr : (c.resolveUnit R u s).2.1 with _ | err
    · rw [herr] at hnone
      simp only at hnone ⊢
      apply ih _ _ _ hnone
      intro cfg hmem
      rcases List.mem_append.mp hmem with h | h
      · exact hcfgs cfg h
      · rw [List.mem_singleton.mp h]
        exact hQ u s herr
    · rw [herr] at hnone
      simp at hnone

theorem BuilderConfigs_all {σ ε : Type} (c : MultiArchConfig) (R : Collaborators σ ε)
    (P : Config → Prop) (hP : ∀ u s, P (c.resolveUnit R u s).1) (s : σ) :
    ∀ cfg ∈ (c.BuilderConfigs R s).1, P cfg := by
  rw [BuilderConfigs_eq_runOps]
  exact runOps_builder_all c R P hP c.enumeration [] s (fun _ h => absurd h (List.not_mem_nil _))

theorem BuilderConfigs_all_of_no_error {σ ε : Type} (c : MultiArchConfig)
    (R : Collaborators σ ε) (Q : Config → Prop)
    (hQ : ∀ u s, (c.resolveUnit R u s).2.1 = none → Q (c.resolveUnit R u s).1) (s : σ)
    (hnone : (c.BuilderConfigs R s).2.1 = none) :
    ∀ cfg ∈ (c.BuilderConfigs R s).1, Q cfg := by
  rw [BuilderConfigs_eq_runOps] at hnone ⊢
  exact runOps_builder_all_of_no_error c R Q hQ c.enumeration [] s
    (fun _ h => absurd h (List.not_mem_nil _)) hnone

theorem allResolve_of_alwaysSucceeds {σ ε : Type} (c : MultiArchConfig) (R : Collaborators σ ε)
    (hR : R.AlwaysSucceeds) (us : List (Target × String × String)) (s : σ) :
    c.allResolve R us s = true := by
  induction us generalizing s with
  | nil => rfl
  | cons u rest ih =>
    simp [MultiArchConfig.allResolve, MultiArchConfig.resolveUnit, processTarget_ok c _ _ _ R hR, ih]

/-- Claim C1.  For every `MultiArchConfig` and every resolver that always
succeeds, `BuilderConfigs` returns a nil error and exactly as many configs as
`Range` enumerates units over the targets of `Targets()`, and every returned
config has a `WithTargets` list of exactly one element. -/
theorem C1_builderConfigs_one_config_per_unit {σ ε : Type} (c : MultiArchConfig)
    (R : Collaborators σ ε) (s : σ) (hR : R.AlwaysSucceeds) :
    (c.BuilderConfigs R s).2.1 = none ∧
    (c.BuilderConfigs R s).1.length = c.totalUnits ∧
    ∀ cfg ∈ (c.BuilderConfigs R s).1, cfg.WithTargets.length = 1 := by
  have hall := BuilderConfigs_all_resolve c R s (allResolve_of_alwaysSucceeds c R hR _ s)
  have hnone : (c.BuilderConfigs R s).2.1 = none := by rw [hall]
  refine ⟨hnone, ?_, ?_⟩
  · rw [hall]
    simp [configsOf_length, enumeration_length]
  · apply BuilderConfigs_all_of_no_error c R (fun cfg => cfg.WithTargets.length = 1) _ s hnone
    intro u s1 herr
    have h := (processTarget_of_no_error c u.1 "" "" R s1 herr).2.2
    simp only [MultiArchConfig.resolveUnit]
    rw [h]
    rfl

/-- Witness of C1: the sample config, of four units, with the resolver that
always succeeds. -/
theorem C1_builderConfigs_one_config_per_unit_witness :
    idResolver.AlwaysSucceeds ∧
    sampleConfig.totalUnits = 4 ∧
    (sampleConfig.BuilderConfigs idResolver ()).2.1 = none ∧
    (sampleConfig.BuilderConfigs idResolver ()).1.length = sampleConfig.totalUnits ∧
    ∀ cfg ∈ (sampleConfig.BuilderConfigs idResolver ()).1, cfg.WithTargets.length = 1 :=
  ⟨⟨fun _ _ _ _ => rfl, fun _ _ _ => rfl⟩, by decide,
   C1_builderConfigs_one_config_per_unit sampleConfig idResolver ()
     ⟨fun _ _ _ _ => rfl, fun _ _ _ => rfl⟩⟩

/-- Claim C2, on the sample config with the always-succeeding resolver and the
normalisation `foldUnit`.  The first enumerated unit is the sample target with
`(ubuntu, 22.04)` and the second the same target with `(ubuntu, 20.04)`, but the
configs returned for them hold the normalisation of the target with two empty
strings, and not with the pair of the unit: `BuilderConfigs` calls
`processTarget(target, "", "", ...)`. -/
theorem C2_builderConfigs_drops_the_enumerated_pair :
    sampleConfig.enumeration.take 2 =
      [(sampleTarget, "ubuntu", "22.04"), (sampleTarget, "ubuntu", "20.04")] ∧
    ((sampleConfig.BuilderConfigs idResolver ()).1.take 2).map (fun cfg => cfg.WithTargets) =
      [[foldUnit sampleTarget "" ""], [foldUnit sampleTarget "" ""]] ∧
    foldUnit sampleTarget "" "" ≠ foldUnit sampleTarget "ubuntu" "22.04" ∧
    foldUnit sampleTarget "" "" ≠ foldUnit sampleTarget "ubuntu" "20.04" := by
  decide

/-! ## Theorems: what `processTarget` keeps of the base config -/

theorem resolveBuildImage_keeps {σ ε : Type} (c : MultiArchConfig) (t : Target)
    (R : Collaborators σ ε) (config : Config) (s : σ) :
    (resolveBuildImage c t R config s).1.Description = config.Description ∧
    (resolveBuildImage c t R config s).1.Buildpacks = config.Buildpacks ∧
    (resolveBuildImage c t R config s).1.Extensions = config.Extensions := by
  unfold resolveBuildImage
  by_cases hb : c.Build.Image = "" <;> simp [hb]

theorem resolveStackBuildImage_keeps {σ ε : Type} (c : MultiArchConfig) (t : Target)
    (R : Collaborators σ ε) (config : Config) (s : σ) :
    (resolveStackBuildImage c t R config s).1.Description = config.Description ∧
    (resolveStackBuildImage c t R config s).1.Buildpacks = config.Buildpacks ∧
    (resolveStackBuildImage c t R config s).1.Extensions = config.Extensions := by
  unfold resolveStackBuildImage
  by_cases hb : c.Stack.BuildImage = "" <;> simp [hb]

theorem resolveStackRunImage_keeps {σ ε : Type} (c : MultiArchConfig) (t : Target)
    (R : Collaborators σ ε) (config : Config) (s : σ) :
    (resolveStackRunImage c t R config s).1.Description = config.Description ∧
    (resolveStackRunImage c t R config s).1.Buildpacks = config.Buildpacks ∧
    (resolveStackRunImage c t R config s).1.Extensions = config.Extensions := by
  unfold resolveStackRunImage
  by_cases hb : c.Stack.RunImage = "" <;> simp [hb]

theorem resolveStackMirrors_keeps {σ ε : Type} (c : MultiArchConfig) (t : Target)
    (R : Collaborators σ ε) (config : Config) (err : Option ε) (s : σ) :
    (resolveStackMirrors c t R config err s).1.Description = config.Description ∧
    (resolveStackMirrors c t R config err s).1.Buildpacks = config.Buildpacks ∧
    (resolveStackMirrors c t R config err s).1.Extensions = config.Extensions := by
  unfold resolveStackMirrors
  cases err <;> simp

theorem processStack_keeps {σ ε : Type} (c : MultiArchConfig) (t : Target)
    (R : Collaborators σ ε) (config : Config) (s : σ) :
    (processStack c t R config s).1.Description = config.Description ∧
    (processStack c t R config s).1.Buildpacks = config.Buildpacks ∧
    (processStack c t R config s).1.Extensions = config.Extensions := by
  unfold processStack
  have hb := resolveStackBuildImage_keeps c t R config s
  rcases h1 : resolveStackBuildImage c t R config s with ⟨config1, _ | err1, s1⟩
  · rw [h1] at hb
    simp only at hb ⊢
    have hr := resolveStackRunImage_keeps c t R config1 s1
    rcases h2 : resolveStackRunImage c t R config1 s1 with ⟨config2, err2, s2⟩
    rw [h2] at hr
    simp only at hr ⊢
    have hm := resolveStackMirrors_keeps c t R config2 err2 s2
    rcases h3 : resolveStackMirrors c t R config2 err2 s2 with ⟨config3, err3, s3⟩
    rw [h3] at hm
    simp only [assignOrderAndTarget] at hm ⊢
    exact ⟨hm.1.trans (hr.1.trans hb.1), hm.2.1.trans (hr.2.1.trans hb.2.1),
      hm.2.2.trans (hr.2.2.trans hb.2.2)⟩
  · rw [h1] at hb
    simpa using hb

theorem processImages_keeps {σ ε : Type} (c : MultiArchConfig) (t : Target)
    (R : Collaborators σ ε) (config : Config) (s : σ) :
    (processImages c t R config s).1.Description = config.Description ∧
    (processImages c t R config s).1.Buildpacks = config.Buildpacks ∧
    (processImages c t R config s).1.Extensions = config.Extensions := by
  unfold processImages
  have hb := resolveBuildImage_keeps c t R config s
  rcases h1 : resolveBuildImage c t R config s with ⟨config1, _ | err1, s1⟩
  · rw [h1] at hb
    simp only at hb ⊢
    rcases h2 : resolveRunImages (fun uri => R.ParseURItoString uri t)
      c.Run.Images 0 config1.Run.Images s1 with ⟨images, _ | err2, s2⟩
    · simp only
      have hs := processStack_keeps c t R
        { config1 with Run := { config1.Run with Images := images } } s2
      exact ⟨hs.1.trans hb.1, hs.2.1.trans hb.2.1, hs.2.2.trans hb.2.2⟩
    · simpa using hb
  · rw [h1] at hb
    simpa using hb

/-- For a base config whose modules are all registry-id entries, the config
that `processTarget` returns, with or without an error, has the description of
the base config, and its buildpacks and extensions are zero values, as many as
the base config has. -/
theorem processTarget_no_uri {σ ε : Type} (c : MultiArchConfig) (t : Target) (dn dv : String)
    (R : Collaborators σ ε) (s : σ)
    (hbp : ∀ bp ∈ c.Buildpacks, bp.URI = "") (hext : ∀ ext ∈ c.Extensions, ext.URI = "") :
    (c.processTarget t dn dv R s).1.Description = c.Description ∧
    (c.processTarget t dn dv R s).1.Buildpacks = List.replicate c.Buildpacks.length {} ∧
    (c.processTarget t dn dv R s).1.Extensions = List.replicate c.Extensions.length {} := by
  unfold MultiArchConfig.processTarget
  simp only [resolveModules_no_uri _ _ hbp, resolveModules_no_uri _ _ hext]
  have h := processImages_keeps c (R.ProcessTarget t dn dv) R
    { copyConfig c.toConfig with
        Buildpacks := (copyConfig c.toConfig).Buildpacks
        Extensions := (copyConfig c.toConfig).Extensions } s
  simpa [copyConfig] using h

/-! ## Theorems: claims C3, C4 and C5 -/

/-- Claim C3, as the code has it.  For every `MultiArchConfig` whose buildpacks
and extensions are all registry-id entries and for every resolver, each config
returned by `BuilderConfigs` has the `Description` of the base config, and its
`Buildpacks` and `Extensions` are zero values, as many as the base config has;
when `BuilderConfigs` returns no error, each returned config has moreover the
`Order` and `OrderExtensions` of the base config. -/
theorem C3_builderConfigs_keeps_description_and_order {σ ε : Type} (c : MultiArchConfig)
    (R : Collaborators σ ε) (s : σ)
    (hbp : ∀ bp ∈ c.Buildpacks, bp.URI = "") (hext : ∀ ext ∈ c.Extensions, ext.URI = "") :
    (∀ cfg ∈ (c.BuilderConfigs R s).1,
      cfg.Description = c.Description ∧
      cfg.Buildpacks = List.replicate c.Buildpacks.length {} ∧
      cfg.Extensions = List.replicate c.Extensions.length {}) ∧
    ((c.BuilderConfigs R s).2.1 = none →
      ∀ cfg ∈ (c.BuilderConfigs R s).1,
        cfg.Order = c.Order ∧ cfg.OrderExtensions = c.OrderExtensions) := by
  constructor
  · apply BuilderConfigs_all c R
      (fun cfg => cfg.Description = c.Description ∧
        cfg.Buildpacks = List.replicate c.Buildpacks.length {} ∧
        cfg.Extensions = List.replicate c.Extensions.length {})
    intro u s1
    exact processTarget_no_uri c u.1 "" "" R s1 hbp hext
  · intro hnone
    apply BuilderConfigs_all_of_no_error c R
      (fun cfg => cfg.Order = c.Order ∧ cfg.OrderExtensions = c.OrderExtensions) _ s hnone
    intro u s1 herr
    have h := processTarget_of_no_error c u.1 "" "" R s1 herr
    exact ⟨h.1, h.2.1⟩

/-- Witness of C3: the registry config with `logResolver`, which resolves it
without error. -/
theorem C3_builderConfigs_keeps_description_and_order_witness :
    (∀ bp ∈ registryConfig.Buildpacks, bp.URI = "") ∧
    (∀ ext ∈ registryConfig.Extensions, ext.URI = "") ∧
    (registryConfig.BuilderConfigs logResolver []).2.1 = none ∧
    (∀ cfg ∈ (registryConfig.BuilderConfigs logResolver []).1,
      cfg.Description = registryConfig.Description ∧
      cfg.Buildpacks = List.replicate registryConfig.Buildpacks.length {} ∧
      cfg.Extensions = List.replicate registryConfig.Extensions.length {}) ∧
    (∀ cfg ∈ (registryConfig.BuilderConfigs logResolver []).1,
      cfg.Order = registryConfig.Order ∧
      cfg.OrderExtensions = registryConfig.OrderExtensions) :=
  ⟨by decide, by decide, by decide,
   (C3_builderConfigs_keeps_description_and_order registryConfig logResolver []
      (by decide) (by decide)).1,
   (C3_builderConfigs_keeps_description_and_order registryConfig logResolver []
      (by decide) (by decide)).2 (by decide)⟩

/-- Counterexample to C3 as stated.  The modules of the registry config are all
registry-id entries, and the resolver `idResolver` returns every URI as it is;
yet the config that `BuilderConfigs` returns differs from the base config in
`Buildpacks`, `Extensions`, `Stack`, `Lifecycle`, `Run` and `Build`, which
`copyConfig` does not copy.  And with a resolver that fails on the build image,
the returned config has not the `Order` and `OrderExtensions` of the base
config either. -/
theorem C3_counterexample :
    (∀ bp ∈ registryConfig.Buildpacks, bp.URI = "") ∧
    (∀ ext ∈ registryConfig.Extensions, ext.URI = "") ∧
    (∃ cfg ∈ (registryConfig.BuilderConfigs idResolver ()).1,
      cfg.Buildpacks ≠ registryConfig.Buildpacks ∧
      cfg.Extensions ≠ registryConfig.Extensions ∧
      cfg.Stack ≠ registryConfig.Stack ∧
      cfg.Lifecycle ≠ registryConfig.Lifecycle ∧
      cfg.Run ≠ registryConfig.Run ∧
      cfg.Build ≠ registryConfig.Build) ∧
    (∀ bp ∈ failingRegistryConfig.Buildpacks, bp.URI = "") ∧
    (∀ ext ∈ failingRegistryConfig.Extensions, ext.URI = "") ∧
    (∃ cfg ∈ (failingRegistryConfig.BuilderConfigs logResolver []).1,
      cfg.Order ≠ failingRegistryConfig.Order ∧
      cfg.OrderExtensions ≠ failingRegistryConfig.OrderExtensions) := by
  decide

/-- Claim C4, as the code has it.  When the units of `pre` resolve and the
unit `u` that follows them in the enumeration fails, returning the config `cfg`
with its error, the list that `BuilderConfigs` returns holds the configs of the
units of `pre`, in enumeration order, followed by `cfg`: the config of the
failing unit is appended before the error is looked at, and the length of the
list is the number of units that resolved plus one. -/
theorem C4_builderConfigs_list_at_failure {σ ε : Type} (c : MultiArchConfig)
    (R : Collaborators σ ε) (s : σ) (pre post : List (Target × String × String))
    (u : Target × String × String) (cfg : Config) (e : ε) (s2 : σ)
    (hsplit : c.enumeration = pre ++ u :: post)
    (hpre : c.allResolve R pre s = true)
    (hfail : c.processTarget u.1 "" "" R (c.stateAfter R pre s) = (cfg, some e, s2)) :
    (c.BuilderConfigs R s).1 = c.configsOf R pre s ++ [cfg] ∧
    (c.BuilderConfigs R s).1.length = pre.length + 1 := by
  have h := BuilderConfigs_first_failure c R s pre post u cfg e s2 hsplit hpre hfail
  rw [h]
  simp [configsOf_length]

/-- Witness of C4: in the config of three targets the second unit fails; the
returned list has two configs, the second being the one the failing unit
returned. -/
theorem C4_builderConfigs_list_at_failure_witness :
    (partlyFailingConfig.BuilderConfigs logResolver []).1 =
      partlyFailingConfig.configsOf logResolver
        [(({ OS := "linux", Arch := "amd64" } : Target), "", "")] [] ++
      [(partlyFailingConfig.processTarget { OS := "linux" } "" "" logResolver
          ["build", "run"]).1] ∧
    (partlyFailingConfig.BuilderConfigs logResolver []).1.length = 1 + 1 :=
  C4_builderConfigs_list_at_failure partlyFailingConfig logResolver []
    [({ OS := "linux", Arch := "amd64" }, "", "")]
    [({ OS := "windows", Arch := "amd64" }, "", "")]
    ({ OS := "linux" }, "", "")
    (partlyFailingConfig.processTarget { OS := "linux" } "" "" logResolver ["build", "run"]).1
    "unresolvable" ["build", "run", "build"]
    (by decide) (by decide) (by decide)

/-- Counterexample to C4 as stated.  In the config of three targets the first
unit resolves and the second fails, so that one unit resolved before the
failure; `BuilderConfigs` returns the error with a list of two configs, whose
last element is the partial config that the failing unit returned. -/
theorem C4_counterexample :
    partlyFailingConfig.enumeration =
      [({ OS := "linux", Arch := "amd64" }, "", ""), ({ OS := "linux" }, "", ""),
       ({ OS := "windows", Arch := "amd64" }, "", "")] ∧
    (partlyFailingConfig.processTarget { OS := "linux", Arch := "amd64" } "" ""
      logResolver []).2 = (none, ["build", "run"]) ∧
    (partlyFailingConfig.processTarget { OS := "linux" } "" ""
      logResolver ["build", "run"]).2.1 = some "unresolvable" ∧
    (partlyFailingConfig.BuilderConfigs logResolver []).2.1 = some "unresolvable" ∧
    (partlyFailingConfig.BuilderConfigs logResolver []).1.length = 2 ∧
    (partlyFailingConfig.BuilderConfigs logResolver []).1.getLast? =
      some (partlyFailingConfig.processTarget { OS := "linux" } "" ""
        logResolver ["build", "run"]).1 := by
  decide

/-- Claim C5.  `BuilderConfigs` stops at the first failing unit in enumeration
order.  When the units of `pre` resolve and the unit `u` that follows them in
the enumeration fails with the error `e`, leaving the collaborators in the
state `s2`, then `BuilderConfigs` returns exactly `e`, and the state it leaves
is `s2`: after the failing unit no unit is processed and the resolver is not
invoked again. -/
theorem C5_builderConfigs_stops_at_first_failure {σ ε : Type} (c : MultiArchConfig)
    (R : Collaborators σ ε) (s : σ) (pre post : List (Target × String × String))
    (u : Target × String × String) (cfg : Config) (e : ε) (s2 : σ)
    (hsplit : c.enumeration = pre ++ u :: post)
    (hpre : c.allResolve R pre s = true)
    (hfail : c.processTarget u.1 "" "" R (c.stateAfter R pre s) = (cfg, some e, s2)) :
    (c.BuilderConfigs R s).2 = (some e, s2) := by
  rw [BuilderConfigs_first_failure c R s pre post u cfg e s2 hsplit hpre hfail]

/-- Witness of C5: in the config of three targets the second unit fails on its
build image; the error is the error of the resolver, and the log of the
resolver ends with that call, the third target never being resolved. -/
theorem C5_builderConfigs_stops_at_first_failure_witness :
    (partlyFailingConfig.BuilderConfigs logResolver []).2 =
      (some "unresolvable", ["build", "run", "build"]) :=
  C5_builderConfigs_stops_at_first_failure partlyFailingConfig logResolver []
    [({ OS := "linux", Arch := "amd64" }, "", "")]
    [({ OS := "windows", Arch := "amd64" }, "", "")]
    ({ OS := "linux" }, "", "")
    (partlyFailingConfig.processTarget { OS := "linux" } "" "" logResolver ["build", "run"]).1
    "unresolvable" ["build", "run", "build"]
    (by decide) (by decide) (by decide)

/-! ## Theorems: the map of `ParseBuildConfigEnv` -/

theorem envGet_envSet (m : EnvMap) (k v k1 : String) :
    envGet (envSet m k v) k1 = if k = k1 then some v else envGet m k1 := by
  induction m with
  | nil => simp [envSet, envGet]
  | cons entry rest ih =>
    obtain ⟨k0, v0⟩ := entry
    by_cases h0 : k0 = k
    · subst h0
      by_cases h1 : k0 = k1 <;> simp [envSet, envGet, h1]
    · by_cases h1 : k0 = k1
      · subst h1
        have hne : ¬ k = k0 := fun h => h0 h.symm
        simp [envSet, envGet, h0, hne]
      · simp [envSet, envGet, h0, h1, ih]

theorem envGet_isSome_iff (m : EnvMap) (k : String) :
    (envGet m k).isSome = true ↔ k ∈ m.map Prod.fst := by
  induction m with
  | nil => simp [envGet]
  | cons entry rest ih =>
    obtain ⟨k0, v0⟩ := entry
    by_cases h0 : k0 = k
    · simp [envGet, h0]
    · have hne : ¬ k = k0 := fun h => h0 h.symm
      simp [envGet, h0, hne, ih]

theorem envGet_eq_none_iff (m : EnvMap) (k : String) :
    envGet m k = none ↔ k ∉ m.map Prod.fst := by
  rw [← envGet_isSome_iff]
  cases envGet m k <;> simp

theorem specFold_append_one (env : List BuildConfigEnv) (d : BuildConfigEnv) (m : EnvMap) :
    specFold (d :: env) m =
      specFold env (envSet (if d.Delim ≠ "" then envSet m (d.Name ++ ".delim") d.Delim else m)
        (effectiveKey d) d.Value) := by
  simp [specFold]

theorem specFold_eq_writes (env : List BuildConfigEnv) (m : EnvMap) :
    specFold env m = (specWrites env).foldl (fun acc w => envSet acc w.1 w.2) m := by
  induction env generalizing m with
  | nil => simp [specFold, specWrites]
  | cons d rest ih =>
    rw [specFold_append_one, ih]
    by_cases hd : d.Delim = "" <;>
      simp [specWrites, directiveWrites, hd, List.flatMap_cons, List.foldl_append]

theorem envGet_foldl_writes (ws : List (String × String)) (m : EnvMap) (k : String) :
    envGet (ws.foldl (fun acc w => envSet acc w.1 w.2) m) k =
      match lastWrite ws k with
      | some v => some v
      | none => envGet m k := by
  induction ws generalizing m with
  | nil => simp [lastWrite]
  | cons w rest ih =>
    rw [List.foldl_cons, ih]
    simp only [lastWrite]
    cases hlast : lastWrite rest k with
    | some v => simp
    | none =>
      simp only [envGet_envSet]
      by_cases hw : w.1 = k <;> simp [hw]

theorem lastWrite_isSome_iff (ws : List (String × String)) (k : String) :
    (lastWrite ws k).isSome = true ↔ k ∈ ws.map Prod.fst := by
  induction ws with
  | nil => simp [lastWrite]
  | cons w rest ih =>
    simp only [lastWrite, List.map_cons, List.mem_cons]
    cases hlast : lastWrite rest k with
    | some v =>
      have : k ∈ rest.map Prod.fst := ih.mp (by simp [hlast])
      simp [this]
    | none =>
      have hnot : k ∉ rest.map Prod.fst := fun h => by
        have := ih.mpr h
        simp [hlast] at this
      by_cases hw : w.1 = k
      · simp [hw]
      · have hne : ¬ k = w.1 := fun h => hw h.symm
        simp [hw, hne, hnot]

theorem append_ne_empty (a b : String) (hb : b ≠ "") : a ++ b ≠ "" := by
  intro h
  have hlen : (a ++ b).length = 0 := by rw [h]; rfl
  rw [String.length_append] at hlen
  have hb0 : b.length = 0 := by omega
  apply hb
  have hdata : b.data = [] := List.length_eq_zero.mp hb0
  exact String.ext hdata

/-- For a recognised suffix, the file names that the code computes are the
keys of the spec: the effective key, and `Name + ".delim"` when the directive
has a `Delim`. -/
theorem getBuildConfigEnvFileName_of_recognised (v : BuildConfigEnv)
    (h : recognised v.Suffix = true) :
    getBuildConfigEnvFileName v =
      (effectiveKey v, if v.Delim ≠ "" then v.Name ++ ".delim" else "", none) := by
  simp only [recognised, Bool.or_eq_true, decide_eq_true_eq] at h
  rcases h with (((h | h) | h) | h) | h <;>
    simp [getBuildConfigEnvFileName, getActionType, effectiveKey, h, NONE, DEFAULT, OVERRIDE,
      APPEND, PREPEND, String.append_assoc]

/-- The first loop of `ParseBuildConfigEnv` builds the map of the spec, when
every name is non-empty and every suffix is recognised, and goes on to the
delimiter check with it. -/
theorem parseBuildConfigEnvLoop_eq (path : String) (env : List BuildConfigEnv)
    (hn : ∀ d ∈ env, d.Name ≠ "") (hs : ∀ d ∈ env, recognised d.Suffix = true)
    (m : EnvMap) (w : List EnvWarning) :
    ∃ w1, parseBuildConfigEnvLoop path env m w =
      finishBuildConfigEnv path (specFold env m) w1 := by
  induction env generalizing m w with
  | nil => exact ⟨w, by simp [parseBuildConfigEnvLoop, specFold]⟩
  | cons v rest ih =>
    have hname : v.Name ≠ "" := hn v (List.mem_cons_self _ _)
    have hrec := getBuildConfigEnvFileName_of_recognised v (hs v (List.mem_cons_self _ _))
    have hn1 : ∀ d ∈ rest, d.Name ≠ "" := fun d hd => hn d (List.mem_cons_of_mem _ hd)
    have hs1 : ∀ d ∈ rest, recognised d.Suffix = true :=
      fun d hd => hs d (List.mem_cons_of_mem _ hd)
    rw [specFold_append_one]
    simp only [parseBuildConfigEnvLoop, hname, if_false, hrec]
    by_cases hd : v.Delim = ""
    · simp only [hd, ne_eq, not_true_eq_false, false_and, if_false]
      exact ih hn1 hs1 _ _
    · have hdn : v.Name ++ ".delim" ≠ "" := append_ne_empty _ _ (by decide)
      simp only [hd, ne_eq, not_false_eq_true, true_and, if_true, hdn]
      exact ih hn1 hs1 _ _

theorem finishBuildConfigEnv_map (path : String) (m : EnvMap) (w : List EnvWarning) :
    (finishBuildConfigEnv path m w).1 = some m := by
  unfold finishBuildConfigEnv
  rcases checkDelims m m w 0 with ⟨w1, n⟩
  by_cases hn : n > 0 <;> simp [hn]

/-- The map of `ParseBuildConfigEnv` and its keys, for names that are non-empty
and suffixes that are recognised. -/
theorem parseBuildConfigEnv_map_aux (env : List BuildConfigEnv) (path : String)
    (hn : ∀ d ∈ env, d.Name ≠ "") (hs : ∀ d ∈ env, recognised d.Suffix = true) :
    ∃ m, (ParseBuildConfigEnv env path).1 = some m ∧
      m = specFold env [] ∧
      (∀ k, k ∈ m.map Prod.fst ↔ k ∈ (specWrites env).map Prod.fst) ∧
      (∀ k, envGet m k = lastWrite (specWrites env) k) := by
  obtain ⟨w1, hloop⟩ := parseBuildConfigEnvLoop_eq path env hn hs [] []
  have hget : ∀ k, envGet (specFold env []) k = lastWrite (specWrites env) k := by
    intro k
    rw [specFold_eq_writes, envGet_foldl_writes]
    cases lastWrite (specWrites env) k <;> simp [envGet]
  refine ⟨specFold env [], ?_, rfl, ?_, hget⟩
  · unfold ParseBuildConfigEnv
    rw [hloop, finishBuildConfigEnv_map]
  · intro k
    rw [← envGet_isSome_iff, hget, lastWrite_isSome_iff]

/-- Claim C9.  For every directive list whose names are all non-empty and
whose suffixes are all recognised, `ParseBuildConfigEnv` returns a map, and
the map is the left-to-right fold of the spec, in which each directive writes
its `Delim` under `Name + ".delim"` (only when the `Delim` is not empty) and
then its `Value` under its effective key: the keys of the map are exactly the
keys so written, and each key holds the value of the last write to that exact
key. -/
theorem C9_parseBuildConfigEnv_map_is_fold (env : List BuildConfigEnv) (path : String)
    (hn : ∀ d ∈ env, d.Name ≠ "") (hs : ∀ d ∈ env, recognised d.Suffix = true) :
    ∃ m, (ParseBuildConfigEnv env path).1 = some m ∧
      m = specFold env [] ∧
      (∀ k, k ∈ m.map Prod.fst ↔ k ∈ (specWrites env).map Prod.fst) ∧
      (∀ k, envGet m k = lastWrite (specWrites env) k) :=
  parseBuildConfigEnv_map_aux env path hn hs

/-- Witness of C9: the three sample directives. -/
theorem C9_parseBuildConfigEnv_map_is_fold_witness :
    (∀ d ∈ sampleEnv, d.Name ≠ "") ∧ (∀ d ∈ sampleEnv, recognised d.Suffix = true) ∧
    specFold sampleEnv [] = [("A.delim", "_"), ("A.append", "2"), ("B", "x")] ∧
    ∃ m, (ParseBuildConfigEnv sampleEnv "builder.toml").1 = some m ∧
      m = specFold sampleEnv [] ∧
      (∀ k, k ∈ m.map Prod.fst ↔ k ∈ (specWrites sampleEnv).map Prod.fst) ∧
      (∀ k, envGet m k = lastWrite (specWrites sampleEnv) k) :=
  ⟨by decide, by decide, by decide,
   C9_parseBuildConfigEnv_map_is_fold sampleEnv "builder.toml" (by decide) (by decide)⟩

/-! ## Theorems: the delimiter check of `ParseBuildConfigEnv` -/

theorem splitOnDot_ne_nil (l : List Char) : splitOnDot l ≠ [] := by
  cases l with
  | nil => simp [splitOnDot]
  | cons ch rest =>
    by_cases hc : ch = '.'
    · simp [splitOnDot, hc]
    · simp only [splitOnDot, hc, if_false]
      cases splitOnDot rest <;> simp

/-- The first piece of a string that has no dot before its first dot. -/
theorem splitOnDot_append_dot (a b : List Char) (ha : '.' ∉ a) :
    splitOnDot (a ++ '.' :: b) = a :: splitOnDot b := by
  induction a with
  | nil => simp [splitOnDot]
  | cons ch rest ih =>
    have hch : ch ≠ '.' := fun h => ha (by simp [h])
    have hrest : '.' ∉ rest := fun h => ha (List.mem_cons_of_mem _ h)
    simp [splitOnDot, hch, ih hrest]

theorem splitOnDot_no_dot (a : List Char) (ha : '.' ∉ a) : splitOnDot a = [a] := by
  induction a with
  | nil => rfl
  | cons ch rest ih =>
    have hch : ch ≠ '.' := fun h => ha (by simp [h])
    have hrest : '.' ∉ rest := fun h => ha (List.mem_cons_of_mem _ h)
    simp [splitOnDot, hch, ih hrest]

theorem data_name_dot (name suffix : String) :
    (name ++ "." ++ suffix).data = name.data ++ '.' :: suffix.data := by
  simp [String.data_append]

/-- The key of an `append` or `prepend` directive with a dot-free name splits
into the name and the suffix. -/
theorem getFilePrefixSuffix_of_dot_free (name suffix : String) (hname : '.' ∉ name.data)
    (hsuf : suffix = "append" ∨ suffix = "prepend") :
    getFilePrefixSuffix (name ++ "." ++ suffix) = (name, suffix, none) := by
  unfold getFilePrefixSuffix
  rw [data_name_dot, splitOnDot_append_dot _ _ hname]
  rcases hsuf with h | h <;> subst h <;> simp [splitOnDot]

theorem checkDelims_mono (m : EnvMap) (l : List (String × String)) (w : List EnvWarning)
    (n : Nat) : n ≤ (checkDelims m l w n).2 := by
  induction l generalizing w n with
  | nil => simp [checkDelims]
  | cons entry rest ih =>
    obtain ⟨k, v⟩ := entry
    simp only [checkDelims]
    rcases hsplit : getFilePrefixSuffix k with ⟨name, suffix, _ | err⟩
    · simp only
      split
      · exact Nat.le_trans (Nat.le_succ n) (ih _ _)
      · exact ih _ _
    · exact ih _ _

/-- The delimiter check counts at least one when some key of the map has the
suffix `append` or `prepend` and no `name + ".delim"` beside it. -/
theorem checkDelims_pos (m : EnvMap) (l : List (String × String)) (w : List EnvWarning)
    (n : Nat) (k name suffix : String) (hk : k ∈ l.map Prod.fst)
    (hsplit : getFilePrefixSuffix k = (name, suffix, none))
    (hsuf : suffix = "append" ∨ suffix = "prepend")
    (hnone : envGet m (name ++ ".delim") = none) :
    0 < (checkDelims m l w n).2 := by
  induction l generalizing w n with
  | nil => simp at hk
  | cons entry rest ih =>
    obtain ⟨k0, v0⟩ := entry
    simp only [List.map_cons, List.mem_cons] at hk
    by_cases hk0 : k = k0
    · subst hk0
      simp only [checkDelims, hsplit, hsuf, hnone, and_self, if_true]
      exact Nat.lt_of_lt_of_le (Nat.succ_pos n) (checkDelims_mono m rest _ _)
    · have hrest : k ∈ rest.map Prod.fst := by
        rcases hk with h | h
        · exact absurd h hk0
        · exact h
      simp only [checkDelims]
      rcases hs0 : getFilePrefixSuffix k0 with ⟨name0, suffix0, _ | err⟩
      · simp only
        split
        · exact ih _ _ hrest
        · exact ih _ _ hrest
      · exact ih _ _ hrest

theorem finishBuildConfigEnv_error (path : String) (m : EnvMap) (w : List EnvWarning)
    (h : 0 < (checkDelims m m w 0).2) :
    (finishBuildConfigEnv path m w).2.2 = some (EnvError.parsing path) := by
  unfold finishBuildConfigEnv
  rcases hc : checkDelims m m w 0 with ⟨w1, n⟩
  rw [hc] at h
  simp only at h
  simp [h]

theorem data_delim (name : String) :
    (name ++ ".delim").data = name.data ++ '.' :: "delim".data := by
  simp [String.data_append]

/-- With dot-free names, nothing but the `Delim` of a directive of the same
name is ever written under `Name + ".delim"`. -/
theorem delim_key_not_written (env : List BuildConfigEnv) (name : String)
    (hname : '.' ∉ name.data)
    (hdot : ∀ d ∈ env, '.' ∉ d.Name.data)
    (hs : ∀ d ∈ env, recognised d.Suffix = true)
    (hnodelim : ∀ d ∈ env, d.Name = name → d.Delim = "") :
    name ++ ".delim" ∉ (specWrites env).map Prod.fst := by
  intro hmem
  simp only [specWrites, List.mem_map, List.mem_flatMap] at hmem
  obtain ⟨w, ⟨d, hd, hw⟩, hk⟩ := hmem
  have hddot := hdot d hd
  simp only [directiveWrites, List.mem_append, List.mem_singleton] at hw
  rcases hw with hw | hw
  · by_cases hdelim : d.Delim = ""
    · simp [hdelim] at hw
    · simp only [hdelim, ne_eq, not_false_eq_true, if_true, List.mem_singleton] at hw
      rw [hw] at hk
      simp only at hk
      have hdata := congrArg String.data hk
      rw [data_delim, data_delim] at hdata
      have hnm : d.Name = name := String.ext (List.append_cancel_right hdata)
      exact hdelim (hnodelim d hd hnm)
  · rw [hw] at hk
    simp only [effectiveKey] at hk
    have hrec := hs d hd
    simp only [recognised, Bool.or_eq_true, decide_eq_true_eq] at hrec
    by_cases hsuf : d.Suffix = ""
    · simp only [hsuf, if_true] at hk
      apply hddot
      rw [hk, data_delim]
      simp
    · simp only [hsuf, if_false] at hk
      have hdata := congrArg String.data hk
      rw [data_name_dot, data_delim] at hdata
      have hsplit := congrArg splitOnDot hdata
      rw [splitOnDot_append_dot _ _ hddot, splitOnDot_append_dot _ _ hname] at hsplit
      have htail : splitOnDot d.Suffix.data = splitOnDot "delim".data :=
        (List.cons.inj hsplit).2
      rcases hrec with (((h | h) | h) | h) | h
      · exact hsuf h
      · rw [h] at htail; revert htail; decide
      · rw [h] at htail; revert htail; decide
      · rw [h] at htail; revert htail; decide
      · rw [h] at htail; revert htail; decide

/-- Claim C10, as the code has it.  For every directive list in which every
name is non-empty and has no dot and every suffix is recognised, if some
directive has the suffix `append` or `prepend` and no directive of the same
name has a non-empty `Delim`, then `ParseBuildConfigEnv` returns a non-nil
error, namely the error of the delimiter check. -/
theorem C10_parseBuildConfigEnv_missing_delim_dot_free (env : List BuildConfigEnv)
    (path : String) (d : BuildConfigEnv)
    (hn : ∀ d1 ∈ env, d1.Name ≠ "")
    (hdot : ∀ d1 ∈ env, '.' ∉ d1.Name.data)
    (hs : ∀ d1 ∈ env, recognised d1.Suffix = true)
    (hd : d ∈ env)
    (hsuf : d.Suffix = "append" ∨ d.Suffix = "prepend")
    (hnodelim : ∀ d1 ∈ env, d1.Name = d.Name → d1.Delim = "") :
    (ParseBuildConfigEnv env path).2.2 ≠ none ∧
    (ParseBuildConfigEnv env path).2.2 = some (EnvError.parsing path) := by
  obtain ⟨m, _, hm, hkeys, _⟩ := parseBuildConfigEnv_map_aux env path hn hs
  obtain ⟨w1, hloop⟩ := parseBuildConfigEnvLoop_eq path env hn hs [] []
  have hne : d.Suffix ≠ "" := by
    rcases hsuf with h | h <;> rw [h] <;> decide
  have hkey : effectiveKey d = d.Name ++ "." ++ d.Suffix := by
    simp [effectiveKey, hne]
  have hpresent : d.Name ++ "." ++ d.Suffix ∈ m.map Prod.fst := by
    rw [hkeys, ← hkey]
    simp only [specWrites, List.mem_map, List.mem_flatMap]
    exact ⟨(effectiveKey d, d.Value), ⟨d, hd, by simp [directiveWrites]⟩, rfl⟩
  have habsent : envGet m (d.Name ++ ".delim") = none := by
    rw [envGet_eq_none_iff, hkeys]
    exact delim_key_not_written env d.Name (hdot d hd) hdot hs hnodelim
  have hpos : 0 < (checkDelims m m w1 0).2 :=
    checkDelims_pos m m w1 0 _ d.Name d.Suffix hpresent
      (getFilePrefixSuffix_of_dot_free d.Name d.Suffix (hdot d hd) hsuf) hsuf habsent
  have herr : (ParseBuildConfigEnv env path).2.2 = some (EnvError.parsing path) := by
    unfold ParseBuildConfigEnv
    rw [hloop, ← hm]
    exact finishBuildConfigEnv_error path m w1 hpos
  exact ⟨by rw [herr]; simp, herr⟩

/-- Witness of C10: an `append` directive of name `A` without delimiter. -/
theorem C10_parseBuildConfigEnv_missing_delim_dot_free_witness :
    (ParseBuildConfigEnv undelimitedEnv "builder.toml").2.2 ≠ none ∧
    (ParseBuildConfigEnv undelimitedEnv "builder.toml").2.2 =
      some (EnvError.parsing "builder.toml") :=
  C10_parseBuildConfigEnv_missing_delim_dot_free undelimitedEnv "builder.toml"
    { Name := "A", Value := "1", Suffix := "append" }
    (by decide) (by decide) (by decide) (by decide) (by decide) (by decide)

/-- Counterexample to C10 as stated.  The one directive has a non-empty name,
the recognised suffix `append` and no `Delim`, and no directive of its name has
one; yet `ParseBuildConfigEnv` returns a nil error, because the key
`A.B.append` is split at its first dot into the name `A` and the suffix
`B.append`, which is neither `append` nor `prepend`. -/
theorem C10_counterexample :
    (∀ d ∈ dottedEnv, d.Name ≠ "") ∧
    (∀ d ∈ dottedEnv, recognised d.Suffix = true) ∧
    (∃ d ∈ dottedEnv, (d.Suffix = "append" ∨ d.Suffix = "prepend") ∧
      ∀ d1 ∈ dottedEnv, d1.Name = d.Name → d1.Delim = "") ∧
    getFilePrefixSuffix "A.B.append" = ("A", "B.append", none) ∧
    ParseBuildConfigEnv dottedEnv "builder.toml" = (some [("A.B.append", "1")], [], none) := by
  decide

/-! ## Theorems: `ValidateConfig` and `mergeStackWithImages` -/

theorem validateRunImages_eq_some (l : List RunImageConfig) (err : String)
    (h : validateRunImages l = some err) : err = "run.images.image is required" := by
  induction l with
  | nil => simp [validateRunImages] at h
  | cons r rest ih =>
    simp only [validateRunImages] at h
    by_cases hr : r.Image = ""
    · simp only [hr, if_true, Option.some.injEq] at h
      exact h.symm
    · simp only [hr, if_false] at h
      exact ih h

/-- When neither test of the build-image rule applies, `ValidateConfig` returns
neither of the two build-image errors. -/
theorem validateConfig_no_build_image_error (c : Config)
    (h1 : ¬ (c.Build.Image = "" ∧ c.Stack.BuildImage = ""))
    (h2 : ¬ (c.Build.Image ≠ "" ∧ c.Stack.BuildImage ≠ "" ∧ c.Build.Image ≠ c.Stack.BuildImage)) :
    ValidateConfig c ≠ ValidateOutcome.returns (some "build.image is required") ∧
    ValidateConfig c ≠
      ValidateOutcome.returns (some "build.image and stack.build-image do not match") := by
  unfold ValidateConfig
  rw [if_neg h1, if_neg h2]
  by_cases h3 : c.Run.Images.length = 0 ∧ (c.Stack.RunImage = "" ∨ c.Stack.ID = "")
  · rw [if_pos h3]
    constructor <;> decide
  · rw [if_neg h3]
    cases hv : validateRunImages c.Run.Images with
    | some err =>
      have herr := validateRunImages_eq_some _ _ hv
      subst herr
      simp only
      constructor <;> decide
    | none =>
      simp only
      by_cases h4 : c.Stack.RunImage = ""
      · simp only [h4, ne_eq, not_true_eq_false, if_false]
        constructor <;> decide
      · simp only [h4, ne_eq, not_false_eq_true, if_true]
        cases hi : c.Run.Images with
        | nil => constructor <;> simp
        | cons first rest =>
          simp only
          by_cases h5 : first.Image = c.Stack.RunImage
          · simp only [h5, not_true_eq_false, if_false]
            constructor <;> decide
          · simp only [h5, not_false_eq_true, if_true]
            constructor <;> decide

/-- Claim C16.  The build-image rule of `ValidateConfig`: for every config, the
error is `build.image is required` when `Build.Image` and `Stack.BuildImage`
are both empty; it is `build.image and stack.build-image do not match`, which
contains `do not match`, when both are set and differ; and in every other case
(exactly one of them set, or both set and equal) the call returns neither of
these two errors. -/
theorem C16_validateConfig_build_image_rule (c : Config) :
    (c.Build.Image = "" → c.Stack.BuildImage = "" →
      ValidateConfig c = ValidateOutcome.returns (some "build.image is required")) ∧
    (c.Build.Image ≠ "" → c.Stack.BuildImage ≠ "" → c.Build.Image ≠ c.Stack.BuildImage →
      ValidateConfig c =
        ValidateOutcome.returns (some "build.image and stack.build-image do not match") ∧
      "do not match".data <:+: "build.image and stack.build-image do not match".data) ∧
    ((c.Build.Image = "" ∧ c.Stack.BuildImage ≠ "") ∨
      (c.Build.Image ≠ "" ∧ c.Stack.BuildImage = "") ∨
      (c.Build.Image ≠ "" ∧ c.Stack.BuildImage ≠ "" ∧ c.Build.Image = c.Stack.BuildImage) →
      ValidateConfig c ≠ ValidateOutcome.returns (some "build.image is required") ∧
      ValidateConfig c ≠
        ValidateOutcome.returns (some "build.image and stack.build-image do not match")) := by
  refine ⟨?_, ?_, ?_⟩
  · intro hb hs
    simp [ValidateConfig, hb, hs]
  · intro hb hs hne
    refine ⟨?_, by decide⟩
    simp [ValidateConfig, hb, hs, hne]
  · intro hcase
    apply validateConfig_no_build_image_error
    · rintro ⟨hb, hs⟩
      rcases hcase with h | h | h
      · exact h.2 hs
      · exact h.1 hb
      · exact h.1 hb
    · rintro ⟨hb, hs, hne⟩
      rcases hcase with h | h | h
      · exact hb h.1
      · exact hs h.2
      · exact hne h.2.2

/-- Witness of C16: the zero config, the config whose two build images
disagree, and the config with only the stack build image. -/
theorem C16_validateConfig_build_image_rule_witness :
    ValidateConfig {} = ValidateOutcome.returns (some "build.image is required") ∧
    ValidateConfig mismatchConfig =
      ValidateOutcome.returns (some "build.image and stack.build-image do not match") ∧
    (ValidateConfig stackOnlyConfig ≠ ValidateOutcome.returns (some "build.image is required") ∧
      ValidateConfig stackOnlyConfig ≠
        ValidateOutcome.returns (some "build.image and stack.build-image do not match")) :=
  ⟨(C16_validateConfig_build_image_rule {}).1 (by decide) (by decide),
   ((C16_validateConfig_build_image_rule mismatchConfig).2.1
      (by decide) (by decide) (by decide)).1,
   (C16_validateConfig_build_image_rule stackOnlyConfig).2.2 (Or.inl (by decide))⟩

/-- Claim C17, as the code has it.  For every config that passes the
build-image rule (exactly one of `Build.Image` and `Stack.BuildImage` set, or
both set and equal), whose `Run.Images` is empty and whose `Stack.RunImage` and
`Stack.ID` are both empty, `ValidateConfig` returns the error
`run.images are required`. -/
theorem C17_validateConfig_run_images_required (c : Config)
    (hbuild : (c.Build.Image = "" ∧ c.Stack.BuildImage ≠ "") ∨
      (c.Build.Image ≠ "" ∧ c.Stack.BuildImage = "") ∨
      (c.Build.Image ≠ "" ∧ c.Stack.BuildImage ≠ "" ∧ c.Build.Image = c.Stack.BuildImage))
    (hrun : c.Run.Images = []) (himg : c.Stack.RunImage = "") (_hid : c.Stack.ID = "") :
    ValidateConfig c = ValidateOutcome.returns (some "run.images are required") := by
  have h1 : ¬ (c.Build.Image = "" ∧ c.Stack.BuildImage = "") := by
    rintro ⟨hb, hs⟩
    rcases hbuild with h | h | h
    · exact h.2 hs
    · exact h.1 hb
    · exact h.1 hb
  have h2 : ¬ (c.Build.Image ≠ "" ∧ c.Stack.BuildImage ≠ "" ∧
      c.Build.Image ≠ c.Stack.BuildImage) := by
    rintro ⟨hb, hs, hne⟩
    rcases hbuild with h | h | h
    · exact hb h.1
    · exact hs h.2
    · exact hne h.2.2
  unfold ValidateConfig
  rw [if_neg h1, if_neg h2]
  simp [hrun, himg]

/-- Witness of C17: the config with a build image and no run image. -/
theorem C17_validateConfig_run_images_required_witness :
    ValidateConfig noRunImageConfig = ValidateOutcome.returns (some "run.images are required") :=
  C17_validateConfig_run_images_required noRunImageConfig
    (Or.inr (Or.inl (by decide))) (by decide) (by decide) (by decide)

/-- Counterexample to C17 as stated.  The config of the claim, with an empty
`Run.Images`, empty `Stack.RunImage` and `Stack.ID` and every other field at
its zero value, has no build image either: `ValidateConfig` returns
`build.image is required`, which does not contain `run.images are required`. -/
theorem C17_counterexample :
    ({} : Config).Run.Images = [] ∧ ({} : Config).Stack.RunImage = "" ∧
    ({} : Config).Stack.ID = "" ∧
    ValidateConfig {} = ValidateOutcome.returns (some "build.image is required") ∧
    ¬ ("run.images are required".data <:+: "build.image is required".data) := by
  decide

theorem mergeRunImages_build (c : Config) :
    (mergeRunImages c).Build = c.Build ∧
    (mergeRunImages c).Stack.BuildImage = c.Stack.BuildImage ∧
    (mergeRunImages c).Stack.ID = c.Stack.ID := by
  unfold mergeRunImages
  by_cases h1 : c.Run.Images.length = 0
  · by_cases h2 : c.Stack.RunImage = "" <;> simp [h1, h2]
  · simp [h1]

theorem mergeBuildImage_run (c : Config) :
    (mergeBuildImage c).Run = c.Run ∧
    (mergeBuildImage c).Stack.RunImage = c.Stack.RunImage ∧
    (mergeBuildImage c).Stack.RunImageMirrors = c.Stack.RunImageMirrors ∧
    (mergeBuildImage c).Stack.ID = c.Stack.ID := by
  unfold mergeBuildImage
  by_cases h1 : c.Build.Image = ""
  · by_cases h2 : c.Stack.BuildImage = "" <;> simp [h1, h2]
  · simp [h1]

/-- The build image and the stack build image after the first half of
`mergeStackWithImages`. -/
theorem mergeBuildImage_images (c : Config) :
    (c.Build.Image ≠ "" →
      (mergeBuildImage c).Build.Image = c.Build.Image ∧
      (mergeBuildImage c).Stack.BuildImage = c.Build.Image) ∧
    (c.Build.Image = "" →
      (mergeBuildImage c).Build.Image = c.Stack.BuildImage ∧
      (mergeBuildImage c).Stack.BuildImage = c.Stack.BuildImage) := by
  unfold mergeBuildImage
  constructor
  · intro h1
    simp [h1]
  · intro h1
    by_cases h2 : c.Stack.BuildImage = "" <;> simp [h1, h2]

/-- Claim C18.  Build-image normalisation: for every config, after
`mergeStackWithImages` both `Build.Image` and `Stack.BuildImage` are the
original `Build.Image` when that was not empty, and otherwise the original
`Stack.BuildImage`. -/
theorem C18_mergeStackWithImages_build_image (c : Config) :
    (c.Build.Image ≠ "" →
      c.mergeStackWithImages.Build.Image = c.Build.Image ∧
      c.mergeStackWithImages.Stack.BuildImage = c.Build.Image) ∧
    (c.Build.Image = "" →
      c.mergeStackWithImages.Build.Image = c.Stack.BuildImage ∧
      c.mergeStackWithImages.Stack.BuildImage = c.Stack.BuildImage) := by
  have hrun := mergeRunImages_build (mergeBuildImage c)
  have himg := mergeBuildImage_images c
  unfold Config.mergeStackWithImages
  rw [hrun.1, hrun.2.1]
  exact himg

/-- Witness of C18: with only the stack build image `x` set, both are `x`
after the merge; with the build image `x` and the stack build image `y`, both
are `x`. -/
theorem C18_mergeStackWithImages_build_image_witness :
    (stackOnlyConfig.mergeStackWithImages.Build.Image = "x" ∧
      stackOnlyConfig.mergeStackWithImages.Stack.BuildImage = "x") ∧
    (mismatchConfig.mergeStackWithImages.Build.Image = "x" ∧
      mismatchConfig.mergeStackWithImages.Stack.BuildImage = "x") :=
  ⟨(C18_mergeStackWithImages_build_image stackOnlyConfig).2 (by decide),
   (C18_mergeStackWithImages_build_image mismatchConfig).1 (by decide)⟩

/-- Claim C19.  Run-image normalisation: for every config, after
`mergeStackWithImages`, if `Run.Images` was not empty it is unchanged and
`Stack.RunImage` and `Stack.RunImageMirrors` are the image and the mirrors of
the first run image; if `Run.Images` was empty and `Stack.RunImage` was not,
`Run.Images` is the single entry made of `Stack.RunImage` and
`Stack.RunImageMirrors`, and these two fields are unchanged; if both were empty,
`Run.Images`, `Stack.RunImage` and `Stack.RunImageMirrors` are unchanged. -/
theorem C19_mergeStackWithImages_run_images (c : Config) :
    (∀ first rest, c.Run.Images = first :: rest →
      c.mergeStackWithImages.Run.Images = c.Run.Images ∧
      c.mergeStackWithImages.Stack.RunImage = first.Image ∧
      c.mergeStackWithImages.Stack.RunImageMirrors = first.Mirrors) ∧
    (c.Run.Images = [] → c.Stack.RunImage ≠ "" →
      c.mergeStackWithImages.Run.Images =
        [{ Image := c.Stack.RunImage, Mirrors := c.Stack.RunImageMirrors }] ∧
      c.mergeStackWithImages.Stack.RunImage = c.Stack.RunImage ∧
      c.mergeStackWithImages.Stack.RunImageMirrors = c.Stack.RunImageMirrors) ∧
    (c.Run.Images = [] → c.Stack.RunImage = "" →
      c.mergeStackWithImages.Run.Images = c.Run.Images ∧
      c.mergeStackWithImages.Stack.RunImage = c.Stack.RunImage ∧
      c.mergeStackWithImages.Stack.RunImageMirrors = c.Stack.RunImageMirrors) := by
  obtain ⟨hrun, himg, hmir, _⟩ := mergeBuildImage_run c
  unfold Config.mergeStackWithImages mergeRunImages
  rw [hrun, himg, hmir]
  refine ⟨?_, ?_, ?_⟩
  · intro first rest hfirst
    simp [hfirst, hrun]
  · intro hnil hne
    simp [hnil, hne, himg, hmir]
  · intro hnil he
    simp [hnil, he, hrun, himg, hmir]

/-- Witness of C19: a config with two run images, a config with only the
legacy fields of the stack, and a config with neither. -/
theorem C19_mergeStackWithImages_run_images_witness :
    (runImagesConfig.mergeStackWithImages.Run.Images = runImagesConfig.Run.Images ∧
      runImagesConfig.mergeStackWithImages.Stack.RunImage = "a" ∧
      runImagesConfig.mergeStackWithImages.Stack.RunImageMirrors = ["a-mirror"]) ∧
    (legacyStackConfig.mergeStackWithImages.Run.Images =
        [{ Image := "run", Mirrors := ["mirror"] }] ∧
      legacyStackConfig.mergeStackWithImages.Stack.RunImage = "run" ∧
      legacyStackConfig.mergeStackWithImages.Stack.RunImageMirrors = ["mirror"]) ∧
    (noRunImageConfig.mergeStackWithImages.Run.Images = [] ∧
      noRunImageConfig.mergeStackWithImages.Stack.RunImage = "" ∧
      noRunImageConfig.mergeStackWithImages.Stack.RunImageMirrors = []) :=
  ⟨(C19_mergeStackWithImages_run_images runImagesConfig).1
      { Image := "a", Mirrors := ["a-mirror"] } [{ Image := "b" }] (by decide),
   (C19_mergeStackWithImages_run_images legacyStackConfig).2.1 (by decide) (by decide),
   (C19_mergeStackWithImages_run_images noRunImageConfig).2.2 (by decide) (by decide)⟩

/-- Claim C20, as the code has it.  For every config in which `Build.Image` and
`Stack.BuildImage` are both set and disagree, `ValidateConfig` on the config as
it is returns the error `build.image and stack.build-image do not match`; but
`mergeStackWithImages` resolves the disagreement, both fields being the
original `Build.Image` after it, and `ValidateConfig` on the merged config
returns neither build-image error. -/
theorem C20_merge_resolves_build_image_mismatch (c : Config)
    (hb : c.Build.Image ≠ "") (hs : c.Stack.BuildImage ≠ "")
    (hne : c.Build.Image ≠ c.Stack.BuildImage) :
    ValidateConfig c =
      ValidateOutcome.returns (some "build.image and stack.build-image do not match") ∧
    c.mergeStackWithImages.Build.Image = c.Build.Image ∧
    c.mergeStackWithImages.Stack.BuildImage = c.Build.Image ∧
    ValidateConfig c.mergeStackWithImages ≠
      ValidateOutcome.returns (some "build.image and stack.build-image do not match") ∧
    ValidateConfig c.mergeStackWithImages ≠
      ValidateOutcome.returns (some "build.image is required") := by
  have hrun := mergeRunImages_build (mergeBuildImage c)
  have himg := (mergeBuildImage_images c).1 hb
  have h1 : c.mergeStackWithImages.Build.Image = c.Build.Image := by
    unfold Config.mergeStackWithImages
    rw [hrun.1]
    exact himg.1
  have h2 : c.mergeStackWithImages.Stack.BuildImage = c.Build.Image := by
    unfold Config.mergeStackWithImages
    rw [hrun.2.1]
    exact himg.2
  have hno := validateConfig_no_build_image_error c.mergeStackWithImages
    (by rw [h1]; exact fun h => hb h.1)
    (by rw [h1, h2]; exact fun h => h.2.2 rfl)
  refine ⟨?_, h1, h2, hno.2, hno.1⟩
  simp [ValidateConfig, hb, hs, hne]

/-- Witness of C20: the config with the build image `x` and the stack build
image `y`. -/
theorem C20_merge_resolves_build_image_mismatch_witness :
    ValidateConfig mismatchConfig =
      ValidateOutcome.returns (some "build.image and stack.build-image do not match") ∧
    mismatchConfig.mergeStackWithImages.Build.Image = "x" ∧
    mismatchConfig.mergeStackWithImages.Stack.BuildImage = "x" ∧
    ValidateConfig mismatchConfig.mergeStackWithImages ≠
      ValidateOutcome.returns (some "build.image and stack.build-image do not match") ∧
    ValidateConfig mismatchConfig.mergeStackWithImages ≠
      ValidateOutcome.returns (some "build.image is required") :=
  C20_merge_resolves_build_image_mismatch mismatchConfig (by decide) (by decide) (by decide)

/-- Counterexample to C20 as stated.  The build image `x` and the stack build
image `y` are both set and disagree; after `mergeStackWithImages` the stack
build image is `x`, and `ValidateConfig` on the merged config returns nil, not
the `do not match` error. -/
theorem C20_counterexample :
    mismatchConfig.Build.Image ≠ "" ∧ mismatchConfig.Stack.BuildImage ≠ "" ∧
    mismatchConfig.Build.Image ≠ mismatchConfig.Stack.BuildImage ∧
    mismatchConfig.mergeStackWithImages.Stack.BuildImage = "x" ∧
    ValidateConfig mismatchConfig.mergeStackWithImages = ValidateOutcome.returns none := by
  decide

/-! ## Theorems: the warnings and errors of `ParseBuildConfigEnv` -/

/-- The second loop of `ParseBuildConfigEnv` adds, in the order of the keys it
visits, the missing-delimiter warning of each key that calls for one, and
counts them. -/
theorem checkDelims_eq (m : EnvMap) (l : List (String × String)) (w : List EnvWarning)
    (n : Nat) :
    checkDelims m l w n =
      (w ++ (l.map Prod.fst).filterMap (missingDelimOf m),
       n + ((l.map Prod.fst).filterMap (missingDelimOf m)).length) := by
  induction l generalizing w n with
  | nil => simp [checkDelims]
  | cons entry rest ih =>
    obtain ⟨k, v⟩ := entry
    simp only [checkDelims, List.map_cons, List.filterMap_cons, missingDelimOf]
    rcases hsplit : getFilePrefixSuffix k with ⟨name, suffix, _ | err⟩
    · simp only
      by_cases hq : (suffix = "append" ∨ suffix = "prepend") ∧
          envGet m (name ++ ".delim") = none
      · simp only [hq, and_self, if_true, ih, List.length_cons, List.append_assoc,
          List.singleton_append]
        congr 1
        omega
      · simp only [hq, if_false, ih]
    · simp only [ih]

theorem missingDelimOf_isMissingDelim (m : EnvMap) (k : String) (w : EnvWarning)
    (h : missingDelimOf m k = some w) : w.isMissingDelim = true := by
  unfold missingDelimOf at h
  rcases hsplit : getFilePrefixSuffix k with ⟨name, suffix, _ | err⟩
  · rw [hsplit] at h
    simp only at h
    split at h
    · simp only [Option.some.injEq] at h
      rw [← h]
      rfl
    · simp at h
  · rw [hsplit] at h
    simp at h

theorem filter_missing_filterMap (m : EnvMap) (ks : List String) :
    (ks.filterMap (missingDelimOf m)).filter EnvWarning.isMissingDelim =
      ks.filterMap (missingDelimOf m) := by
  rw [List.filter_eq_self]
  intro w hw
  obtain ⟨k, _, hk⟩ := List.mem_filterMap.mp hw
  exact missingDelimOf_isMissingDelim m k w hk

theorem filter_overwrite_filterMap (m : EnvMap) (ks : List String) :
    (ks.filterMap (missingDelimOf m)).filter EnvWarning.isOverwrite = [] := by
  rw [List.filter_eq_nil_iff]
  intro w hw
  obtain ⟨k, _, hk⟩ := List.mem_filterMap.mp hw
  have hmiss := missingDelimOf_isMissingDelim m k w hk
  cases w <;> simp_all [EnvWarning.isMissingDelim, EnvWarning.isOverwrite]

/-- The three results of `ParseBuildConfigEnv` once its first loop is over. -/
theorem finishBuildConfigEnv_eq (path : String) (m : EnvMap) (w : List EnvWarning) :
    finishBuildConfigEnv path m w =
      (some m, w ++ (m.map Prod.fst).filterMap (missingDelimOf m),
       if (m.map Prod.fst).filterMap (missingDelimOf m) = [] then none
       else some (EnvError.parsing path)) := by
  unfold finishBuildConfigEnv
  rw [checkDelims_eq]
  simp only [Nat.zero_add]
  cases hD : (m.map Prod.fst).filterMap (missingDelimOf m) with
  | nil => simp
  | cons x rest => simp

theorem getBuildConfigEnvFileName_of_not_recognised (v : BuildConfigEnv)
    (h : recognised v.Suffix = false) :
    getBuildConfigEnvFileName v = ("", "", some (EnvError.unknownActionType v.Suffix)) := by
  simp only [recognised, Bool.or_eq_false_iff, decide_eq_false_iff_not] at h
  obtain ⟨⟨⟨⟨h1, h2⟩, h3⟩, h4⟩, h5⟩ := h
  simp [getBuildConfigEnvFileName, getActionType, NONE, DEFAULT, OVERRIDE, APPEND, PREPEND,
    h1, h2, h3, h4, h5]

/-- The first loop of `ParseBuildConfigEnv` adds no missing-delimiter warning,
and when the call ends with the error of the delimiter check, the loop has gone
through every directive: every name is non-empty and every suffix recognised. -/
theorem parseBuildConfigEnvLoop_of_parsing_error (path : String) (env : List BuildConfigEnv)
    (m : EnvMap) (w : List EnvWarning)
    (hw : ∀ x ∈ w, x.isMissingDelim = false)
    (h : (parseBuildConfigEnvLoop path env m w).2.2 = some (EnvError.parsing path)) :
    (∀ d ∈ env, d.Name ≠ "") ∧ (∀ d ∈ env, recognised d.Suffix = true) ∧
    ∃ w1, (∀ x ∈ w1, x.isMissingDelim = false) ∧
      parseBuildConfigEnvLoop path env m w = finishBuildConfigEnv path (specFold env m) w1 := by
  induction env generalizing m w with
  | nil =>
    exact ⟨by simp, by simp, w, hw, by simp [parseBuildConfigEnvLoop, specFold]⟩
  | cons v rest ih =>
    by_cases hname : v.Name = ""
    · simp [parseBuildConfigEnvLoop, hname] at h
    · cases hrecb : recognised v.Suffix with
      | false =>
        have hfile := getBuildConfigEnvFileName_of_not_recognised v hrecb
        simp [parseBuildConfigEnvLoop, hname, hfile] at h
      | true =>
        have hfile := getBuildConfigEnvFileName_of_recognised v hrecb
        rw [specFold_append_one]
        simp only [parseBuildConfigEnvLoop, hname, if_false, hfile] at h ⊢
        have hdn : v.Name ++ ".delim" ≠ "" := append_ne_empty _ _ (by decide)
        have hmap : (if v.Delim ≠ "" ∧ (if v.Delim ≠ "" then v.Name ++ ".delim" else "") ≠ ""
            then envSet m (if v.Delim ≠ "" then v.Name ++ ".delim" else "") v.Delim else m) =
            (if v.Delim ≠ "" then envSet m (v.Name ++ ".delim") v.Delim else m) := by
          by_cases hd : v.Delim = "" <;> simp [hd, hdn]
        rw [hmap] at h ⊢
        have hw3 : ∀ x ∈
            (match envGet m (if v.Delim ≠ "" then v.Name ++ ".delim" else "") with
              | some val =>
                (match envGet m (effectiveKey v) with
                  | some val1 =>
                    (if v.Value = "" then w ++ [EnvWarning.emptyValue v.Name] else w) ++
                      [EnvWarning.overridingSuffix v.Name v.Suffix val1 v.Value]
                  | none => if v.Value = "" then w ++ [EnvWarning.emptyValue v.Name] else w) ++
                  [EnvWarning.overridingDelim v.Name v.Delim val v.Value]
              | none =>
                match envGet m (effectiveKey v) with
                | some val1 =>
                  (if v.Value = "" then w ++ [EnvWarning.emptyValue v.Name] else w) ++
                    [EnvWarning.overridingSuffix v.Name v.Suffix val1 v.Value]
                | none => if v.Value = "" then w ++ [EnvWarning.emptyValue v.Name] else w),
            x.isMissingDelim = false := by
          intro x hx
          have hbase : ∀ y ∈ (if v.Value = "" then w ++ [EnvWarning.emptyValue v.Name] else w),
              y.isMissingDelim = false := by
            intro y hy
            by_cases hv : v.Value = ""
            · simp only [hv, if_true, List.mem_append, List.mem_singleton] at hy
              rcases hy with hy | hy
              · exact hw y hy
              · rw [hy]; rfl
            · simp only [hv, if_false] at hy
              exact hw y hy
          cases h1 : envGet m (if v.Delim ≠ "" then v.Name ++ ".delim" else "") <;>
            cases h2 : envGet m (effectiveKey v) <;>
            simp only [h1, h2, List.mem_append, List.mem_singleton] at hx
          · exact hbase x hx
          · rcases hx with hx | hx
            · exact hbase x hx
            · rw [hx]; rfl
          · rcases hx with hx | hx
            · exact hbase x hx
            · rw [hx]; rfl
          · rcases hx with (hx | hx) | hx
            · exact hbase x hx
            · rw [hx]; rfl
            · rw [hx]; rfl
        obtain ⟨hn1, hs1, w1, hw1, heq⟩ := ih _ _ hw3 h
        refine ⟨?_, ?_, w1, hw1, heq⟩
        · intro d hd
          rcases List.mem_cons.mp hd with hd | hd
          · rw [hd]; exact hname
          · exact hn1 d hd
        · intro d hd
          rcases List.mem_cons.mp hd with hd | hd
          · rw [hd]; exact hrecb
          · exact hs1 d hd

theorem keys_envSet (m : EnvMap) (k v : String) :
    (envSet m k v).map Prod.fst =
      if k ∈ m.map Prod.fst then m.map Prod.fst else m.map Prod.fst ++ [k] := by
  induction m with
  | nil => simp [envSet]
  | cons entry rest ih =>
    obtain ⟨k0, v0⟩ := entry
    by_cases h0 : k0 = k
    · subst h0
      simp [envSet]
    · have hne : ¬ k = k0 := fun h => h0 h.symm
      by_cases hmem : k ∈ rest.map Prod.fst
      · simp only [envSet, h0, if_false, List.map_cons, ih, hmem, if_true, List.mem_cons,
          or_true]
      · simp only [envSet, h0, if_false, List.map_cons, ih, hmem, List.mem_cons, hne,
          or_self, List.cons_append]

theorem envSet_nodup (m : EnvMap) (k v : String) (h : (m.map Prod.fst).Nodup) :
    ((envSet m k v).map Prod.fst).Nodup := by
  rw [keys_envSet]
  by_cases hmem : k ∈ m.map Prod.fst
  · simpa [hmem] using h
  · simp only [hmem, if_false]
    rw [List.nodup_append]
    refine ⟨h, List.nodup_singleton k, ?_⟩
    intro a ha hk
    rw [List.mem_singleton.mp hk] at ha
    exact hmem ha

/-- The keys of the map of the spec are distinct. -/
theorem specFold_nodup (env : List BuildConfigEnv) (m : EnvMap)
    (h : (m.map Prod.fst).Nodup) : ((specFold env m).map Prod.fst).Nodup := by
  induction env generalizing m with
  | nil => simpa [specFold] using h
  | cons d rest ih =>
    rw [specFold_append_one]
    apply ih
    apply envSet_nodup
    by_cases hd : d.Delim = ""
    · simpa [hd] using h
    · simpa [hd] using envSet_nodup m _ _ h

theorem joinDot_splitOnDot (l : List Char) : joinDot (splitOnDot l) = l := by
  induction l with
  | nil => rfl
  | cons ch rest ih =>
    by_cases hc : ch = '.'
    · subst hc
      simp only [splitOnDot, if_true, joinDot, List.nil_append]
      cases hs : splitOnDot rest with
      | nil => exact absurd hs (splitOnDot_ne_nil rest)
      | cons piece pieces =>
        rw [hs] at ih
        simp only [joinDot] at ih
        simp [List.flatMap_cons, ih]
    · simp only [splitOnDot, hc, if_false]
      cases hs : splitOnDot rest with
      | nil => exact absurd hs (splitOnDot_ne_nil rest)
      | cons piece pieces =>
        rw [hs] at ih
        simp only [joinDot] at ih ⊢
        simp [ih]

theorem intercalate_go_data (acc : String) (qs : List (List Char)) :
    (String.intercalate.go acc "." (qs.map String.mk)).data =
      acc.data ++ qs.flatMap (fun q => '.' :: q) := by
  induction qs generalizing acc with
  | nil => simp [String.intercalate.go]
  | cons q rest ih =>
    simp only [List.map_cons, String.intercalate.go, ih, String.data_append,
      List.flatMap_cons]
    simp

theorem intercalate_data (q : List Char) (qs : List (List Char)) :
    (".".intercalate ((q :: qs).map String.mk)).data = joinDot (q :: qs) := by
  simp only [List.map_cons, String.intercalate, intercalate_go_data, joinDot]

/-- A key that splits into a name and a suffix is the name, a dot and the
suffix. -/
theorem getFilePrefixSuffix_join (k name suffix : String)
    (h : getFilePrefixSuffix k = (name, suffix, none)) : k = name ++ "." ++ suffix := by
  have hjoin := joinDot_splitOnDot k.data
  unfold getFilePrefixSuffix at h
  cases hs : splitOnDot k.data with
  | nil => exact absurd hs (splitOnDot_ne_nil _)
  | cons p0 ps =>
    rw [hs] at h hjoin
    cases ps with
    | nil => simp at h
    | cons p1 rest =>
      apply String.ext
      rw [data_name_dot, ← hjoin]
      cases rest with
      | nil =>
        simp only [List.map_cons, List.map_nil, List.length_cons, List.length_nil] at h
        simp at h
        obtain ⟨h0, h1⟩ := h
        rw [← h0, ← h1]
        simp [joinDot]
      | cons p2 rest2 =>
        simp only [List.map_cons, List.length_cons] at h
        simp at h
        obtain ⟨h0, h1⟩ := h
        have hdata := intercalate_data p1 (p2 :: rest2)
        simp only [List.map_cons] at hdata
        rw [← h0, ← h1, hdata]
        simp [joinDot]

/-- Distinct keys call for distinct missing-delimiter warnings. -/
theorem missingDelimOf_inj (m : EnvMap) (k1 k2 : String) (w : EnvWarning)
    (h1 : missingDelimOf m k1 = some w) (h2 : missingDelimOf m k2 = some w) : k1 = k2 := by
  have key : ∀ k, missingDelimOf m k = some w →
      ∃ name suffix, w = EnvWarning.missingDelim name suffix ∧ k = name ++ "." ++ suffix := by
    intro k hk
    unfold missingDelimOf at hk
    rcases hsplit : getFilePrefixSuffix k with ⟨name, suffix, _ | err⟩
    · rw [hsplit] at hk
      simp only at hk
      split at hk
      · simp only [Option.some.injEq] at hk
        exact ⟨name, suffix, hk.symm, getFilePrefixSuffix_join k name suffix hsplit⟩
      · simp at hk
    · rw [hsplit] at hk
      simp at hk
  obtain ⟨n1, s1, hw1, hk1⟩ := key k1 h1
  obtain ⟨n2, s2, hw2, hk2⟩ := key k2 h2
  rw [hw1] at hw2
  simp only [EnvWarning.missingDelim.injEq] at hw2
  rw [hk1, hk2, hw2.1, hw2.2]

theorem missingDelim_warnings_nodup (m : EnvMap) (h : (m.map Prod.fst).Nodup) :
    ((m.map Prod.fst).filterMap (missingDelimOf m)).Nodup := by
  apply List.Nodup.filterMap _ h
  intro a a1 b hb hb1
  exact missingDelimOf_inj m a a1 b (Option.mem_def.mp hb) (Option.mem_def.mp hb1)

theorem filter_missing_of_none (w : List EnvWarning)
    (hw : ∀ x ∈ w, x.isMissingDelim = false) : w.filter EnvWarning.isMissingDelim = [] := by
  rw [List.filter_eq_nil_iff]
  intro x hx
  simp [hw x hx]

theorem effectiveKey_ne_delim (d : BuildConfigEnv) (h : recognised d.Suffix = true) :
    effectiveKey d ≠ d.Name ++ ".delim" := by
  intro heq
  simp only [recognised, Bool.or_eq_true, decide_eq_true_eq] at h
  rcases h with (((h | h) | h) | h) | h
  · rw [effectiveKey, if_pos h] at heq
    have hlen := congrArg String.length heq
    rw [String.length_append] at hlen
    have h6 : (".delim" : String).length = 6 := by decide
    omega
  all_goals
    rw [effectiveKey, h] at heq
    have hdata := congrArg String.data heq
    simp at hdata

theorem effectiveKey_ne_empty (d : BuildConfigEnv) (hn : d.Name ≠ "") :
    effectiveKey d ≠ "" := by
  unfold effectiveKey
  by_cases hs : d.Suffix = ""
  · simpa [hs] using hn
  · simp only [hs, if_false]
    intro h
    have hlen := congrArg String.length h
    simp only [String.length_append] at hlen
    have h1 : (".":String).length = 1 := by decide
    have h0 : ("":String).length = 0 := by decide
    omega

theorem lastWrite_append_singleton (ws : List (String × String)) (k v : String) :
    lastWrite (ws ++ [(k, v)]) k = some v := by
  induction ws with
  | nil => simp [lastWrite]
  | cons w rest ih => simp [lastWrite, ih]

/-- The overwrite warnings of two directives of the same name and suffix. -/
theorem overwrite_warnings_of_two (d1 d2 : BuildConfigEnv) (path : String)
    (hname : d1.Name = d2.Name) (hne : d1.Name ≠ "") (hsuf : d1.Suffix = d2.Suffix)
    (hrec : recognised d1.Suffix = true) :
    (ParseBuildConfigEnv [d1, d2] path).2.1.filter EnvWarning.isOverwrite =
        EnvWarning.overridingSuffix d2.Name d2.Suffix d1.Value d2.Value ::
          (if d1.Delim ≠ "" ∧ d2.Delim ≠ "" then
            [EnvWarning.overridingDelim d2.Name d2.Delim d1.Delim d2.Value]
          else []) := by
  have hrec2 : recognised d2.Suffix = true := hsuf ▸ hrec
  have hne2 : d2.Name ≠ "" := hname ▸ hne
  have hkey : effectiveKey d1 = effectiveKey d2 := by simp [effectiveKey, hname, hsuf]
  have hf1 := getBuildConfigEnvFileName_of_recognised d1 hrec
  have hf2 := getBuildConfigEnvFileName_of_recognised d2 hrec2
  have hk1 := effectiveKey_ne_delim d2 hrec2
  have hk2 := effectiveKey_ne_empty d2 hne2
  have hk3 : d2.Name ++ ".delim" ≠ "" := append_ne_empty _ _ (by decide)
  have hk4 : ¬ d2.Name ++ ".delim" = effectiveKey d2 := fun h => hk1 h.symm
  unfold ParseBuildConfigEnv
  simp only [parseBuildConfigEnvLoop, hne, hne2, if_false, hf1, hf2, finishBuildConfigEnv_eq,
    hkey, hname, List.filter_append, filter_overwrite_filterMap, List.append_nil]
  by_cases hd1 : d1.Delim = "" <;> by_cases hd2 : d2.Delim = "" <;>
    by_cases hv1 : d1.Value = "" <;> by_cases hv2 : d2.Value = "" <;>
    simp [hd1, hd2, hv1, hv2, envGet, envSet, envGet_envSet, hk1, hk2, hk3, hk4,
      EnvWarning.isOverwrite, List.filter]

/-- Claim C12, as the code has it.  For every list of two directives that have
the same non-empty name, the same recognised suffix and differing values,
`ParseBuildConfigEnv` returns a map that holds the value of the second
directive under the effective key, and among the returned warnings exactly one
overwrite warning for the effective key, from the first value to the second;
when both directives have a non-empty `Delim` there is one more overwrite
warning, for the delimiter key, and otherwise there is no other overwrite
warning. -/
theorem C12_two_directives_last_value_wins (d1 d2 : BuildConfigEnv) (path : String)
    (hname : d1.Name = d2.Name) (hne : d1.Name ≠ "") (hsuf : d1.Suffix = d2.Suffix)
    (hrec : recognised d1.Suffix = true) (_hval : d1.Value ≠ d2.Value) :
    (∃ m, (ParseBuildConfigEnv [d1, d2] path).1 = some m ∧
      envGet m (effectiveKey d2) = some d2.Value) ∧
    (ParseBuildConfigEnv [d1, d2] path).2.1.filter EnvWarning.isOverwrite =
        EnvWarning.overridingSuffix d2.Name d2.Suffix d1.Value d2.Value ::
          (if d1.Delim ≠ "" ∧ d2.Delim ≠ "" then
            [EnvWarning.overridingDelim d2.Name d2.Delim d1.Delim d2.Value]
          else []) := by
  refine ⟨?_, overwrite_warnings_of_two d1 d2 path hname hne hsuf hrec⟩
  have hn : ∀ d ∈ [d1, d2], d.Name ≠ "" := by
    intro d hd
    simp only [List.mem_cons, List.mem_singleton, List.not_mem_nil, or_false] at hd
    rcases hd with hd | hd
    · rw [hd]; exact hne
    · rw [hd, ← hname]; exact hne
  have hs : ∀ d ∈ [d1, d2], recognised d.Suffix = true := by
    intro d hd
    simp only [List.mem_cons, List.mem_singleton, List.not_mem_nil, or_false] at hd
    rcases hd with hd | hd
    · rw [hd]; exact hrec
    · rw [hd, ← hsuf]; exact hrec
  obtain ⟨m, hm, _, _, hget⟩ := parseBuildConfigEnv_map_aux [d1, d2] path hn hs
  refine ⟨m, hm, ?_⟩
  rw [hget]
  have hw : specWrites [d1, d2] =
      (directiveWrites d1 ++
        (if d2.Delim ≠ "" then [(d2.Name ++ ".delim", d2.Delim)] else [])) ++
        [(effectiveKey d2, d2.Value)] := by
    simp [specWrites, directiveWrites, List.flatMap_cons]
  rw [hw, lastWrite_append_singleton]

/-- Witness of C12: the value `1` of `A.append`, with its delimiter, overwritten
by the value `2`: one overwrite warning. -/
theorem C12_two_directives_last_value_wins_witness :
    (∃ m, (ParseBuildConfigEnv
        [{ Name := "A", Value := "1", Suffix := "append", Delim := "_" },
         { Name := "A", Value := "2", Suffix := "append" }] "builder.toml").1 = some m ∧
      envGet m "A.append" = some "2") ∧
    (ParseBuildConfigEnv
        [{ Name := "A", Value := "1", Suffix := "append", Delim := "_" },
         { Name := "A", Value := "2", Suffix := "append" }] "builder.toml").2.1.filter
        EnvWarning.isOverwrite =
      [EnvWarning.overridingSuffix "A" "append" "1" "2"] :=
  C12_two_directives_last_value_wins
    { Name := "A", Value := "1", Suffix := "append", Delim := "_" }
    { Name := "A", Value := "2", Suffix := "append" } "builder.toml"
    (by decide) (by decide) (by decide) (by decide) (by decide)

/-- Counterexample to C12 as stated.  The two directives have the same
non-empty name, the same recognised suffix and differing values, and each has
a delimiter; the returned warnings hold two overwrite warnings, one for the key
`A.append` and one for the key `A.delim`. -/
theorem C12_counterexample :
    (∃ d1 d2, twiceDelimitedEnv = [d1, d2] ∧ d1.Name = d2.Name ∧ d1.Name ≠ "" ∧
      d1.Suffix = d2.Suffix ∧ recognised d1.Suffix = true ∧ d1.Value ≠ d2.Value) ∧
    (ParseBuildConfigEnv twiceDelimitedEnv "builder.toml").2.1 =
      [EnvWarning.overridingSuffix "A" "append" "1" "2",
       EnvWarning.overridingDelim "A" ":" ":" "2"] ∧
    ((ParseBuildConfigEnv twiceDelimitedEnv "builder.toml").2.1.filter
      EnvWarning.isOverwrite).length = 2 :=
  ⟨⟨_, _, rfl, by decide, by decide, by decide, by decide, by decide⟩, by decide, by decide⟩

/-- Two ways of writing one string as a name followed by an ending: the shorter
ending is the end of the longer one. -/
theorem ending_of_append_eq (a b x y : String) (h : a ++ x = b ++ y)
    (hlen : x.length ≤ y.length) : x.data <:+ y.data := by
  have hdata := congrArg String.data h
  rw [String.data_append, String.data_append] at hdata
  have hx : x.data <:+ b.data ++ y.data := hdata ▸ List.suffix_append a.data x.data
  exact List.suffix_of_suffix_length_le hx (List.suffix_append b.data y.data) hlen

theorem append_right_cancel (a b x : String) (h : a ++ x = b ++ x) : a = b := by
  have hdata := congrArg String.data h
  rw [String.data_append, String.data_append] at hdata
  exact String.ext (List.append_cancel_right hdata)

/-- A key calls for no missing-delimiter warning when, each time it is a name
followed by `.append` or by `.prepend`, the map has `name + ".delim"`. -/
theorem missingDelimOf_eq_none (m : EnvMap) (k : String)
    (happ : ∀ name, k = name ++ ".append" → envGet m (name ++ ".delim") ≠ none)
    (hpre : ∀ name, k = name ++ ".prepend" → envGet m (name ++ ".delim") ≠ none) :
    missingDelimOf m k = none := by
  unfold missingDelimOf
  rcases hsplit : getFilePrefixSuffix k with ⟨name, suffix, _ | err⟩
  · simp only
    have hk := getFilePrefixSuffix_join k name suffix hsplit
    rw [String.append_assoc] at hk
    by_cases hq : (suffix = "append" ∨ suffix = "prepend") ∧
        envGet m (name ++ ".delim") = none
    · exfalso
      rcases hq.1 with hs | hs
      · rw [hs] at hk
        exact happ name hk hq.2
      · rw [hs] at hk
        exact hpre name hk hq.2
    · rw [if_neg hq]
  · rfl

/-- Claim C13.  For every single directive with a non-empty name `N`, a
non-empty value `V`, the suffix `append` and a non-empty delimiter `D`,
`ParseBuildConfigEnv` on the one-element list returns a nil error, no warning,
and the map with exactly the two entries `N + ".append"` for `V` and
`N + ".delim"` for `D`. -/
theorem C13_single_append_with_delim (N V D path : String)
    (hN : N ≠ "") (hV : V ≠ "") (hD : D ≠ "") :
    ParseBuildConfigEnv [{ Name := N, Value := V, Suffix := "append", Delim := D }] path =
      (some [(N ++ ".delim", D), (N ++ ".append", V)], [], none) ∧
    envGet [(N ++ ".delim", D), (N ++ ".append", V)] (N ++ ".append") = some V ∧
    envGet [(N ++ ".delim", D), (N ++ ".append", V)] (N ++ ".delim") = some D ∧
    [(N ++ ".delim", D), (N ++ ".append", V)].length = 2 := by
  have hne : ¬ N ++ ".delim" = N ++ ".append" := by
    intro h
    have h1 := ending_of_append_eq N N ".delim" ".append" h (by decide)
    exact absurd h1 (by decide)
  have hdn : N ++ ".delim" ≠ "" := append_ne_empty _ _ (by decide)
  have hfile := getBuildConfigEnvFileName_of_recognised
    { Name := N, Value := V, Suffix := "append", Delim := D }
    (by show recognised "append" = true; decide)
  have hkey : effectiveKey { Name := N, Value := V, Suffix := "append", Delim := D } =
      N ++ ".append" := by
    simp [effectiveKey, String.append_assoc]
  have hget : envGet [(N ++ ".delim", D), (N ++ ".append", V)] (N ++ ".delim") = some D := by
    simp [envGet]
  have hm1 : missingDelimOf [(N ++ ".delim", D), (N ++ ".append", V)] (N ++ ".delim") =
      none := by
    apply missingDelimOf_eq_none
    · intro name h
      have h1 := ending_of_append_eq N name ".delim" ".append" h (by decide)
      exact absurd h1 (by decide)
    · intro name h
      have h1 := ending_of_append_eq N name ".delim" ".prepend" h (by decide)
      exact absurd h1 (by decide)
  have hm2 : missingDelimOf [(N ++ ".delim", D), (N ++ ".append", V)] (N ++ ".append") =
      none := by
    apply missingDelimOf_eq_none
    · intro name h
      rw [← append_right_cancel N name ".append" h, hget]
      simp
    · intro name h
      have h1 := ending_of_append_eq N name ".append" ".prepend" h (by decide)
      exact absurd h1 (by decide)
  refine ⟨?_, ?_, hget, rfl⟩
  · unfold ParseBuildConfigEnv
    simp only [parseBuildConfigEnvLoop, hN, if_false, hfile, hkey, hV, hD, ne_eq,
      not_false_eq_true, if_true, hdn, and_self, envGet, envSet, hne,
      finishBuildConfigEnv_eq, List.map_cons, List.map_nil, List.filterMap_cons,
      List.filterMap_nil, hm1, hm2, List.append_nil]
  · simp [envGet, hne]

/-- Witness of C13: the directive `A` with the value `1`, the suffix `append`
and the delimiter `_`. -/
theorem C13_single_append_with_delim_witness :
    ParseBuildConfigEnv [{ Name := "A", Value := "1", Suffix := "append", Delim := "_" }]
        "builder.toml" =
      (some [("A.delim", "_"), ("A.append", "1")], [], none) :=
  (C13_single_append_with_delim "A" "1" "_" "builder.toml"
    (by decide) (by decide) (by decide)).1

/-- The first loop of `ParseBuildConfigEnv` returns a hard error when some
directive has an empty name or an unrecognised suffix. -/
theorem parseBuildConfigEnvLoop_hard_error (path : String) (env : List BuildConfigEnv)
    (m : EnvMap) (w : List EnvWarning)
    (h : ∃ d ∈ env, d.Name = "" ∨ recognised d.Suffix = false) :
    (parseBuildConfigEnvLoop path env m w).2.2 = some (EnvError.emptyName path) ∨
    ∃ suffix, recognised suffix = false ∧
      (parseBuildConfigEnvLoop path env m w).2.2 = some (EnvError.unknownActionType suffix) := by
  induction env generalizing m w with
  | nil =>
    obtain ⟨d, hd, _⟩ := h
    exact absurd hd (List.not_mem_nil _)
  | cons v rest ih =>
    by_cases hname : v.Name = ""
    · left
      simp [parseBuildConfigEnvLoop, hname]
    · cases hrecb : recognised v.Suffix with
      | false =>
        right
        refine ⟨v.Suffix, hrecb, ?_⟩
        simp [parseBuildConfigEnvLoop, hname, getBuildConfigEnvFileName_of_not_recognised v hrecb]
      | true =>
        have hrest : ∃ d ∈ rest, d.Name = "" ∨ recognised d.Suffix = false := by
          obtain ⟨d, hd, hbad⟩ := h
          rcases List.mem_cons.mp hd with hd | hd
          · subst hd
            rcases hbad with hb | hb
            · exact absurd hb hname
            · rw [hrecb] at hb
              exact absurd hb (by decide)
          · exact ⟨d, hd, hbad⟩
        simp only [parseBuildConfigEnvLoop, hname, if_false,
          getBuildConfigEnvFileName_of_recognised v hrecb]
        exact ih _ _ hrest

/-- Claim C14.  Malformed directives are hard errors: for every directive list
that contains a directive with an empty name or with a suffix outside the five
recognised ones, `ParseBuildConfigEnv` returns a non-nil error, which is the
error of an empty name or the error of an unknown action type. -/
theorem C14_malformed_directive_is_hard_error (env : List BuildConfigEnv) (path : String)
    (h : ∃ d ∈ env, d.Name = "" ∨ recognised d.Suffix = false) :
    (ParseBuildConfigEnv env path).2.2 ≠ none ∧
    ((ParseBuildConfigEnv env path).2.2 = some (EnvError.emptyName path) ∨
      ∃ suffix, recognised suffix = false ∧
        (ParseBuildConfigEnv env path).2.2 = some (EnvError.unknownActionType suffix)) := by
  have hhard := parseBuildConfigEnvLoop_hard_error path env [] [] h
  unfold ParseBuildConfigEnv
  refine ⟨?_, hhard⟩
  rcases hhard with he | ⟨suffix, _, he⟩ <;> rw [he] <;> simp

/-- Witness of C14: a well-formed directive followed by one with the suffix
`replace`, and a list whose second directive has no name. -/
theorem C14_malformed_directive_is_hard_error_witness :
    (ParseBuildConfigEnv
      [{ Name := "A", Value := "1" }, { Name := "B", Value := "2", Suffix := "replace" }]
      "builder.toml").2.2 = some (EnvError.unknownActionType "replace") ∧
    (ParseBuildConfigEnv
      [{ Name := "A", Value := "1" }, { Name := "", Value := "2" }]
      "builder.toml").2.2 ≠ none :=
  ⟨by decide,
   (C14_malformed_directive_is_hard_error
      [{ Name := "A", Value := "1" }, { Name := "", Value := "2" }] "builder.toml"
      ⟨{ Name := "", Value := "2" }, by decide, Or.inl rfl⟩).1⟩

theorem ending_comparable (a b x y : String) (h : a ++ x = b ++ y) :
    x.data <:+ y.data ∨ y.data <:+ x.data := by
  rcases Nat.le_total x.length y.length with hle | hle
  · exact Or.inl (ending_of_append_eq a b x y h hle)
  · exact Or.inr (ending_of_append_eq b a y x h.symm hle)

/-- The effective key of a directive with a recognised suffix: the name, or
the name followed by a dot and the suffix. -/
theorem effectiveKey_cases (d : BuildConfigEnv) (h : recognised d.Suffix = true) :
    (d.Suffix = "" ∧ effectiveKey d = d.Name) ∨
    (d.Suffix = "default" ∧ effectiveKey d = d.Name ++ ".default") ∨
    (d.Suffix = "override" ∧ effectiveKey d = d.Name ++ ".override") ∨
    (d.Suffix = "append" ∧ effectiveKey d = d.Name ++ ".append") ∨
    (d.Suffix = "prepend" ∧ effectiveKey d = d.Name ++ ".prepend") := by
  simp only [recognised, Bool.or_eq_true, decide_eq_true_eq] at h
  rcases h with (((h | h) | h) | h) | h <;>
    simp [effectiveKey, h, String.append_assoc]

theorem mem_keys_specWrites (env : List BuildConfigEnv) (k : String)
    (h : k ∈ (specWrites env).map Prod.fst) :
    ∃ d ∈ env, (d.Delim ≠ "" ∧ k = d.Name ++ ".delim") ∨ k = effectiveKey d := by
  simp only [specWrites, List.mem_map, List.mem_flatMap] at h
  obtain ⟨w, ⟨d, hd, hw⟩, hk⟩ := h
  refine ⟨d, hd, ?_⟩
  simp only [directiveWrites, List.mem_append, List.mem_singleton] at hw
  rcases hw with hw | hw
  · by_cases hdelim : d.Delim = ""
    · simp [hdelim] at hw
    · simp only [hdelim, ne_eq, not_false_eq_true, if_true, List.mem_singleton] at hw
      left
      exact ⟨hdelim, by rw [← hk, hw]⟩
  · right
    rw [← hk, hw]

theorem delim_key_written (env : List BuildConfigEnv) (d : BuildConfigEnv) (hd : d ∈ env)
    (hdelim : d.Delim ≠ "") : d.Name ++ ".delim" ∈ (specWrites env).map Prod.fst := by
  simp only [specWrites, List.mem_map, List.mem_flatMap]
  exact ⟨(d.Name ++ ".delim", d.Delim), ⟨d, hd, by simp [directiveWrites, hdelim]⟩, rfl⟩

theorem effective_key_written (env : List BuildConfigEnv) (d : BuildConfigEnv) (hd : d ∈ env) :
    effectiveKey d ∈ (specWrites env).map Prod.fst := by
  simp only [specWrites, List.mem_map, List.mem_flatMap]
  exact ⟨(effectiveKey d, d.Value), ⟨d, hd, by simp [directiveWrites]⟩, rfl⟩

/-- With dot-free names, a key written by the directives calls for no
missing-delimiter warning when every name that occurs with the suffix `append`
or `prepend` has a delimiter from some directive of that name. -/
theorem missingDelimOf_written_key (env : List BuildConfigEnv) (m : EnvMap)
    (hkeys : ∀ k, k ∈ m.map Prod.fst ↔ k ∈ (specWrites env).map Prod.fst)
    (hdot : ∀ d ∈ env, '.' ∉ d.Name.data)
    (hs : ∀ d ∈ env, recognised d.Suffix = true)
    (hdelim : ∀ d ∈ env, d.Suffix = "append" ∨ d.Suffix = "prepend" →
      ∃ d1 ∈ env, d1.Name = d.Name ∧ d1.Delim ≠ "")
    (k : String) (hk : k ∈ (specWrites env).map Prod.fst) :
    missingDelimOf m k = none := by
  obtain ⟨d, hd, hshape⟩ := mem_keys_specWrites env k hk
  have hpresent : d.Suffix = "append" ∨ d.Suffix = "prepend" →
      envGet m (d.Name ++ ".delim") ≠ none := by
    intro hsuf
    obtain ⟨d1, hd1, hname, hdl⟩ := hdelim d hd hsuf
    rw [Ne, envGet_eq_none_iff, not_not, hkeys, ← hname]
    exact delim_key_written env d1 hd1 hdl
  have hplain : ∀ name ending, d.Name = name ++ ending → '.' ∈ ending.data → False := by
    intro name ending hname hmem
    apply hdot d hd
    rw [hname, String.data_append]
    exact List.mem_append_right _ hmem
  apply missingDelimOf_eq_none
  · intro name hname
    rcases hshape with ⟨_, hk1⟩ | hk1
    · rw [hk1] at hname
      rcases ending_comparable _ _ _ _ hname with h1 | h1 <;> exact absurd h1 (by decide)
    · rw [hk1] at hname
      rcases effectiveKey_cases d (hs d hd) with ⟨_, he⟩ | ⟨_, he⟩ | ⟨_, he⟩ | ⟨hsuf, he⟩ | ⟨_, he⟩
      · rw [he] at hname
        exact absurd (hplain name ".append" hname (by decide)) id
      · rw [he] at hname
        rcases ending_comparable _ _ _ _ hname with h1 | h1 <;> exact absurd h1 (by decide)
      · rw [he] at hname
        rcases ending_comparable _ _ _ _ hname with h1 | h1 <;> exact absurd h1 (by decide)
      · rw [he] at hname
        rw [← append_right_cancel _ _ _ hname]
        exact hpresent (Or.inl hsuf)
      · rw [he] at hname
        rcases ending_comparable _ _ _ _ hname with h1 | h1 <;> exact absurd h1 (by decide)
  · intro name hname
    rcases hshape with ⟨_, hk1⟩ | hk1
    · rw [hk1] at hname
      rcases ending_comparable _ _ _ _ hname with h1 | h1 <;> exact absurd h1 (by decide)
    · rw [hk1] at hname
      rcases effectiveKey_cases d (hs d hd) with ⟨_, he⟩ | ⟨_, he⟩ | ⟨_, he⟩ | ⟨_, he⟩ | ⟨hsuf, he⟩
      · rw [he] at hname
        exact absurd (hplain name ".prepend" hname (by decide)) id
      · rw [he] at hname
        rcases ending_comparable _ _ _ _ hname with h1 | h1 <;> exact absurd h1 (by decide)
      · rw [he] at hname
        rcases ending_comparable _ _ _ _ hname with h1 | h1 <;> exact absurd h1 (by decide)
      · rw [he] at hname
        rcases ending_comparable _ _ _ _ hname with h1 | h1 <;> exact absurd h1 (by decide)
      · rw [he] at hname
        rw [← append_right_cancel _ _ _ hname]
        exact hpresent (Or.inr hsuf)

theorem lastWrite_of_no_later_write (ws1 ws2 : List (String × String)) (k v : String)
    (h : ∀ w ∈ ws2, w.1 ≠ k) : lastWrite (ws1 ++ (k, v) :: ws2) k = some v := by
  have hnone : lastWrite ws2 k = none := by
    cases hl : lastWrite ws2 k with
    | none => rfl
    | some x =>
      have hmem : k ∈ ws2.map Prod.fst := (lastWrite_isSome_iff ws2 k).mp (by simp [hl])
      obtain ⟨w, hw, hwk⟩ := List.mem_map.mp hmem
      exact absurd hwk (h w hw)
  induction ws1 with
  | nil => simp [lastWrite, hnone]
  | cons w rest ih => simp [lastWrite, ih]

/-- Claim C15, as the code has it.  Warnings never fail the call: for every
directive list in which every name is non-empty and has no dot, every suffix
is recognised, and every name that occurs with the suffix `append` or `prepend`
has a non-empty `Delim` from some directive of that name, `ParseBuildConfigEnv`
returns a nil error and the folded map, which is not nil, whatever warnings it
produces.  Every directive has its effective key in the map, and the key holds
the value of the directive, be it empty, when no later directive writes that
key. -/
theorem C15_warnings_never_fail_dot_free (env : List BuildConfigEnv) (path : String)
    (hn : ∀ d ∈ env, d.Name ≠ "")
    (hdot : ∀ d ∈ env, '.' ∉ d.Name.data)
    (hs : ∀ d ∈ env, recognised d.Suffix = true)
    (hdelim : ∀ d ∈ env, d.Suffix = "append" ∨ d.Suffix = "prepend" →
      ∃ d1 ∈ env, d1.Name = d.Name ∧ d1.Delim ≠ "") :
    (ParseBuildConfigEnv env path).2.2 = none ∧
    ∃ m, (ParseBuildConfigEnv env path).1 = some m ∧
      m = specFold env [] ∧
      (∀ d ∈ env, effectiveKey d ∈ m.map Prod.fst) ∧
      (∀ pre d post, env = pre ++ d :: post →
        (∀ w ∈ specWrites post, w.1 ≠ effectiveKey d) →
        envGet m (effectiveKey d) = some d.Value) := by
  obtain ⟨m, hm, hfold, hkeys, hget⟩ := parseBuildConfigEnv_map_aux env path hn hs
  obtain ⟨w1, hloop⟩ := parseBuildConfigEnvLoop_eq path env hn hs [] []
  have hD : (m.map Prod.fst).filterMap (missingDelimOf m) = [] := by
    rw [List.filterMap_eq_nil_iff]
    intro k hk
    exact missingDelimOf_written_key env m hkeys hdot hs hdelim k ((hkeys k).mp hk)
  refine ⟨?_, m, hm, hfold, ?_, ?_⟩
  · unfold ParseBuildConfigEnv
    rw [hloop, ← hfold, finishBuildConfigEnv_eq]
    simp only
    rw [if_pos hD]
  · intro d hd
    rw [hkeys]
    exact effective_key_written env d hd
  · intro pre d post hsplit hlater
    rw [hget, hsplit]
    have hw : specWrites (pre ++ d :: post) =
        (specWrites pre ++
          (if d.Delim ≠ "" then [(d.Name ++ ".delim", d.Delim)] else [])) ++
          (effectiveKey d, d.Value) :: specWrites post := by
      simp [specWrites, directiveWrites, List.flatMap_append, List.flatMap_cons]
    rw [hw]
    exact lastWrite_of_no_later_write _ _ _ _ hlater

/-- Witness of C15: the value of `A.append` overwritten by an empty value, and
a plain variable with an empty value.  The call returns three warnings, a nil
error, and a map in which `A.append` and `B` hold the empty value. -/
theorem C15_warnings_never_fail_dot_free_witness :
    ParseBuildConfigEnv emptyValueEnv "builder.toml" =
      (some [("A.delim", ":"), ("A.append", ""), ("B", "")],
       [EnvWarning.emptyValue "A", EnvWarning.overridingSuffix "A" "append" "1" "",
        EnvWarning.emptyValue "B"],
       none) ∧
    (ParseBuildConfigEnv emptyValueEnv "builder.toml").2.2 = none ∧
    ∃ m, (ParseBuildConfigEnv emptyValueEnv "builder.toml").1 = some m ∧
      m = specFold emptyValueEnv [] ∧
      (∀ d ∈ emptyValueEnv, effectiveKey d ∈ m.map Prod.fst) ∧
      (∀ pre d post, emptyValueEnv = pre ++ d :: post →
        (∀ w ∈ specWrites post, w.1 ≠ effectiveKey d) →
        envGet m (effectiveKey d) = some d.Value) :=
  ⟨by decide,
   C15_warnings_never_fail_dot_free emptyValueEnv "builder.toml"
     (by decide) (by decide) (by decide) (by decide)⟩

/-- Counterexample to C15 as stated.  The one directive has the non-empty name
`A.append` and no suffix, so that every suffix is recognised and no name occurs
with the suffix `append` or `prepend`; yet `ParseBuildConfigEnv` returns a
non-nil error, because its key `A.append` is split into the name `A` and the
suffix `append`, and the map has no `A.delim`. -/
theorem C15_counterexample :
    (∀ d ∈ plainDottedEnv, d.Name ≠ "") ∧
    (∀ d ∈ plainDottedEnv, recognised d.Suffix = true) ∧
    (∀ d ∈ plainDottedEnv, d.Suffix = "append" ∨ d.Suffix = "prepend" →
      ∃ d1 ∈ plainDottedEnv, d1.Name = d.Name ∧ d1.Delim ≠ "") ∧
    ParseBuildConfigEnv plainDottedEnv "builder.toml" =
      (some [("A.append", "1")], [EnvWarning.missingDelim "A" "append"],
       some (EnvError.parsing "builder.toml")) := by
  decide

/-! ## Theorems: `Targets` -/

theorem processTarget_withTargets {σ ε : Type} (c : MultiArchConfig) (declared : List Target)
    (R : Collaborators σ ε) (t : Target) (dn dv : String) (s : σ) :
    ({ c with WithTargets := declared } : MultiArchConfig).processTarget t dn dv R s =
      c.processTarget t dn dv R s := rfl

theorem builderConfigsLoop_withTargets {σ ε : Type} (c : MultiArchConfig)
    (declared : List Target) (R : Collaborators σ ε) (ts : List Target)
    (st : List Config × σ) :
    builderConfigsLoop ({ c with WithTargets := declared } : MultiArchConfig) R ts st =
      builderConfigsLoop c R ts st := by
  induction ts generalizing st with
  | nil => rfl
  | cons t rest ih =>
    have hop : builderConfigsOp ({ c with WithTargets := declared } : MultiArchConfig) R =
        builderConfigsOp c R := rfl
    simp only [builderConfigsLoop, hop, ih]

/-- Claim C22.  For every `MultiArchConfig`, `Targets()` returns the flag
targets when that list is not empty and otherwise the declared targets
(`WithTargets`); consequently, when flag targets are given, `BuilderConfigs`
and `MultiArch` enumerate the flag targets only: the units are those of the
flag targets, and the declared targets may be replaced by any others without
changing either result. -/
theorem C22_targets_prefers_flag_targets {σ ε : Type} (c : MultiArchConfig) :
    (c.flagTargets ≠ [] → c.Targets = c.flagTargets) ∧
    (c.flagTargets = [] → c.Targets = c.WithTargets) ∧
    (c.flagTargets ≠ [] →
      c.enumeration = c.flagTargets.flatMap (fun t => t.units.map (fun u => (t, u))) ∧
      ∀ declared : List Target,
        ({ c with WithTargets := declared } : MultiArchConfig).MultiArch = c.MultiArch ∧
        ∀ (R : Collaborators σ ε) (s : σ),
          ({ c with WithTargets := declared } : MultiArchConfig).BuilderConfigs R s =
            c.BuilderConfigs R s) := by
  have hflag : c.flagTargets ≠ [] → c.Targets = c.flagTargets := by
    intro h
    have hlen : c.flagTargets.length ≠ 0 := fun h0 => h (List.length_eq_zero.mp h0)
    simp [MultiArchConfig.Targets, hlen]
  refine ⟨hflag, ?_, ?_⟩
  · intro h
    simp [MultiArchConfig.Targets, h]
  · intro h
    refine ⟨by rw [MultiArchConfig.enumeration, hflag h], ?_⟩
    intro declared
    have htargets : ({ c with WithTargets := declared } : MultiArchConfig).Targets =
        c.Targets := by
      rw [hflag h]
      have hlen : c.flagTargets.length ≠ 0 := fun h0 => h (List.length_eq_zero.mp h0)
      simp [MultiArchConfig.Targets, hlen]
    refine ⟨?_, ?_⟩
    · simp only [MultiArchConfig.MultiArch, htargets]
    · intro R s
      simp only [MultiArchConfig.BuilderConfigs, htargets, builderConfigsLoop_withTargets]

/-- Witness of C22: the sample config with the flag target `freebsd`: its
targets are that one target, it is not multi-arch, and `BuilderConfigs` returns
one config, for that target. -/
theorem C22_targets_prefers_flag_targets_witness :
    flaggedConfig.Targets = [{ OS := "freebsd", Arch := "amd64" }] ∧
    sampleConfig.Targets = sampleConfig.WithTargets ∧
    flaggedConfig.MultiArch = false ∧
    (flaggedConfig.BuilderConfigs idResolver ()).1.map (fun cfg => cfg.WithTargets) =
      [[foldUnit { OS := "freebsd", Arch := "amd64" } "" ""]] ∧
    (({ flaggedConfig with WithTargets := [] } : MultiArchConfig).MultiArch =
        flaggedConfig.MultiArch ∧
      ∀ (R : Collaborators Unit String) (s : Unit),
        ({ flaggedConfig with WithTargets := [] } : MultiArchConfig).BuilderConfigs R s =
          flaggedConfig.BuilderConfigs R s) :=
  ⟨by decide,
   (@C22_targets_prefers_flag_targets Unit String sampleConfig).2.1 (by decide),
   by decide, by decide,
   ((C22_targets_prefers_flag_targets flaggedConfig).2.2 (by decide)).2 []⟩

/-! ## Theorems: `ValidateConfig` after `mergeStackWithImages` -/

theorem validateRunImages_eq_none_iff (l : List RunImageConfig) :
    validateRunImages l = none ↔ ∀ r ∈ l, r.Image ≠ "" := by
  induction l with
  | nil => simp [validateRunImages]
  | cons r rest ih =>
    by_cases hr : r.Image = ""
    · simp [validateRunImages, hr]
    · simp [validateRunImages, hr, ih]

/-- The index failure of `ValidateConfig` happens exactly when the config
passes the build-image rule, has no run image, and has both the run image and
the id of the stack set. -/
theorem validateConfig_indexOutOfRange_iff (c : Config) (i n : Nat) :
    ValidateConfig c = ValidateOutcome.indexOutOfRange i n ↔
      i = 0 ∧ n = 0 ∧
      ¬ (c.Build.Image = "" ∧ c.Stack.BuildImage = "") ∧
      ¬ (c.Build.Image ≠ "" ∧ c.Stack.BuildImage ≠ "" ∧ c.Build.Image ≠ c.Stack.BuildImage) ∧
      c.Run.Images = [] ∧ c.Stack.RunImage ≠ "" ∧ c.Stack.ID ≠ "" := by
  unfold ValidateConfig
  by_cases h1 : c.Build.Image = "" ∧ c.Stack.BuildImage = ""
  · simp [h1]
  · rw [if_neg h1]
    by_cases h2 : c.Build.Image ≠ "" ∧ c.Stack.BuildImage ≠ "" ∧
        c.Build.Image ≠ c.Stack.BuildImage
    · rw [if_pos h2]
      simp [h2]
    · rw [if_neg h2]
      cases hi : c.Run.Images with
      | nil =>
        by_cases h3 : c.Stack.RunImage = ""
        · simp [h3]
        · by_cases h4 : c.Stack.ID = ""
          · simp [h3, h4]
          · simp only [List.length_nil, h3, h4, or_self, and_false, if_false,
              validateRunImages, ne_eq, not_false_eq_true, if_true,
              ValidateOutcome.indexOutOfRange.injEq, true_and, and_true]
            constructor
            · rintro ⟨rfl, rfl⟩
              exact ⟨rfl, rfl, h1, h2⟩
            · rintro ⟨rfl, rfl, _, _⟩
              exact ⟨rfl, rfl⟩
      | cons first rest =>
        simp only [List.length_cons, Nat.add_one_ne_zero, false_and, if_false]
        cases hv : validateRunImages (first :: rest) with
        | some err => simp
        | none =>
          simp only
          by_cases h3 : c.Stack.RunImage = ""
          · simp [h3]
          · by_cases h5 : first.Image = c.Stack.RunImage <;> simp [h3, h5]

/-- Claim C23, as the code has it.  `ValidateConfig` reaches the unguarded
access `Run.Images[0]`, an index out of range, exactly for the configs that
pass the build-image rule (the two build images are not both empty and, when
both are set, equal), have an empty `Run.Images` list and have both
`Stack.RunImage` and `Stack.ID` set.  With an empty `Run.Images` list and a
non-empty `Stack.RunImage`, every other config gets an error first:
`build.image is required` when both build images are empty, the build-image
mismatch when both are set and differ, and `run.images are required` when
`Stack.ID` is empty.  For every config with a non-empty `Run.Images` list the
access is in bounds. -/
theorem C23_validateConfig_unguarded_index (c : Config) :
    (∀ i n, ValidateConfig c = ValidateOutcome.indexOutOfRange i n ↔
      i = 0 ∧ n = 0 ∧
      ¬ (c.Build.Image = "" ∧ c.Stack.BuildImage = "") ∧
      (c.Build.Image ≠ "" → c.Stack.BuildImage ≠ "" → c.Build.Image = c.Stack.BuildImage) ∧
      c.Run.Images = [] ∧ c.Stack.RunImage ≠ "" ∧ c.Stack.ID ≠ "") ∧
    (c.Run.Images = [] → c.Stack.RunImage ≠ "" →
      (c.Build.Image = "" ∧ c.Stack.BuildImage = "" →
        ValidateConfig c = ValidateOutcome.returns (some "build.image is required")) ∧
      (c.Build.Image ≠ "" ∧ c.Stack.BuildImage ≠ "" ∧ c.Build.Image ≠ c.Stack.BuildImage →
        ValidateConfig c =
          ValidateOutcome.returns (some "build.image and stack.build-image do not match")) ∧
      (¬ (c.Build.Image = "" ∧ c.Stack.BuildImage = "") →
        (c.Build.Image ≠ "" → c.Stack.BuildImage ≠ "" → c.Build.Image = c.Stack.BuildImage) →
        c.Stack.ID = "" →
        ValidateConfig c = ValidateOutcome.returns (some "run.images are required")) ∧
      (¬ (c.Build.Image = "" ∧ c.Stack.BuildImage = "") →
        (c.Build.Image ≠ "" → c.Stack.BuildImage ≠ "" → c.Build.Image = c.Stack.BuildImage) →
        c.Stack.ID ≠ "" →
        ValidateConfig c = ValidateOutcome.indexOutOfRange 0 0)) ∧
    (c.Run.Images ≠ [] → ∀ i n, ValidateConfig c ≠ ValidateOutcome.indexOutOfRange i n) := by
  have hrule : (c.Build.Image ≠ "" → c.Stack.BuildImage ≠ "" →
        c.Build.Image = c.Stack.BuildImage) ↔
      ¬ (c.Build.Image ≠ "" ∧ c.Stack.BuildImage ≠ "" ∧
        c.Build.Image ≠ c.Stack.BuildImage) := by
    constructor
    · rintro h ⟨hb, hs, hne⟩
      exact hne (h hb hs)
    · intro h hb hs
      by_contra hne
      exact h ⟨hb, hs, hne⟩
  refine ⟨?_, ?_, ?_⟩
  · intro i n
    rw [validateConfig_indexOutOfRange_iff, hrule]
  · intro hrun himg
    refine ⟨?_, ?_, ?_, ?_⟩
    · intro h1
      unfold ValidateConfig
      rw [if_pos h1]
    · intro h2
      have h1 : ¬ (c.Build.Image = "" ∧ c.Stack.BuildImage = "") := fun h => h2.1 h.1
      unfold ValidateConfig
      rw [if_neg h1, if_pos h2]
    · intro h1 h2 hid
      unfold ValidateConfig
      rw [if_neg h1, if_neg (hrule.mp h2), if_pos ⟨by rw [hrun]; rfl, Or.inr hid⟩]
    · intro h1 h2 hid
      rw [validateConfig_indexOutOfRange_iff]
      exact ⟨rfl, rfl, h1, hrule.mp h2, hrun, himg, hid⟩
  · intro hne i n h
    rw [validateConfig_indexOutOfRange_iff] at h
    exact hne h.2.2.2.2.1

/-- Witness of C23: the legacy config, with a build image and only the stack
fields for the run image, ends in the index failure; the same config with a
stack build image that differs from the build image returns the mismatch
error; the config with two run images does not end in the index failure. -/
theorem C23_validateConfig_unguarded_index_witness :
    ValidateConfig legacyStackConfig = ValidateOutcome.indexOutOfRange 0 0 ∧
    ValidateConfig stackMismatchConfig =
      ValidateOutcome.returns (some "build.image and stack.build-image do not match") ∧
    (∀ i n, ValidateConfig runImagesConfig ≠ ValidateOutcome.indexOutOfRange i n) :=
  ⟨((C23_validateConfig_unguarded_index legacyStackConfig).2.1 (by decide) (by decide)).2.2.2
      (by decide) (by decide) (by decide),
   ((C23_validateConfig_unguarded_index stackMismatchConfig).2.1 (by decide)
      (by decide)).2.1 (by decide),
   (C23_validateConfig_unguarded_index runImagesConfig).2.2 (by decide)⟩

/-- Counterexample to C23 as stated.  Both configs have an empty `Run.Images`
list and a non-empty `Stack.RunImage`, yet `ValidateConfig` returns an error
before it comes to `Run.Images[0]`: `build.image is required` for the one
without build image, and `run.images are required` for the one with a build
image and no stack id. -/
theorem C23_counterexample :
    stackRunOnlyConfig.Run.Images = [] ∧ stackRunOnlyConfig.Stack.RunImage ≠ "" ∧
    ValidateConfig stackRunOnlyConfig =
      ValidateOutcome.returns (some "build.image is required") ∧
    stackRunNoIdConfig.Run.Images = [] ∧ stackRunNoIdConfig.Stack.RunImage ≠ "" ∧
    ValidateConfig stackRunNoIdConfig =
      ValidateOutcome.returns (some "run.images are required") := by
  decide

/-- After `mergeStackWithImages` the build image and the stack build image are
equal, a config without run image has no stack run image, and otherwise the
stack run image is the image of the first run image. -/
theorem mergeStackWithImages_agree (c : Config) :
    c.mergeStackWithImages.Build.Image = c.mergeStackWithImages.Stack.BuildImage ∧
    (c.mergeStackWithImages.Run.Images = [] → c.mergeStackWithImages.Stack.RunImage = "") ∧
    (∀ first rest, c.mergeStackWithImages.Run.Images = first :: rest →
      c.mergeStackWithImages.Stack.RunImage = first.Image) := by
  have hb := mergeRunImages_build (mergeBuildImage c)
  have himg := mergeBuildImage_images c
  refine ⟨?_, ?_, ?_⟩
  · unfold Config.mergeStackWithImages
    rw [hb.1, hb.2.1]
    by_cases h : c.Build.Image = ""
    · rw [(himg.2 h).1, (himg.2 h).2]
    · rw [(himg.1 h).1, (himg.1 h).2]
  · unfold Config.mergeStackWithImages mergeRunImages
    generalize mergeBuildImage c = c1
    cases hi : c1.Run.Images with
    | nil =>
      by_cases hr : c1.Stack.RunImage = ""
      · simp [hi, hr]
      · simp [hi, hr]
    | cons first rest => simp [hi]
  · unfold Config.mergeStackWithImages mergeRunImages
    generalize mergeBuildImage c = c1
    intro first rest
    cases hi : c1.Run.Images with
    | nil =>
      by_cases hr : c1.Stack.RunImage = ""
      · simp [hi, hr]
      · simp only [hi, List.length_nil, ne_eq, not_true_eq_false, if_false, hr,
          not_false_eq_true, and_self, if_true, List.cons.injEq, and_imp]
        intro h _
        rw [← h]
    | cons first1 rest1 =>
      simp only [hi, List.length_cons, ne_eq, Nat.add_one_ne_zero, not_false_eq_true,
        if_true, List.getD_cons_zero, List.cons.injEq, and_imp]
      intro h _
      rw [h]

/-- What `ValidateConfig` returns for a config in which the two build images
agree and the stack run image follows the run images, as after
`mergeStackWithImages`. -/
theorem validateConfig_of_agree (m : Config)
    (hb : m.Build.Image = m.Stack.BuildImage)
    (hnil : m.Run.Images = [] → m.Stack.RunImage = "")
    (hcons : ∀ first rest, m.Run.Images = first :: rest → m.Stack.RunImage = first.Image) :
    ValidateConfig m =
      if m.Build.Image = "" then ValidateOutcome.returns (some "build.image is required")
      else if m.Run.Images = [] then ValidateOutcome.returns (some "run.images are required")
      else if validateRunImages m.Run.Images ≠ none then
        ValidateOutcome.returns (some "run.images.image is required")
      else ValidateOutcome.returns none := by
  unfold ValidateConfig
  by_cases h1 : m.Build.Image = ""
  · have h2 : m.Stack.BuildImage = "" := by rw [← hb]; exact h1
    simp [h1, h2]
  · have h2 : m.Stack.BuildImage ≠ "" := by rw [← hb]; exact h1
    have h3 : ¬ (m.Build.Image ≠ "" ∧ m.Stack.BuildImage ≠ "" ∧
        m.Build.Image ≠ m.Stack.BuildImage) := fun h => h.2.2 hb
    rw [if_neg (fun h => h1 h.1), if_neg h3, if_neg h1]
    cases hi : m.Run.Images with
    | nil =>
      have hr := hnil hi
      simp [hr]
    | cons first rest =>
      have hr := hcons first rest hi
      simp only [List.length_cons, Nat.add_one_ne_zero, false_and, if_false, reduceCtorEq]
      cases hv : validateRunImages (first :: rest) with
      | some err =>
        have herr := validateRunImages_eq_some _ _ hv
        subst herr
        simp
      | none =>
        simp only [ne_eq, not_true_eq_false, if_false]
        by_cases h4 : m.Stack.RunImage = ""
        · simp [h4]
        · simp [h4, hr]

/-- Claim C27.  Validation after normalisation is total and never reports a
mismatch: for every config, `ValidateConfig` on the result of
`mergeStackWithImages` never reaches the index out of range and never returns
either `do not match` error; it returns nil if and only if the merged
`Build.Image` is not empty and the merged `Run.Images` is not empty with every
`Image` non-empty, and otherwise it returns one of the three `required`
errors. -/
theorem C27_validate_after_merge (c : Config) :
    (∀ i n, ValidateConfig c.mergeStackWithImages ≠ ValidateOutcome.indexOutOfRange i n) ∧
    ValidateConfig c.mergeStackWithImages ≠
      ValidateOutcome.returns (some "build.image and stack.build-image do not match") ∧
    ValidateConfig c.mergeStackWithImages ≠
      ValidateOutcome.returns (some "run.images and stack.run-image do not match") ∧
    (ValidateConfig c.mergeStackWithImages = ValidateOutcome.returns none ↔
      c.mergeStackWithImages.Build.Image ≠ "" ∧ c.mergeStackWithImages.Run.Images ≠ [] ∧
      ∀ r ∈ c.mergeStackWithImages.Run.Images, r.Image ≠ "") ∧
    (ValidateConfig c.mergeStackWithImages ≠ ValidateOutcome.returns none →
      ValidateConfig c.mergeStackWithImages =
          ValidateOutcome.returns (some "build.image is required") ∨
        ValidateConfig c.mergeStackWithImages =
          ValidateOutcome.returns (some "run.images are required") ∨
        ValidateConfig c.mergeStackWithImages =
          ValidateOutcome.returns (some "run.images.image is required")) := by
  obtain ⟨hb, hnil, hcons⟩ := mergeStackWithImages_agree c
  have hval := validateConfig_of_agree c.mergeStackWithImages hb hnil hcons
  generalize c.mergeStackWithImages = m at hval
  by_cases h1 : m.Build.Image = ""
  · rw [if_pos h1] at hval
    rw [hval]
    simp [h1]
  · rw [if_neg h1] at hval
    by_cases h2 : m.Run.Images = []
    · rw [if_pos h2] at hval
      rw [hval]
      simp [h2]
    · rw [if_neg h2] at hval
      by_cases h3 : validateRunImages m.Run.Images = none
      · have hall := (validateRunImages_eq_none_iff _).mp h3
        simp only [h3, ne_eq, not_true_eq_false, if_false] at hval
        rw [hval]
        simp [h1, h2]
        exact hall
      · have hnall : ¬ ∀ r ∈ m.Run.Images, r.Image ≠ "" :=
          fun h => h3 ((validateRunImages_eq_none_iff _).mpr h)
        simp only [ne_eq, h3, not_false_eq_true, if_true] at hval
        rw [hval]
        simp [h1, h2]
        by_contra hc
        exact hnall (fun r hr hri => hc ⟨r, hr, hri⟩)

/-- Witness of C27: after the merge the legacy config, for which
`ValidateConfig` ended in the index failure, is valid, and the config whose two
build images disagreed is valid too; the config without run image still fails
with `run.images are required`. -/
theorem C27_validate_after_merge_witness :
    ValidateConfig legacyStackConfig = ValidateOutcome.indexOutOfRange 0 0 ∧
    ValidateConfig legacyStackConfig.mergeStackWithImages = ValidateOutcome.returns none ∧
    ValidateConfig mismatchConfig.mergeStackWithImages = ValidateOutcome.returns none ∧
    ValidateConfig noRunImageConfig.mergeStackWithImages =
      ValidateOutcome.returns (some "run.images are required") ∧
    (∀ i n, ValidateConfig legacyStackConfig.mergeStackWithImages ≠
      ValidateOutcome.indexOutOfRange i n) :=
  ⟨by decide,
   (C27_validate_after_merge legacyStackConfig).2.2.2.1.mpr
     ⟨by decide, by decide, by decide⟩,
   by decide, by decide,
   (C27_validate_after_merge legacyStackConfig).1⟩

/-- Claim C30.  `mergeStackWithImages` is idempotent and touches only the image
fields: for every config, applying it twice gives the same config as applying
it once, and `Description`, `Buildpacks`, `Extensions`, `Order`,
`OrderExtensions`, `Lifecycle`, `Stack.ID`, `Build.Env` and `WithTargets` are
left unchanged. -/
theorem C30_mergeStackWithImages_idempotent (c : Config) :
    c.mergeStackWithImages.mergeStackWithImages = c.mergeStackWithImages ∧
    c.mergeStackWithImages.Description = c.Description ∧
    c.mergeStackWithImages.Buildpacks = c.Buildpacks ∧
    c.mergeStackWithImages.Extensions = c.Extensions ∧
    c.mergeStackWithImages.Order = c.Order ∧
    c.mergeStackWithImages.OrderExtensions = c.OrderExtensions ∧
    c.mergeStackWithImages.Lifecycle = c.Lifecycle ∧
    c.mergeStackWithImages.Stack.ID = c.Stack.ID ∧
    c.mergeStackWithImages.Build.Env = c.Build.Env ∧
    c.mergeStackWithImages.WithTargets = c.WithTargets := by
  obtain ⟨d, bps, exts, ord, ordx, ⟨id, sb, sr, sm⟩, lc, ⟨imgs⟩, ⟨bi, env⟩, wt⟩ := c
  by_cases h1 : bi = "" <;> by_cases h2 : sb = "" <;> by_cases h3 : sr = "" <;>
    cases imgs <;>
    simp [Config.mergeStackWithImages, mergeBuildImage, mergeRunImages, h1, h2, h3]

/-! ## Theorems: when `ParseBuildConfigEnv` fails, for dot-free names -/

/-- With dot-free names, a directive with the suffix `append` or `prepend`
whose name has no delimiter from any directive makes the delimiter check
fail. -/
theorem error_of_missing_delim_dot_free (env : List BuildConfigEnv) (path : String)
    (d : BuildConfigEnv)
    (hn : ∀ d1 ∈ env, d1.Name ≠ "")
    (hdot : ∀ d1 ∈ env, '.' ∉ d1.Name.data)
    (hs : ∀ d1 ∈ env, recognised d1.Suffix = true)
    (hd : d ∈ env)
    (hsuf : d.Suffix = "append" ∨ d.Suffix = "prepend")
    (hnodelim : ∀ d1 ∈ env, d1.Name = d.Name → d1.Delim = "") :
    (ParseBuildConfigEnv env path).2.2 = some (EnvError.parsing path) := by
  obtain ⟨m, _, hm, hkeys, _⟩ := parseBuildConfigEnv_map_aux env path hn hs
  obtain ⟨w1, hloop⟩ := parseBuildConfigEnvLoop_eq path env hn hs [] []
  have hne : d.Suffix ≠ "" := by
    rcases hsuf with h | h <;> rw [h] <;> decide
  have hkey : effectiveKey d = d.Name ++ "." ++ d.Suffix := by
    simp [effectiveKey, hne]
  have hpresent : d.Name ++ "." ++ d.Suffix ∈ m.map Prod.fst := by
    rw [hkeys, ← hkey]
    exact effective_key_written env d hd
  have habsent : envGet m (d.Name ++ ".delim") = none := by
    rw [envGet_eq_none_iff, hkeys]
    exact delim_key_not_written env d.Name (hdot d hd) hdot hs hnodelim
  have hpos : 0 < (checkDelims m m w1 0).2 :=
    checkDelims_pos m m w1 0 _ d.Name d.Suffix hpresent
      (getFilePrefixSuffix_of_dot_free d.Name d.Suffix (hdot d hd) hsuf) hsuf habsent
  unfold ParseBuildConfigEnv
  rw [hloop, ← hm]
  exact finishBuildConfigEnv_error path m w1 hpos

/-- With dot-free names, the call returns a nil error when every name that
occurs with the suffix `append` or `prepend` has a delimiter from some
directive of that name. -/
theorem no_error_of_delims_dot_free (env : List BuildConfigEnv) (path : String)
    (hn : ∀ d ∈ env, d.Name ≠ "")
    (hdot : ∀ d ∈ env, '.' ∉ d.Name.data)
    (hs : ∀ d ∈ env, recognised d.Suffix = true)
    (hdelim : ∀ d ∈ env, d.Suffix = "append" ∨ d.Suffix = "prepend" →
      ∃ d1 ∈ env, d1.Name = d.Name ∧ d1.Delim ≠ "") :
    (ParseBuildConfigEnv env path).2.2 = none := by
  obtain ⟨m, _, hfold, hkeys, _⟩ := parseBuildConfigEnv_map_aux env path hn hs
  obtain ⟨w1, hloop⟩ := parseBuildConfigEnvLoop_eq path env hn hs [] []
  have hD : (m.map Prod.fst).filterMap (missingDelimOf m) = [] := by
    rw [List.filterMap_eq_nil_iff]
    intro k hk
    exact missingDelimOf_written_key env m hkeys hdot hs hdelim k ((hkeys k).mp hk)
  unfold ParseBuildConfigEnv
  rw [hloop, ← hfold, finishBuildConfigEnv_eq]
  simp only
  rw [if_pos hD]

/-- Claim C28.  For every directive list whose names are all non-empty and
have no dot and whose suffixes are all recognised, `ParseBuildConfigEnv`
returns a non-nil error if and only if some directive has the suffix `append`
or `prepend` while no directive of the same name, itself or another, has a
non-empty `Delim`. -/
theorem C28_error_iff_missing_delim_dot_free (env : List BuildConfigEnv) (path : String)
    (hn : ∀ d ∈ env, d.Name ≠ "")
    (hdot : ∀ d ∈ env, '.' ∉ d.Name.data)
    (hs : ∀ d ∈ env, recognised d.Suffix = true) :
    (ParseBuildConfigEnv env path).2.2 ≠ none ↔
      ∃ d ∈ env, (d.Suffix = "append" ∨ d.Suffix = "prepend") ∧
        ∀ d1 ∈ env, d1.Name = d.Name → d1.Delim = "" := by
  constructor
  · intro herr
    by_contra hnone
    apply herr
    apply no_error_of_delims_dot_free env path hn hdot hs
    intro d hd hsuf
    by_contra hno
    apply hnone
    refine ⟨d, hd, hsuf, ?_⟩
    intro d1 hd1 hname
    by_contra hdl
    exact hno ⟨d1, hd1, hname, hdl⟩
  · rintro ⟨d, hd, hsuf, hnodelim⟩
    rw [error_of_missing_delim_dot_free env path d hn hdot hs hd hsuf hnodelim]
    simp

/-- Witness of C28: the `append` of `A` without any delimiter fails; with a
delimiter for `A` from another directive of that name the call succeeds. -/
theorem C28_error_iff_missing_delim_dot_free_witness :
    (ParseBuildConfigEnv undelimitedEnv "builder.toml").2.2 ≠ none ∧
    ¬ (∃ d ∈ delimitedElsewhereEnv, (d.Suffix = "append" ∨ d.Suffix = "prepend") ∧
        ∀ d1 ∈ delimitedElsewhereEnv, d1.Name = d.Name → d1.Delim = "") ∧
    (ParseBuildConfigEnv delimitedElsewhereEnv "builder.toml").2.2 = none :=
  ⟨(C28_error_iff_missing_delim_dot_free undelimitedEnv "builder.toml"
      (by decide) (by decide) (by decide)).mpr
      ⟨{ Name := "A", Value := "1", Suffix := "append" }, by decide, by decide, by decide⟩,
   by decide,
   by
    have h := (C28_error_iff_missing_delim_dot_free delimitedElsewhereEnv "builder.toml"
      (by decide) (by decide) (by decide)).not
    have hno : ¬ (∃ d ∈ delimitedElsewhereEnv, (d.Suffix = "append" ∨ d.Suffix = "prepend") ∧
        ∀ d1 ∈ delimitedElsewhereEnv, d1.Name = d.Name → d1.Delim = "") := by decide
    exact not_not.mp (h.mpr hno)⟩

/-! ## Theorems: `processTarget` with a resolver that always succeeds -/

theorem set_at_length {α : Type} (done : List α) (x y : α) (xs : List α) :
    (done ++ x :: xs).set done.length y = done ++ y :: xs := by
  induction done with
  | nil => simp
  | cons a rest ih => simp [ih]

theorem getD_at_length {α : Type} (done : List α) (x d : α) (xs : List α) :
    (done ++ x :: xs).getD done.length d = x := by
  induction done with
  | nil => simp
  | cons a rest ih => simpa using ih

/-- The module loop with a resolver that always succeeds and returns `g1`:
the entries still to be visited, all zero, become zero values with the
resolved URI where the base entry has a URI. -/
theorem resolveModules_closed {σ ε : Type} (resolve : String → σ → String × Option ε × σ)
    (g1 : String → String)
    (hok : ∀ uri s, (resolve uri s).2.1 = none) (hret : ∀ uri s, (resolve uri s).1 = g1 uri)
    (base : List ModuleConfig) (done : List ModuleConfig) (s : σ) :
    (resolveModules resolve base done.length (done ++ List.replicate base.length ({} : ModuleConfig)) s).1 =
      done ++ base.map (fun bp => if bp.URI ≠ "" then ({ URI := g1 bp.URI } : ModuleConfig) else {}) := by
  induction base generalizing done s with
  | nil => simp [resolveModules]
  | cons bp rest ih =>
    have hnext := ih (done ++ [if bp.URI ≠ "" then ({ URI := g1 bp.URI } : ModuleConfig) else {}])
    simp only [List.length_append, List.length_singleton, List.append_assoc,
      List.singleton_append] at hnext
    simp only [resolveModules, List.length_cons, List.replicate_succ, List.map_cons]
    by_cases hu : bp.URI = ""
    · simp only [hu, ne_eq, not_true_eq_false, if_false] at hnext ⊢
      exact hnext s
    · have h1 := hok bp.URI s
      have h2 := hret bp.URI s
      rcases hres : resolve bp.URI s with ⟨uri, err, s1⟩
      rw [hres] at h1 h2
      simp only at h1 h2
      subst h1
      subst h2
      simp only [hu, ne_eq, not_false_eq_true, if_true, set_at_length, getD_at_length]
        at hnext ⊢
      exact hnext s1

/-- One run image with a resolver that succeeds on the image: the image is
resolved, the mirrors are allocated when there are none yet, and no mirror is
resolved. -/
theorem resolveRunImage_of_success {σ ε : Type}
    (resolve : String → σ → String × Option ε × σ) (runImg cur : RunImageConfig) (s : σ)
    (image : String) (s1 : σ) (h : resolve runImg.Image s = (image, none, s1)) :
    resolveRunImage resolve runImg cur s =
      ({ Image := image
         Mirrors := if cur.Mirrors.length = 0 then List.replicate runImg.Mirrors.length ""
           else cur.Mirrors }, none, s1) := by
  unfold resolveRunImage
  rw [h]
  by_cases hm : cur.Mirrors.length = 0 <;> simp [hm]

/-- The run-image loop with a resolver that always succeeds and returns `f1`:
every image is resolved and every mirror is left an empty string. -/
theorem resolveRunImages_closed {σ ε : Type} (resolve : String → σ → String × Option ε × σ)
    (f1 : String → String)
    (hok : ∀ uri s, (resolve uri s).2.1 = none) (hret : ∀ uri s, (resolve uri s).1 = f1 uri)
    (base : List RunImageConfig) (done : List RunImageConfig) (s : σ) :
    (resolveRunImages resolve base done.length
        (done ++ List.replicate base.length ({} : RunImageConfig)) s).1 =
      done ++ base.map (fun runImg =>
        { Image := f1 runImg.Image, Mirrors := List.replicate runImg.Mirrors.length "" }) := by
  induction base generalizing done s with
  | nil => simp [resolveRunImages]
  | cons runImg rest ih =>
    have hnext := ih (done ++
      [{ Image := f1 runImg.Image, Mirrors := List.replicate runImg.Mirrors.length "" }])
    simp only [List.length_append, List.length_singleton, List.append_assoc,
      List.singleton_append] at hnext
    have h1 := hok runImg.Image s
    have h2 := hret runImg.Image s
    rcases hres : resolve runImg.Image s with ⟨image, err, s1⟩
    rw [hres] at h1 h2
    simp only at h1 h2
    subst h1
    subst h2
    simp only [resolveRunImages, List.length_cons, List.replicate_succ, List.map_cons,
      getD_at_length, resolveRunImage_of_success resolve runImg ({} : RunImageConfig) s _ s1 hres,
      set_at_length]
    exact hnext s1

theorem resolveBuildImage_value {σ ε : Type} (c : MultiArchConfig) (t : Target)
    (R : Collaborators σ ε) (f : String → Target → String)
    (hret : ∀ uri target s, (R.ParseURItoString uri target s).1 = f uri target)
    (config : Config) (s : σ) :
    (resolveBuildImage c t R config s).1 =
      { config with Build := { config.Build with
          Image := if c.Build.Image ≠ "" then f c.Build.Image t else config.Build.Image } } := by
  unfold resolveBuildImage
  by_cases hb : c.Build.Image = ""
  · simp [hb]
  · simp [hb, hret]

theorem resolveStackBuildImage_value {σ ε : Type} (c : MultiArchConfig) (t : Target)
    (R : Collaborators σ ε) (f : String → Target → String)
    (hret : ∀ uri target s, (R.ParseURItoString uri target s).1 = f uri target)
    (config : Config) (s : σ) :
    (resolveStackBuildImage c t R config s).1 =
      { config with Stack := { config.Stack with
          BuildImage :=
            if c.Stack.BuildImage ≠ "" then f c.Stack.BuildImage t
            else config.Stack.BuildImage } } := by
  unfold resolveStackBuildImage
  by_cases hb : c.Stack.BuildImage = ""
  · simp [hb]
  · simp [hb, hret]

theorem resolveStackRunImage_value {σ ε : Type} (c : MultiArchConfig) (t : Target)
    (R : Collaborators σ ε) (f : String → Target → String)
    (hret : ∀ uri target s, (R.ParseURItoString uri target s).1 = f uri target)
    (config : Config) (s : σ) :
    (resolveStackRunImage c t R config s).1 =
      { config with Stack := { config.Stack with
          RunImage :=
            if c.Stack.RunImage ≠ "" then f c.Stack.RunImage t
            else config.Stack.RunImage } } := by
  unfold resolveStackRunImage
  by_cases hb : c.Stack.RunImage = ""
  · simp [hb]
  · simp [hb, hret]

theorem processStack_value {σ ε : Type} (c : MultiArchConfig) (t : Target)
    (R : Collaborators σ ε) (f : String → Target → String)
    (hok : R.AlwaysSucceeds)
    (hret : ∀ uri target s, (R.ParseURItoString uri target s).1 = f uri target)
    (config : Config) (s : σ) :
    (processStack c t R config s).1 =
      assignOrderAndTarget c t
        { config with Stack := { config.Stack with
            BuildImage :=
              if c.Stack.BuildImage ≠ "" then f c.Stack.BuildImage t
              else config.Stack.BuildImage
            RunImage :=
              if c.Stack.RunImage ≠ "" then f c.Stack.RunImage t
              else config.Stack.RunImage } } := by
  unfold processStack
  have hb := resolveStackBuildImage_ok c t R hok config s
  have hbv := resolveStackBuildImage_value c t R f hret config s
  rcases h1 : resolveStackBuildImage c t R config s with ⟨config1, err1, s1⟩
  rw [h1] at hb hbv
  simp only at hb hbv
  subst hb
  subst hbv
  simp only
  have hr := resolveStackRunImage_ok c t R hok
    { config with Stack := { config.Stack with
        BuildImage :=
          if c.Stack.BuildImage ≠ "" then f c.Stack.BuildImage t
          else config.Stack.BuildImage } } s1
  have hrv := resolveStackRunImage_value c t R f hret
    { config with Stack := { config.Stack with
        BuildImage :=
          if c.Stack.BuildImage ≠ "" then f c.Stack.BuildImage t
          else config.Stack.BuildImage } } s1
  rcases h2 : resolveStackRunImage c t R
    { config with Stack := { config.Stack with
        BuildImage :=
          if c.Stack.BuildImage ≠ "" then f c.Stack.BuildImage t
          else config.Stack.BuildImage } } s1 with ⟨config2, err2, s2⟩
  rw [h2] at hr hrv
  simp only at hr hrv
  subst hr
  subst hrv
  simp [resolveStackMirrors]

theorem processImages_value {σ ε : Type} (c : MultiArchConfig) (t : Target)
    (R : Collaborators σ ε) (f : String → Target → String)
    (hok : R.AlwaysSucceeds)
    (hret : ∀ uri target s, (R.ParseURItoString uri target s).1 = f uri target)
    (config : Config) (s : σ)
    (hblank : config.Run.Images = List.replicate c.Run.Images.length {}) :
    (processImages c t R config s).1 =
      assignOrderAndTarget c t
        { config with
            Build := { config.Build with
              Image := if c.Build.Image ≠ "" then f c.Build.Image t else config.Build.Image }
            Run := { Images := c.Run.Images.map (fun runImg =>
              { Image := f runImg.Image t
                Mirrors := List.replicate runImg.Mirrors.length "" }) }
            Stack := { config.Stack with
              BuildImage :=
                if c.Stack.BuildImage ≠ "" then f c.Stack.BuildImage t
                else config.Stack.BuildImage
              RunImage :=
                if c.Stack.RunImage ≠ "" then f c.Stack.RunImage t
                else config.Stack.RunImage } } := by
  unfold processImages
  have hb := resolveBuildImage_ok c t R hok config s
  have hbv := resolveBuildImage_value c t R f hret config s
  rcases h1 : resolveBuildImage c t R config s with ⟨config1, err1, s1⟩
  rw [h1] at hb hbv
  simp only at hb hbv
  subst hb
  subst hbv
  simp only
  have hr := resolveRunImages_ok (fun uri => R.ParseURItoString uri t)
    (fun uri s0 => hok.2 uri t s0) c.Run.Images 0 config.Run.Images s1
  have hrv := resolveRunImages_closed (fun uri => R.ParseURItoString uri t)
    (fun uri => f uri t) (fun uri s0 => hok.2 uri t s0) (fun uri s0 => hret uri t s0)
    c.Run.Images [] s1
  simp only [List.length_nil, List.nil_append] at hrv
  rw [← hblank] at hrv
  rcases h2 : resolveRunImages (fun uri => R.ParseURItoString uri t)
    c.Run.Images 0 config.Run.Images s1 with ⟨images, err2, s2⟩
  rw [h2] at hr hrv
  simp only at hr hrv
  subst hr
  subst hrv
  simp only
  rw [processStack_value c t R f hok hret]

/-- With a resolver that always succeeds and returns `g` and `f`, the config
that `processTarget` returns is `resolvedConfig` for the normalised target. -/
theorem processTarget_closed {σ ε : Type} (c : MultiArchConfig) (t : Target) (dn dv : String)
    (R : Collaborators σ ε) (g : String → String → Target → String)
    (f : String → Target → String) (hok : R.AlwaysSucceeds) (hret : R.Returns g f) (s : σ) :
    (c.processTarget t dn dv R s).1 = c.resolvedConfig g f (R.ProcessTarget t dn dv) := by
  unfold MultiArchConfig.processTarget
  simp only
  have hb := resolveModules_ok
    (fun uri => R.GetRelativeURI uri c.relativeBaseDir (R.ProcessTarget t dn dv))
    (fun uri s0 => hok.1 uri _ _ s0) c.Buildpacks 0 (copyConfig c.toConfig).Buildpacks s
  have hbv := resolveModules_closed
    (fun uri => R.GetRelativeURI uri c.relativeBaseDir (R.ProcessTarget t dn dv))
    (fun uri => g uri c.relativeBaseDir (R.ProcessTarget t dn dv))
    (fun uri s0 => hok.1 uri _ _ s0) (fun uri s0 => hret.1 uri _ _ s0) c.Buildpacks [] s
  simp only [List.length_nil, List.nil_append] at hbv
  rcases h1 : resolveModules
    (fun uri => R.GetRelativeURI uri c.relativeBaseDir (R.ProcessTarget t dn dv))
    c.Buildpacks 0 (copyConfig c.toConfig).Buildpacks s with ⟨bps, err1, s1⟩
  rw [h1] at hb
  have hbv1 : bps = c.Buildpacks.map (fun bp =>
      if bp.URI ≠ "" then
        ({ URI := g bp.URI c.relativeBaseDir (R.ProcessTarget t dn dv) } : ModuleConfig)
      else {}) := by
    have h := congrArg (fun r => r.1) h1
    simp only at h
    rw [← h]
    exact hbv
  simp only at hb
  subst hb
  simp only
  have he := resolveModules_ok
    (fun uri => R.GetRelativeURI uri c.relativeBaseDir (R.ProcessTarget t dn dv))
    (fun uri s0 => hok.1 uri _ _ s0) c.Extensions 0 (copyConfig c.toConfig).Extensions s1
  have hev := resolveModules_closed
    (fun uri => R.GetRelativeURI uri c.relativeBaseDir (R.ProcessTarget t dn dv))
    (fun uri => g uri c.relativeBaseDir (R.ProcessTarget t dn dv))
    (fun uri s0 => hok.1 uri _ _ s0) (fun uri s0 => hret.1 uri _ _ s0) c.Extensions [] s1
  simp only [List.length_nil, List.nil_append] at hev
  rcases h2 : resolveModules
    (fun uri => R.GetRelativeURI uri c.relativeBaseDir (R.ProcessTarget t dn dv))
    c.Extensions 0 (copyConfig c.toConfig).Extensions s1 with ⟨exts, err2, s2⟩
  rw [h2] at he
  have hev1 : exts = c.Extensions.map (fun ext =>
      if ext.URI ≠ "" then
        ({ URI := g ext.URI c.relativeBaseDir (R.ProcessTarget t dn dv) } : ModuleConfig)
      else {}) := by
    have h := congrArg (fun r => r.1) h2
    simp only at h
    rw [← h]
    exact hev
  simp only at he
  subst he
  simp only
  rw [processImages_value c _ R f hok hret.2 _ _ (by simp [copyConfig])]
  simp [assignOrderAndTarget, copyConfig, MultiArchConfig.resolvedConfig, hbv1, hev1]

/-! ## Theorems: claims C21 and C26 -/

/-- Claim C21, as the code has it.  For every base config that has been
normalised by `mergeStackWithImages` and whose first run image, if there is
one, has a non-empty image, and for every resolver that always succeeds and
whose result is a function of the URI and the target, every config returned by
`BuilderConfigs` has `Build.Image` equal to `Stack.BuildImage` and, when its
`Run.Images` is not empty, the image of its first run image equal to
`Stack.RunImage`. -/
theorem C21_invariant_after_resolution {σ ε : Type} (c : MultiArchConfig) (base : Config)
    (R : Collaborators σ ε) (g : String → String → Target → String)
    (f : String → Target → String) (s : σ)
    (hnorm : c.toConfig = base.mergeStackWithImages)
    (hok : R.AlwaysSucceeds) (hret : R.Returns g f)
    (hfirst : ∀ first rest, c.Run.Images = first :: rest → first.Image ≠ "") :
    ∀ cfg ∈ (c.BuilderConfigs R s).1,
      cfg.Build.Image = cfg.Stack.BuildImage ∧
      ∀ first rest, cfg.Run.Images = first :: rest → first.Image = cfg.Stack.RunImage := by
  obtain ⟨hb, _, hcons⟩ := mergeStackWithImages_agree base
  rw [← hnorm] at hb hcons
  apply BuilderConfigs_all c R
    (fun cfg => cfg.Build.Image = cfg.Stack.BuildImage ∧
      ∀ first rest, cfg.Run.Images = first :: rest → first.Image = cfg.Stack.RunImage)
  intro u s1
  simp only [MultiArchConfig.resolveUnit, processTarget_closed c u.1 "" "" R g f hok hret s1,
    MultiArchConfig.resolvedConfig]
  refine ⟨by rw [hb], ?_⟩
  intro first rest hfr
  cases hi : c.Run.Images with
  | nil => simp [hi] at hfr
  | cons first0 rest0 =>
    have hne := hfirst first0 rest0 hi
    have hrun := hcons first0 rest0 hi
    simp only [hi, List.map_cons, List.cons.injEq] at hfr
    rw [← hfr.1, hrun]
    simp [hne]

/-- Witness of C21: the normalised config with two run images and the resolver
that puts the operating system before every URI. -/
theorem C21_invariant_after_resolution_witness :
    (normalisedConfig.BuilderConfigs tagResolver ()).1.map
        (fun cfg => (cfg.Build.Image, cfg.Stack.BuildImage,
          cfg.Run.Images.map (fun runImg => runImg.Image), cfg.Stack.RunImage)) =
      [("linux:build", "linux:build", ["linux:a", "linux:b"], "linux:a")] ∧
    ∀ cfg ∈ (normalisedConfig.BuilderConfigs tagResolver ()).1,
      cfg.Build.Image = cfg.Stack.BuildImage ∧
      ∀ first rest, cfg.Run.Images = first :: rest → first.Image = cfg.Stack.RunImage :=
  ⟨by decide,
  C21_invariant_after_resolution normalisedConfig
    { runImagesConfig with
        Buildpacks := [{ ID := "some/bp", Version := "1.0" }, { URI := "bp.tgz" }]
        WithTargets := [{ OS := "linux", Arch := "amd64" }] }
    tagResolver (fun uri dir target => target.OS ++ ":" ++ dir ++ uri)
    (fun uri target => target.OS ++ ":" ++ uri) ()
    (by decide) ⟨fun _ _ _ _ => rfl, fun _ _ _ => rfl⟩ ⟨fun _ _ _ _ => rfl, fun _ _ _ => rfl⟩
    (by
      intro first rest h
      have hh : normalisedConfig.Run.Images =
          [{ Image := "a", Mirrors := ["a-mirror"] }, { Image := "b" }] := by decide
      rw [hh] at h
      injection h with h1 _
      rw [← h1]
      decide)⟩

/-- Counterexample to C21 as stated.  The base config is normalised, its one
run image has an empty image, and the resolver always succeeds and returns the
URI behind the operating system of the target.  The image of the run image is
resolved, to `linux:`, but the stack run image, being empty, is not: in the
returned config the two differ. -/
theorem C21_counterexample :
    emptyRunImageConfig.toConfig = emptyRunImageBase.mergeStackWithImages ∧
    tagResolver.AlwaysSucceeds ∧
    tagResolver.Returns (fun uri dir target => target.OS ++ ":" ++ dir ++ uri)
      (fun uri target => target.OS ++ ":" ++ uri) ∧
    (∀ first rest, emptyRunImageConfig.Run.Images = first :: rest →
      first.Image = emptyRunImageConfig.Stack.RunImage) ∧
    (emptyRunImageConfig.BuilderConfigs tagResolver ()).1.map
        (fun cfg => (cfg.Run.Images.map (fun runImg => runImg.Image), cfg.Stack.RunImage)) =
      [(["linux:"], "")] ∧
    ¬ ∀ cfg ∈ (emptyRunImageConfig.BuilderConfigs tagResolver ()).1,
      ∀ first rest, cfg.Run.Images = first :: rest → first.Image = cfg.Stack.RunImage := by
  refine ⟨rfl, ⟨fun _ _ _ _ => rfl, fun _ _ _ => rfl⟩, ⟨fun _ _ _ _ => rfl, fun _ _ _ => rfl⟩,
    ?_, by decide, ?_⟩
  · intro first rest h
    have hh : emptyRunImageConfig.Run.Images = [{ Image := "" }] := by decide
    rw [hh] at h
    injection h with h1 _
    rw [← h1]
    decide
  · intro hall
    have hmem :
        ({ Stack := { BuildImage := "linux:build" }
           Run := { Images := [{ Image := "linux:", Mirrors := [] }] }
           Build := { Image := "linux:build" }
           WithTargets := [{ OS := "linux", Arch := "amd64",
                             Distributions := [{ Name := "", Versions := [""] }] }] } :
          Config) ∈
        (emptyRunImageConfig.BuilderConfigs tagResolver ()).1 := by decide
    exact absurd (hall _ hmem _ _ rfl) (by decide)

theorem resolveModules_congr {σ ε : Type} (resolve1 resolve : String → σ → String × Option ε × σ)
    (h : ∀ uri s, uri ≠ "" → resolve1 uri s = resolve uri s)
    (base : List ModuleConfig) (i : Nat) (out : List ModuleConfig) (s : σ) :
    resolveModules resolve1 base i out s = resolveModules resolve base i out s := by
  induction base generalizing i out s with
  | nil => rfl
  | cons bp rest ih =>
    simp only [resolveModules]
    by_cases hu : bp.URI = ""
    · simp [hu, ih]
    · simp only [hu, ne_eq, not_false_eq_true, if_true, h bp.URI s hu, ih]

/-- The result of `processTarget` does not depend on what `GetRelativeURI`
would do with an empty URI. -/
theorem processTarget_congr_getRelativeURI {σ ε : Type} (c : MultiArchConfig) (t : Target)
    (dn dv : String) (R : Collaborators σ ε)
    (getRelativeURI1 : String → String → Target → σ → String × Option ε × σ)
    (h : ∀ uri dir target s, uri ≠ "" →
      getRelativeURI1 uri dir target s = R.GetRelativeURI uri dir target s) (s : σ) :
    c.processTarget t dn dv { R with GetRelativeURI := getRelativeURI1 } s =
      c.processTarget t dn dv R s := by
  have hcongr : ∀ base i out s0,
      resolveModules
        (fun uri => getRelativeURI1 uri c.relativeBaseDir (R.ProcessTarget t dn dv))
        base i out s0 =
      resolveModules
        (fun uri => R.GetRelativeURI uri c.relativeBaseDir (R.ProcessTarget t dn dv))
        base i out s0 :=
    resolveModules_congr _ _ (fun uri s0 hu => h uri _ _ s0 hu)
  show (match resolveModules
      (fun uri => getRelativeURI1 uri c.relativeBaseDir (R.ProcessTarget t dn dv))
      c.Buildpacks 0 (copyConfig c.toConfig).Buildpacks s with
    | (bps, some err, s1) => ({ copyConfig c.toConfig with Buildpacks := bps }, some err, s1)
    | (bps, none, s1) =>
      match resolveModules
        (fun uri => getRelativeURI1 uri c.relativeBaseDir (R.ProcessTarget t dn dv))
        c.Extensions 0 (copyConfig c.toConfig).Extensions s1 with
      | (exts, some err, s2) =>
        ({ copyConfig c.toConfig with Buildpacks := bps, Extensions := exts }, some err, s2)
      | (exts, none, s2) =>
        processImages c (R.ProcessTarget t dn dv) R
          { copyConfig c.toConfig with Buildpacks := bps, Extensions := exts } s2) =
    c.processTarget t dn dv R s
  simp only [hcongr]
  rfl

/-- Claim C26.  For every base config and every resolver that always succeeds
and returns `g` for `GetRelativeURI`, the config produced by `processTarget`
has as many buildpacks and extensions as the base config, and for every index
whose base entry has a non-empty URI the URI of the resulting entry is the
result of the resolver for that URI, the base directory and the normalised
target; the entries whose URI is empty are never passed to the resolver, the
result of `processTarget` being the same whatever `GetRelativeURI` would do
with an empty URI. -/
theorem C26_modules_resolved {σ ε : Type} (c : MultiArchConfig) (t : Target) (dn dv : String)
    (R : Collaborators σ ε) (g : String → String → Target → String)
    (f : String → Target → String) (s : σ)
    (hok : R.AlwaysSucceeds) (hret : R.Returns g f) :
    (c.processTarget t dn dv R s).1.Buildpacks.length = c.Buildpacks.length ∧
    (c.processTarget t dn dv R s).1.Extensions.length = c.Extensions.length ∧
    (∀ (i : Nat) (bp : ModuleConfig), c.Buildpacks[i]? = some bp → bp.URI ≠ "" →
      ((c.processTarget t dn dv R s).1.Buildpacks[i]?).map (fun m => m.URI) =
        some (g bp.URI c.relativeBaseDir (R.ProcessTarget t dn dv))) ∧
    (∀ (i : Nat) (ext : ModuleConfig), c.Extensions[i]? = some ext → ext.URI ≠ "" →
      ((c.processTarget t dn dv R s).1.Extensions[i]?).map (fun m => m.URI) =
        some (g ext.URI c.relativeBaseDir (R.ProcessTarget t dn dv))) ∧
    (∀ getRelativeURI1 : String → String → Target → σ → String × Option ε × σ,
      (∀ uri dir target s1, uri ≠ "" →
        getRelativeURI1 uri dir target s1 = R.GetRelativeURI uri dir target s1) →
      c.processTarget t dn dv { R with GetRelativeURI := getRelativeURI1 } s =
        c.processTarget t dn dv R s) := by
  rw [processTarget_closed c t dn dv R g f hok hret s]
  refine ⟨by simp [MultiArchConfig.resolvedConfig], by simp [MultiArchConfig.resolvedConfig],
    ?_, ?_, ?_⟩
  · intro i bp hi hu
    simp [MultiArchConfig.resolvedConfig, List.getElem?_map, hi, hu]
  · intro i ext hi hu
    simp [MultiArchConfig.resolvedConfig, List.getElem?_map, hi, hu]
  · intro getRelativeURI1 h
    exact processTarget_congr_getRelativeURI c t dn dv R getRelativeURI1 h s

/-- Witness of C26: the normalised config, whose second buildpack has the URI
`bp.tgz`, with the resolver that puts the operating system and the base
directory before the URI. -/
theorem C26_modules_resolved_witness :
    (normalisedConfig.processTarget { OS := "linux", Arch := "amd64" } "" ""
        tagResolver ()).1.Buildpacks =
      [{}, { URI := "linux:base/bp.tgz" }] ∧
    (normalisedConfig.processTarget { OS := "linux", Arch := "amd64" } "" ""
        tagResolver ()).1.Buildpacks.length = normalisedConfig.Buildpacks.length :=
  ⟨by decide,
   (C26_modules_resolved normalisedConfig { OS := "linux", Arch := "amd64" } "" "" tagResolver
      (fun uri dir target => target.OS ++ ":" ++ dir ++ uri)
      (fun uri target => target.OS ++ ":" ++ uri) ()
      ⟨fun _ _ _ _ => rfl, fun _ _ _ => rfl⟩ ⟨fun _ _ _ _ => rfl, fun _ _ _ => rfl⟩).1⟩

/-! ## Theorems: claims C24 and C25 -/

theorem resolveMirrors_fallback {σ ε : Type} (resolve : String → σ → String × Option ε × σ)
    (m r : String) (post : List String) (s3 : σ) (pre : List String) (j : Nat)
    (out : List String) (err : Option ε) (s : σ)
    (hpre : allFail resolve pre s = true)
    (hm : resolve m (triedState resolve pre s) = (r, none, s3)) :
    (resolveMirrors resolve (pre ++ m :: post) j out err s).2 = (none, s3) := by
  induction pre generalizing j out err s with
  | nil =>
    simp only [triedState, List.foldl_nil] at hm
    simp [resolveMirrors, hm]
  | cons p rest ih =>
    simp only [allFail, Bool.and_eq_true] at hpre
    simp only [triedState, List.foldl_cons] at hm
    rcases hp : resolve p s with ⟨rp, ep, sp⟩
    rw [hp] at hpre hm
    cases ep with
    | none => simp at hpre
    | some e =>
      simp only [List.cons_append, resolveMirrors, hp]
      exact ih (j + 1) (out.set j rp) (some e) sp hpre.2 hm

theorem resolveMirrors_fallback_value {σ ε : Type}
    (resolve : String → σ → String × Option ε × σ)
    (m r : String) (post : List String) (s3 : σ) (pre : List String) (done : List String)
    (err : Option ε) (s : σ)
    (hpre : allFail resolve pre s = true)
    (hm : resolve m (triedState resolve pre s) = (r, none, s3)) :
    (resolveMirrors resolve (pre ++ m :: post) done.length
        (done ++ List.replicate (pre ++ m :: post).length "") err s).1 =
      done ++ (triedResults resolve pre s ++ r :: List.replicate post.length "") := by
  induction pre generalizing done err s with
  | nil =>
    simp only [triedState, List.foldl_nil] at hm
    simp only [List.nil_append, List.length_cons, List.replicate_succ, resolveMirrors, hm,
      set_at_length, triedResults]
  | cons p rest ih =>
    simp only [allFail, Bool.and_eq_true] at hpre
    simp only [triedState, List.foldl_cons] at hm
    rcases hp : resolve p s with ⟨rp, ep, sp⟩
    rw [hp] at hpre hm
    cases ep with
    | none => simp at hpre
    | some e =>
      simp only [List.cons_append, List.length_cons, List.replicate_succ, resolveMirrors, hp,
        set_at_length, triedResults]
      have h := ih (done ++ [rp]) (some e) sp hpre.2 hm
      simp only [List.length_append, List.length_singleton, List.append_assoc,
        List.singleton_append] at h
      simpa using h

theorem resolveMirrors_all_fail {σ ε : Type} (resolve : String → σ → String × Option ε × σ)
    (mirrors : List String) (j : Nat) (out : List String) (err : Option ε) (s : σ)
    (hall : allFail resolve mirrors s = true) (herr : err ≠ none) :
    (resolveMirrors resolve mirrors j out err s).2.1 ≠ none ∧
    (resolveMirrors resolve mirrors j out err s).2.2 = triedState resolve mirrors s := by
  induction mirrors generalizing j out err s with
  | nil => exact ⟨herr, rfl⟩
  | cons p rest ih =>
    simp only [allFail, Bool.and_eq_true] at hall
    rcases hp : resolve p s with ⟨rp, ep, sp⟩
    rw [hp] at hall
    cases ep with
    | none => simp at hall
    | some e =>
      simp only [resolveMirrors, hp, triedState, List.foldl_cons]
      exact ih (j + 1) (out.set j rp) (some e) sp hall.2 (by simp)

theorem resolveModules_no_error {σ ε : Type} (resolve : String → σ → String × Option ε × σ)
    (base : List ModuleConfig)
    (h : ∀ bp ∈ base, bp.URI ≠ "" → ∀ s, (resolve bp.URI s).2.1 = none) (i : Nat)
    (out : List ModuleConfig) (s : σ) :
    (resolveModules resolve base i out s).2.1 = none := by
  induction base generalizing i out s with
  | nil => rfl
  | cons bp rest ih =>
    have hrest : ∀ bp1 ∈ rest, bp1.URI ≠ "" → ∀ s, (resolve bp1.URI s).2.1 = none :=
      fun bp1 hbp1 => h bp1 (List.mem_cons_of_mem _ hbp1)
    simp only [resolveModules]
    by_cases hu : bp.URI = ""
    · simp only [hu, ne_eq, not_true_eq_false, if_false]
      exact ih hrest _ _ _
    · have hr := h bp (List.mem_cons_self _ _) hu s
      rcases hres : resolve bp.URI s with ⟨uri, err, s1⟩
      rw [hres] at hr
      simp only at hr
      subst hr
      simp only [hu, ne_eq, not_false_eq_true, if_true]
      exact ih hrest _ _ _

theorem allFail_of_errors {σ ε : Type} (resolve : String → σ → String × Option ε × σ)
    (e1 : String → Option ε) (herr : ∀ uri s, (resolve uri s).2.1 = e1 uri)
    (mirrors : List String) (h : ∀ x ∈ mirrors, e1 x ≠ none) (s : σ) :
    allFail resolve mirrors s = true := by
  induction mirrors generalizing s with
  | nil => rfl
  | cons m rest ih =>
    simp only [allFail, Bool.and_eq_true]
    refine ⟨?_, ih (fun x hx => h x (List.mem_cons_of_mem _ hx)) _⟩
    rw [herr]
    have := h m (List.mem_cons_self _ _)
    cases hm : e1 m with
    | none => exact absurd hm this
    | some e => rfl

theorem triedState_append_singleton {σ ε : Type}
    (resolve : String → σ → String × Option ε × σ) (pre : List String) (m : String) (s : σ) :
    triedState resolve (pre ++ [m]) s = (resolve m (triedState resolve pre s)).2.2 := by
  simp [triedState, List.foldl_append]

theorem triedResults_append_singleton {σ ε : Type}
    (resolve : String → σ → String × Option ε × σ) (pre : List String) (m : String) (s : σ) :
    triedResults resolve (pre ++ [m]) s =
      triedResults resolve pre s ++ [(resolve m (triedState resolve pre s)).1] := by
  induction pre generalizing s with
  | nil => simp [triedResults, triedState]
  | cons p rest ih =>
    show (resolve p s).1 :: triedResults resolve (rest ++ [m]) (resolve p s).2.2 = _
    rw [ih]
    rfl

/-- The mirror loop with a resolver whose string and error are functions of
the URI: the mirrors it leaves are those of the fallback. -/
theorem resolveMirrors_fn_value {σ ε : Type} (resolve : String → σ → String × Option ε × σ)
    (f1 : String → String) (e1 : String → Option ε)
    (hres : ∀ uri s, (resolve uri s).1 = f1 uri)
    (herr : ∀ uri s, (resolve uri s).2.1 = e1 uri)
    (mirrors : List String) (done : List String) (err : Option ε) (s : σ) :
    (resolveMirrors resolve mirrors done.length
        (done ++ List.replicate mirrors.length "") err s).1 =
      done ++ fallbackMirrors f1 (fun uri => (e1 uri).isSome) mirrors := by
  induction mirrors generalizing done err s with
  | nil => simp [resolveMirrors, fallbackMirrors]
  | cons m rest ih =>
    have h1 := hres m s
    have h2 := herr m s
    rcases hm : resolve m s with ⟨r, e, s1⟩
    rw [hm] at h1 h2
    simp only at h1 h2
    subst h1
    simp only [List.length_cons, List.replicate_succ, resolveMirrors, hm, set_at_length,
      fallbackMirrors]
    cases e with
    | none =>
      simp only [← h2, Option.isSome_none, Bool.false_eq_true, if_false]
    | some e0 =>
      simp only [← h2, Option.isSome_some, if_true]
      have h := ih (done ++ [(resolve m s).1]) (some e0) s1
      simp only [List.length_append, List.length_singleton, List.append_assoc,
        List.singleton_append] at h
      rw [hm] at h
      exact h

theorem resolveMirrors_fn_error {σ ε : Type} (resolve : String → σ → String × Option ε × σ)
    (e1 : String → Option ε) (herr : ∀ uri s, (resolve uri s).2.1 = e1 uri)
    (mirrors : List String) (j : Nat) (out : List String) (err : Option ε) (s : σ) :
    (mirrors.all (fun uri => (e1 uri).isSome) = false →
      (resolveMirrors resolve mirrors j out err s).2.1 = none) ∧
    (mirrors.all (fun uri => (e1 uri).isSome) = true → err ≠ none →
      (resolveMirrors resolve mirrors j out err s).2.1 ≠ none) := by
  induction mirrors generalizing j out err s with
  | nil =>
    refine ⟨fun h => by simp at h, fun _ he => ?_⟩
    simpa [resolveMirrors] using he
  | cons m rest ih =>
    have h2 := herr m s
    rcases hm : resolve m s with ⟨r, e, s1⟩
    rw [hm] at h2
    simp only at h2
    simp only [resolveMirrors, hm, List.all_cons, ← h2]
    cases e with
    | none => simp
    | some e0 =>
      simp only [Option.isSome_some, Bool.true_and]
      exact ⟨(ih (j + 1) (out.set j r) (some e0) s1).1,
        fun hall _ => (ih (j + 1) (out.set j r) (some e0) s1).2 hall (by simp)⟩

/-- One iteration of the run-image loop with a resolver whose string and error
are functions of the URI: the entry it leaves. -/
theorem resolveRunImage_fn {σ ε : Type} (resolve : String → σ → String × Option ε × σ)
    (f1 : String → String) (e1 : String → Option ε)
    (hres : ∀ uri s, (resolve uri s).1 = f1 uri)
    (herr : ∀ uri s, (resolve uri s).2.1 = e1 uri)
    (runImg : RunImageConfig) (s : σ) :
    (resolveRunImage resolve runImg {} s).1 =
      runImageFallback f1 (fun uri => (e1 uri).isSome) runImg := by
  have h1 := hres runImg.Image s
  have h2 := herr runImg.Image s
  rcases hm : resolve runImg.Image s with ⟨image, e, s1⟩
  rw [hm] at h1 h2
  simp only at h1 h2
  cases e with
  | none =>
    rw [resolveRunImage_of_success resolve runImg {} s _ s1 hm]
    simp [runImageFallback, ← h2, h1]
  | some e0 =>
    have hshape : resolveRunImage resolve runImg {} s =
        (match resolveMirrors resolve runImg.Mirrors 0
            (List.replicate runImg.Mirrors.length "") (some e0) s1 with
          | (mirrors, err2, s2) =>
            (({ Image := image, Mirrors := mirrors } : RunImageConfig), err2, s2)) := by
      simp only [resolveRunImage, hm]
      rfl
    have hv := resolveMirrors_fn_value resolve f1 e1 hres herr runImg.Mirrors [] (some e0) s1
    simp only [List.length_nil, List.nil_append] at hv
    rw [hshape]
    rcases hr : resolveMirrors resolve runImg.Mirrors 0
      (List.replicate runImg.Mirrors.length "") (some e0) s1 with ⟨mirrors, err2, s2⟩
    rw [hr] at hv
    simp only at hv ⊢
    simp [runImageFallback, ← h2, hv, h1]

/-- Whether an iteration of the run-image loop fails, with a resolver whose
error is a function of the URI. -/
theorem resolveRunImage_fn_error {σ ε : Type} (resolve : String → σ → String × Option ε × σ)
    (e1 : String → Option ε) (herr : ∀ uri s, (resolve uri s).2.1 = e1 uri)
    (runImg cur : RunImageConfig) (s : σ) :
    (runImageFails (fun uri => (e1 uri).isSome) runImg = false →
      (resolveRunImage resolve runImg cur s).2.1 = none) ∧
    (runImageFails (fun uri => (e1 uri).isSome) runImg = true →
      (resolveRunImage resolve runImg cur s).2.1 ≠ none) := by
  have h2 := herr runImg.Image s
  rcases hm : resolve runImg.Image s with ⟨image, e, s1⟩
  rw [hm] at h2
  simp only at h2
  cases e with
  | none =>
    rw [resolveRunImage_of_success resolve runImg cur s image s1 hm]
    simp [runImageFails, ← h2]
  | some e0 =>
    simp only [resolveRunImage, hm, runImageFails, ← h2, Option.isSome_some, Bool.true_and]
    exact resolveMirrors_fn_error resolve e1 herr runImg.Mirrors 0 _ (some e0) s1 |>.imp
      (fun h hf => h hf) (fun h hf => h hf (by simp))

/-- Whether the run-image loop fails, with a resolver whose error is a
function of the URI. -/
theorem resolveRunImages_fn_error {σ ε : Type} (resolve : String → σ → String × Option ε × σ)
    (e1 : String → Option ε) (herr : ∀ uri s, (resolve uri s).2.1 = e1 uri)
    (base : List RunImageConfig) (i : Nat) (out : List RunImageConfig) (s : σ) :
    ((∀ runImg ∈ base, runImageFails (fun uri => (e1 uri).isSome) runImg = false) →
      (resolveRunImages resolve base i out s).2.1 = none) ∧
    ((∃ runImg ∈ base, runImageFails (fun uri => (e1 uri).isSome) runImg = true) →
      (resolveRunImages resolve base i out s).2.1 ≠ none) := by
  induction base generalizing i out s with
  | nil =>
    refine ⟨fun _ => rfl, ?_⟩
    rintro ⟨r, hr, _⟩
    exact absurd hr (List.not_mem_nil _)
  | cons runImg rest ih =>
    obtain ⟨hnone, hsome⟩ := resolveRunImage_fn_error resolve e1 herr runImg (out.getD i {}) s
    simp only [resolveRunImages]
    rcases hr : resolveRunImage resolve runImg (out.getD i {}) s with ⟨cur, err, s1⟩
    rw [hr] at hnone hsome
    simp only at hnone hsome
    by_cases hf : runImageFails (fun uri => (e1 uri).isSome) runImg = true
    · have herr1 := hsome hf
      cases err with
      | none => exact absurd rfl herr1
      | some e0 =>
        refine ⟨fun hall => ?_, fun _ => by simp⟩
        have := hall runImg (List.mem_cons_self _ _)
        rw [hf] at this
        exact absurd this (by decide)
    · have hf1 : runImageFails (fun uri => (e1 uri).isSome) runImg = false := by
        simpa using hf
      have herr1 := hnone hf1
      subst herr1
      simp only
      refine ⟨fun hall => ?_, ?_⟩
      · exact (ih (i + 1) (out.set i cur) s1).1
          (fun r hr1 => hall r (List.mem_cons_of_mem _ hr1))
      · rintro ⟨r, hr1, hrf⟩
        rcases List.mem_cons.mp hr1 with h | h
        · rw [h] at hrf
          exact absurd hrf hf
        · exact (ih (i + 1) (out.set i cur) s1).2 ⟨r, h, hrf⟩

/-- The run-image loop with a resolver whose string and error are functions of
the URI, when no run image fails altogether. -/
theorem resolveRunImages_fn {σ ε : Type} (resolve : String → σ → String × Option ε × σ)
    (f1 : String → String) (e1 : String → Option ε)
    (hres : ∀ uri s, (resolve uri s).1 = f1 uri)
    (herr : ∀ uri s, (resolve uri s).2.1 = e1 uri)
    (base : List RunImageConfig) (done : List RunImageConfig) (s : σ)
    (hall : ∀ runImg ∈ base, runImageFails (fun uri => (e1 uri).isSome) runImg = false) :
    (resolveRunImages resolve base done.length
        (done ++ List.replicate base.length ({} : RunImageConfig)) s).1 =
      done ++ base.map (runImageFallback f1 (fun uri => (e1 uri).isSome)) := by
  induction base generalizing done s with
  | nil => simp [resolveRunImages]
  | cons runImg rest ih =>
    have hv := resolveRunImage_fn resolve f1 e1 hres herr runImg s
    have hnone := (resolveRunImage_fn_error resolve e1 herr runImg {} s).1
      (hall runImg (List.mem_cons_self _ _))
    have hnext := ih (done ++ [runImageFallback f1 (fun uri => (e1 uri).isSome) runImg])
    simp only [List.length_append, List.length_singleton, List.append_assoc,
      List.singleton_append] at hnext
    simp only [resolveRunImages, List.length_cons, List.replicate_succ, getD_at_length,
      set_at_length, List.map_cons]
    rcases hr : resolveRunImage resolve runImg {} s with ⟨cur, err, s1⟩
    rw [hr] at hv hnone
    simp only at hv hnone
    subst hv
    subst hnone
    simp only
    exact hnext s1 (fun r hr1 => hall r (List.mem_cons_of_mem _ hr1))

theorem processStack_keeps_run {σ ε : Type} (c : MultiArchConfig) (t : Target)
    (R : Collaborators σ ε) (config : Config) (s : σ) :
    (processStack c t R config s).1.Run = config.Run := by
  have h1 : ∀ cfg s0, (resolveStackBuildImage c t R cfg s0).1.Run = cfg.Run := by
    intro cfg s0
    unfold resolveStackBuildImage
    by_cases hb : c.Stack.BuildImage = "" <;> simp [hb]
  have h2 : ∀ cfg s0, (resolveStackRunImage c t R cfg s0).1.Run = cfg.Run := by
    intro cfg s0
    unfold resolveStackRunImage
    by_cases hb : c.Stack.RunImage = "" <;> simp [hb]
  have h3 : ∀ cfg err s0, (resolveStackMirrors c t R cfg err s0).1.Run = cfg.Run := by
    intro cfg err s0
    unfold resolveStackMirrors
    cases err <;> simp
  unfold processStack
  have hb := h1 config s
  rcases hr1 : resolveStackBuildImage c t R config s with ⟨config1, _ | err1, s1⟩
  · rw [hr1] at hb
    simp only at hb ⊢
    have hr := h2 config1 s1
    rcases hr2 : resolveStackRunImage c t R config1 s1 with ⟨config2, err2, s2⟩
    rw [hr2] at hr
    simp only at hr ⊢
    have hm := h3 config2 err2 s2
    rcases hr3 : resolveStackMirrors c t R config2 err2 s2 with ⟨config3, err3, s3⟩
    rw [hr3] at hm
    simp only at hm ⊢
    simp only [assignOrderAndTarget]
    rw [hm, hr, hb]
  · rw [hr1] at hb
    simpa using hb

/-- When no module and no build image fails, `processTarget` comes to the
run-image loop with the blank entries of `copyConfig`, returns at once when the
loop fails, and goes on to the stack images, with the blank stack mirrors of
`copyConfig`, when it does not. -/
theorem processTarget_run_images {σ ε : Type} (c : MultiArchConfig) (t : Target)
    (dn dv : String) (R : Collaborators σ ε) (s : σ)
    (hbps : ∀ bp ∈ c.Buildpacks, bp.URI ≠ "" →
      ∀ s0, (R.GetRelativeURI bp.URI c.relativeBaseDir (R.ProcessTarget t dn dv) s0).2.1 = none)
    (hexts : ∀ ext ∈ c.Extensions, ext.URI ≠ "" →
      ∀ s0, (R.GetRelativeURI ext.URI c.relativeBaseDir (R.ProcessTarget t dn dv) s0).2.1 = none)
    (hbuild : c.Build.Image ≠ "" →
      ∀ s0, (R.ParseURItoString c.Build.Image (R.ProcessTarget t dn dv) s0).2.1 = none) :
    ∃ (mk : List RunImageConfig → Config) (s1 : σ),
      (∀ images, (mk images).Run.Images = images ∧
        (mk images).Stack.RunImageMirrors =
          List.replicate c.Stack.RunImageMirrors.length "") ∧
      c.processTarget t dn dv R s =
        match resolveRunImages (fun uri => R.ParseURItoString uri (R.ProcessTarget t dn dv))
            c.Run.Images 0 (List.replicate c.Run.Images.length {}) s1 with
        | (images, some err, s2) => (mk images, some err, s2)
        | (images, none, s2) => processStack c (R.ProcessTarget t dn dv) R (mk images) s2 := by
  unfold MultiArchConfig.processTarget
  simp only
  have hb := resolveModules_no_error
    (fun uri => R.GetRelativeURI uri c.relativeBaseDir (R.ProcessTarget t dn dv))
    c.Buildpacks hbps 0 (copyConfig c.toConfig).Buildpacks s
  rcases h1 : resolveModules
    (fun uri => R.GetRelativeURI uri c.relativeBaseDir (R.ProcessTarget t dn dv))
    c.Buildpacks 0 (copyConfig c.toConfig).Buildpacks s with ⟨bps, err1, s1⟩
  rw [h1] at hb
  simp only at hb
  subst hb
  simp only
  have he := resolveModules_no_error
    (fun uri => R.GetRelativeURI uri c.relativeBaseDir (R.ProcessTarget t dn dv))
    c.Extensions hexts 0 (copyConfig c.toConfig).Extensions s1
  rcases h2 : resolveModules
    (fun uri => R.GetRelativeURI uri c.relativeBaseDir (R.ProcessTarget t dn dv))
    c.Extensions 0 (copyConfig c.toConfig).Extensions s1 with ⟨exts, err2, s2⟩
  rw [h2] at he
  simp only at he
  subst he
  simp only
  unfold processImages resolveBuildImage
  by_cases hbi : c.Build.Image = ""
  · refine ⟨fun images =>
      { ({ copyConfig c.toConfig with Buildpacks := bps, Extensions := exts } : Config) with
          Run := { Images := images } }, s2, fun images => ⟨rfl, rfl⟩, ?_⟩
    simp only [hbi, ne_eq, not_true_eq_false, if_false]
    rfl
  · have hbe := hbuild hbi s2
    rcases h3 : R.ParseURItoString c.Build.Image (R.ProcessTarget t dn dv) s2 with
      ⟨img, err3, s3⟩
    rw [h3] at hbe
    simp only at hbe
    subst hbe
    refine ⟨fun images =>
      { ({ copyConfig c.toConfig with
            Buildpacks := bps, Extensions := exts, Build := { Image := img } } : Config) with
          Run := { Images := images } }, s3, fun images => ⟨rfl, rfl⟩, ?_⟩
    simp only [hbi, ne_eq, not_false_eq_true, if_true, h3]
    rfl

theorem resolveStackBuildImage_no_error {σ ε : Type} (c : MultiArchConfig) (t : Target)
    (R : Collaborators σ ε) (config : Config) (s : σ)
    (h : c.Stack.BuildImage ≠ "" → ∀ s0, (R.ParseURItoString c.Stack.BuildImage t s0).2.1 = none) :
    (resolveStackBuildImage c t R config s).2.1 = none ∧
    (resolveStackBuildImage c t R config s).1.Stack.RunImageMirrors =
      config.Stack.RunImageMirrors := by
  unfold resolveStackBuildImage
  by_cases hb : c.Stack.BuildImage = ""
  · simp [hb]
  · simp only [hb, ne_eq, not_false_eq_true, if_true]
    exact ⟨h hb s, trivial⟩

/-- The end of `processTarget` when the stack build image does not fail,
`Stack.RunImage` is set and its resolution fails, on a config whose stack
mirrors are still blank: the mirrors are a fallback. -/
theorem processStack_fallback {σ ε : Type} (c : MultiArchConfig) (t : Target)
    (R : Collaborators σ ε) (config config1 : Config) (s0 s1 s2 : σ) (img : String) (e : ε)
    (hblank : config.Stack.RunImageMirrors =
      List.replicate c.Stack.RunImageMirrors.length "")
    (hbuild : resolveStackBuildImage c t R config s0 = (config1, none, s1))
    (hset : c.Stack.RunImage ≠ "")
    (hfail : R.ParseURItoString c.Stack.RunImage t s1 = (img, some e, s2)) :
    (∀ pre m post r s3, c.Stack.RunImageMirrors = pre ++ m :: post →
      allFail (fun uri => R.ParseURItoString uri t) pre s2 = true →
      R.ParseURItoString m t (triedState (fun uri => R.ParseURItoString uri t) pre s2) =
        (r, none, s3) →
      (processStack c t R config s0).2 = (none, s3) ∧
      (processStack c t R config s0).1.Stack.RunImageMirrors =
        triedResults (fun uri => R.ParseURItoString uri t) pre s2 ++
          r :: List.replicate post.length "") ∧
    (allFail (fun uri => R.ParseURItoString uri t) c.Stack.RunImageMirrors s2 = true →
      (processStack c t R config s0).2.1 ≠ none ∧
      (processStack c t R config s0).2.2 =
        triedState (fun uri => R.ParseURItoString uri t) c.Stack.RunImageMirrors s2) := by
  have hmirrors : config1.Stack.RunImageMirrors = config.Stack.RunImageMirrors := by
    unfold resolveStackBuildImage at hbuild
    by_cases hb : c.Stack.BuildImage = ""
    · simp only [hb, ne_eq, not_true_eq_false, if_false, Prod.mk.injEq] at hbuild
      rw [← hbuild.1]
    · simp only [hb, ne_eq, not_false_eq_true, if_true, Prod.mk.injEq] at hbuild
      rw [← hbuild.1]
  have hshape : processStack c t R config s0 =
      (match resolveMirrors (fun uri => R.ParseURItoString uri t)
          c.Stack.RunImageMirrors 0 (List.replicate c.Stack.RunImageMirrors.length "")
          (some e) s2 with
        | (mirrors, err2, s3) =>
          (assignOrderAndTarget c t
            { config1 with
                Stack := { config1.Stack with RunImage := img, RunImageMirrors := mirrors } },
            err2, s3)) := by
    simp only [processStack, hbuild, resolveStackRunImage, hset, ne_eq, not_false_eq_true,
      if_true, hfail, resolveStackMirrors, hmirrors, hblank]
  refine ⟨?_, ?_⟩
  · intro pre m post r s3 hmir hpre hm
    have hv := resolveMirrors_fallback_value
      (fun uri => R.ParseURItoString uri t) m r post s3 pre [] (some e) s2 hpre hm
    have he := resolveMirrors_fallback
      (fun uri => R.ParseURItoString uri t) m r post s3 pre 0
      (List.replicate (pre ++ m :: post).length "") (some e) s2 hpre hm
    simp only [List.length_nil, List.nil_append] at hv
    rw [hshape, hmir]
    rcases hres : resolveMirrors (fun uri => R.ParseURItoString uri t)
      (pre ++ m :: post) 0 (List.replicate (pre ++ m :: post).length "") (some e) s2
      with ⟨mirrors, err2, s4⟩
    rw [hres] at hv he
    exact ⟨he, hv⟩
  · intro hall
    rw [hshape]
    exact resolveMirrors_all_fail
      (fun uri => R.ParseURItoString uri t) c.Stack.RunImageMirrors 0
      (List.replicate c.Stack.RunImageMirrors.length "") (some e) s2 hall (by simp)

/-- Claim C24, as the code has it.  Take a resolver whose strings and errors
are functions of its arguments, and a config whose modules and build image do
not fail.  When no run image fails altogether, the run images of the config
that `processTarget` returns are those of the base config with the image
resolved and with the mirrors either all left empty, when the image resolves,
or, when it fails, resolved in order up to and with the first one that
resolves, the later ones being left empty.  When the image and every mirror of
some run image fail, `processTarget` returns a non-nil error.  So with a
resolver that always succeeds every run image has its image resolved and all
its mirrors empty.  Call by call, in one iteration of the loop on the blank
entry of `copyConfig`: when the image resolves the iteration ends in the state
reached by that call; when it fails and a mirror resolves after the mirrors
before it have failed, the iteration succeeds in the state reached by that
mirror; when the image and every mirror fail, the iteration fails after the
last mirror. -/
theorem C24_run_image_mirrors_are_fallback {σ ε : Type} (c : MultiArchConfig) (t : Target)
    (dn dv : String) (R : Collaborators σ ε) :
    (∀ (g : String → String → Target → String) (f : String → Target → String)
        (eg : String → String → Target → Option ε) (ef : String → Target → Option ε) (s : σ),
      R.Returns g f → R.Errors eg ef →
      (∀ bp ∈ c.Buildpacks, bp.URI ≠ "" →
        eg bp.URI c.relativeBaseDir (R.ProcessTarget t dn dv) = none) →
      (∀ ext ∈ c.Extensions, ext.URI ≠ "" →
        eg ext.URI c.relativeBaseDir (R.ProcessTarget t dn dv) = none) →
      (c.Build.Image ≠ "" → ef c.Build.Image (R.ProcessTarget t dn dv) = none) →
      ((∀ runImg ∈ c.Run.Images,
          runImageFails (fun uri => (ef uri (R.ProcessTarget t dn dv)).isSome) runImg = false) →
        (c.processTarget t dn dv R s).1.Run.Images =
          c.Run.Images.map (runImageFallback (fun uri => f uri (R.ProcessTarget t dn dv))
            (fun uri => (ef uri (R.ProcessTarget t dn dv)).isSome))) ∧
      ((∃ runImg ∈ c.Run.Images,
          runImageFails (fun uri => (ef uri (R.ProcessTarget t dn dv)).isSome) runImg = true) →
        (c.processTarget t dn dv R s).2.1 ≠ none)) ∧
    (∀ (g : String → String → Target → String) (f : String → Target → String) (s : σ),
      R.AlwaysSucceeds → R.Returns g f →
      (c.processTarget t dn dv R s).1.Run.Images =
        c.Run.Images.map (fun r =>
          { Image := f r.Image (R.ProcessTarget t dn dv)
            Mirrors := List.replicate r.Mirrors.length "" })) ∧
    (∀ (runImg : RunImageConfig) (s0 : σ),
      (∀ image s1,
        R.ParseURItoString runImg.Image (R.ProcessTarget t dn dv) s0 = (image, none, s1) →
        resolveRunImage (fun uri => R.ParseURItoString uri (R.ProcessTarget t dn dv))
            runImg {} s0 =
          ({ Image := image, Mirrors := List.replicate runImg.Mirrors.length "" }, none, s1)) ∧
      (∀ image e s1 pre m post r s3,
        R.ParseURItoString runImg.Image (R.ProcessTarget t dn dv) s0 = (image, some e, s1) →
        runImg.Mirrors = pre ++ m :: post →
        allFail (fun uri => R.ParseURItoString uri (R.ProcessTarget t dn dv)) pre s1 = true →
        R.ParseURItoString m (R.ProcessTarget t dn dv)
          (triedState (fun uri => R.ParseURItoString uri (R.ProcessTarget t dn dv)) pre s1) =
          (r, none, s3) →
        resolveRunImage (fun uri => R.ParseURItoString uri (R.ProcessTarget t dn dv))
            runImg {} s0 =
          ({ Image := image
             Mirrors :=
               triedResults (fun uri => R.ParseURItoString uri (R.ProcessTarget t dn dv))
                 pre s1 ++ r :: List.replicate post.length "" }, none, s3)) ∧
      (∀ image e s1,
        R.ParseURItoString runImg.Image (R.ProcessTarget t dn dv) s0 = (image, some e, s1) →
        allFail (fun uri => R.ParseURItoString uri (R.ProcessTarget t dn dv))
          runImg.Mirrors s1 = true →
        (resolveRunImage (fun uri => R.ParseURItoString uri (R.ProcessTarget t dn dv))
          runImg {} s0).2.1 ≠ none ∧
        (resolveRunImage (fun uri => R.ParseURItoString uri (R.ProcessTarget t dn dv))
          runImg {} s0).2.2 =
          triedState (fun uri => R.ParseURItoString uri (R.ProcessTarget t dn dv))
            runImg.Mirrors s1)) := by
  refine ⟨?_, ?_, ?_⟩
  · intro g f eg ef s hret herr hbps hexts hbuild
    obtain ⟨mk, s1, hmk, hshape⟩ := processTarget_run_images c t dn dv R s
      (fun bp hbp hu s0 => by rw [herr.1]; exact hbps bp hbp hu)
      (fun ext hext hu s0 => by rw [herr.1]; exact hexts ext hext hu)
      (fun hb s0 => by rw [herr.2]; exact hbuild hb)
    have hloopv := resolveRunImages_fn
      (fun uri => R.ParseURItoString uri (R.ProcessTarget t dn dv))
      (fun uri => f uri (R.ProcessTarget t dn dv))
      (fun uri => ef uri (R.ProcessTarget t dn dv))
      (fun uri s0 => hret.2 uri _ s0) (fun uri s0 => herr.2 uri _ s0) c.Run.Images [] s1
    have hloope := resolveRunImages_fn_error
      (fun uri => R.ParseURItoString uri (R.ProcessTarget t dn dv))
      (fun uri => ef uri (R.ProcessTarget t dn dv))
      (fun uri s0 => herr.2 uri _ s0) c.Run.Images 0
      (List.replicate c.Run.Images.length {}) s1
    simp only [List.length_nil, List.nil_append] at hloopv
    rw [hshape]
    rcases hr : resolveRunImages (fun uri => R.ParseURItoString uri (R.ProcessTarget t dn dv))
      c.Run.Images 0 (List.replicate c.Run.Images.length {}) s1 with ⟨images, err, s2⟩
    rw [hr] at hloopv hloope
    simp only at hloopv hloope
    constructor
    · intro hall
      have hv := hloopv hall
      have he := hloope.1 hall
      subst he
      simp only
      rw [processStack_keeps_run, (hmk images).1, hv]
    · intro hex
      have he := hloope.2 hex
      cases err with
      | none => exact absurd rfl he
      | some e0 => simp
  · intro g f s hok hret
    rw [processTarget_closed c t dn dv R g f hok hret s]
    rfl
  · intro runImg s0
    refine ⟨?_, ?_, ?_⟩
    · intro image s1 h
      rw [resolveRunImage_of_success _ runImg {} s0 image s1 h]
      rfl
    · intro image e s1 pre m post r s3 himg hmir hpre hm
      have hv := resolveMirrors_fallback_value
        (fun uri => R.ParseURItoString uri (R.ProcessTarget t dn dv)) m r post s3 pre []
        (some e) s1 hpre hm
      have he := resolveMirrors_fallback
        (fun uri => R.ParseURItoString uri (R.ProcessTarget t dn dv)) m r post s3 pre 0
        (List.replicate (pre ++ m :: post).length "") (some e) s1 hpre hm
      simp only [List.length_nil, List.nil_append] at hv
      rcases hres : resolveMirrors (fun uri => R.ParseURItoString uri (R.ProcessTarget t dn dv))
        (pre ++ m :: post) 0 (List.replicate (pre ++ m :: post).length "") (some e) s1
        with ⟨mirrors, err2, s2⟩
      rw [hres] at hv he
      simp only [Prod.mk.injEq] at he
      simp only at hv
      simp only [resolveRunImage, himg]
      show (match resolveMirrors (fun uri => R.ParseURItoString uri (R.ProcessTarget t dn dv))
          runImg.Mirrors 0 (List.replicate runImg.Mirrors.length "") (some e) s1 with
        | (mirrors, err2, s2) =>
          (({ Image := image, Mirrors := mirrors } : RunImageConfig), err2, s2)) = _
      rw [hmir, hres, hv, he.1, he.2]
    · intro image e s1 himg hall
      have h := resolveMirrors_all_fail
        (fun uri => R.ParseURItoString uri (R.ProcessTarget t dn dv)) runImg.Mirrors 0
        (List.replicate runImg.Mirrors.length "") (some e) s1 hall (by simp)
      have hshape : resolveRunImage (fun uri => R.ParseURItoString uri (R.ProcessTarget t dn dv))
          runImg {} s0 =
          (match resolveMirrors (fun uri => R.ParseURItoString uri (R.ProcessTarget t dn dv))
            runImg.Mirrors 0 (List.replicate runImg.Mirrors.length "") (some e) s1 with
          | (mirrors, err2, s2) =>
            (({ Image := image, Mirrors := mirrors } : RunImageConfig), err2, s2)) := by
        simp only [resolveRunImage, himg]
        rfl
      rw [hshape]
      exact h

/-- Witness of C24: with `logResolver` the run image `bad` of `mirrorsConfig`
fails, its first mirror `bad` fails too and its second mirror resolves; the
third mirror is left empty in the config that `processTarget` returns.  The
run image of `failingMirrorsConfig` and its one mirror fail, and so does
`processTarget`. -/
theorem C24_run_image_mirrors_are_fallback_witness :
    (mirrorsConfig.processTarget { OS := "linux", Arch := "amd64" } "" "" logResolver
        []).1.Run.Images =
      [{ Image := "linux:bad", Mirrors := ["linux:bad", "linux:m2", ""] }] ∧
    (failingMirrorsConfig.processTarget { OS := "linux", Arch := "amd64" } "" "" logResolver
        []).2.1 ≠ none :=
  ⟨(((C24_run_image_mirrors_are_fallback mirrorsConfig { OS := "linux", Arch := "amd64" } "" ""
      logResolver).1
      (fun uri _ target => target.OS ++ ":" ++ uri) (fun uri target => target.OS ++ ":" ++ uri)
      (fun uri _ target =>
        if uri = "bad" then some "unresolvable"
        else if target.Arch = "" then some "unresolvable" else none)
      (fun uri target =>
        if uri = "bad" then some "unresolvable"
        else if target.Arch = "" then some "unresolvable" else none)
      [] ⟨fun _ _ _ _ => rfl, fun _ _ _ => rfl⟩ ⟨fun _ _ _ _ => rfl, fun _ _ _ => rfl⟩
      (by decide) (by decide) (by decide)).1 (by decide)).trans (by decide),
   ((C24_run_image_mirrors_are_fallback failingMirrorsConfig
      { OS := "linux", Arch := "amd64" } "" "" logResolver).1
      (fun uri _ target => target.OS ++ ":" ++ uri) (fun uri target => target.OS ++ ":" ++ uri)
      (fun uri _ target =>
        if uri = "bad" then some "unresolvable"
        else if target.Arch = "" then some "unresolvable" else none)
      (fun uri target =>
        if uri = "bad" then some "unresolvable"
        else if target.Arch = "" then some "unresolvable" else none)
      [] ⟨fun _ _ _ _ => rfl, fun _ _ _ => rfl⟩ ⟨fun _ _ _ _ => rfl, fun _ _ _ => rfl⟩
      (by decide) (by decide) (by decide)).2
      ⟨{ Image := "bad", Mirrors := ["bad"] }, by decide, by decide⟩⟩

/-- Counterexample to C24 as stated.  The resolver always succeeds and puts the
operating system before every URI; the one run image of `registryConfig` has
the mirror `mirror`.  In the returned config the image is resolved, and the
mirror is not: it is the empty string, not `linux:mirror`. -/
theorem C24_counterexample :
    tagResolver.AlwaysSucceeds ∧
    registryConfig.Run.Images = [{ Image := "run", Mirrors := ["mirror"] }] ∧
    (tagResolver.ParseURItoString "mirror"
      (tagResolver.ProcessTarget { OS := "linux", Arch := "amd64" } "" "") ()).1 =
      "linux:mirror" ∧
    (registryConfig.BuilderConfigs tagResolver ()).1.map (fun cfg => cfg.Run.Images) =
      [[{ Image := "linux:run", Mirrors := [""] }]] :=
  ⟨⟨fun _ _ _ _ => rfl, fun _ _ _ => rfl⟩, by decide, by decide, by decide⟩

/-- Claim C25.  Take a resolver whose errors are a function of its arguments
and a config in which no module, no build image, no run image and no stack
build image fails, `Stack.RunImage` is set and its resolution fails.  Then, if
the mirrors before some mirror of `Stack.RunImageMirrors` all fail and that
mirror resolves, `processTarget` returns a nil error; from the state reached by
the call for `Stack.RunImage` it has resolved those mirrors and that one, in
order, and nothing after: the state it returns is the one reached by that
mirror, and the later mirrors are left empty.  And if every mirror fails, in
particular if there is no mirror, `processTarget` returns a non-nil error,
after it has tried every mirror in order. -/
theorem C25_stack_run_image_fallback {σ ε : Type} (c : MultiArchConfig) (t : Target)
    (dn dv : String) (R : Collaborators σ ε)
    (eg : String → String → Target → Option ε) (ef : String → Target → Option ε) (s : σ)
    (e : ε)
    (herr : R.Errors eg ef)
    (hbps : ∀ bp ∈ c.Buildpacks, bp.URI ≠ "" →
      eg bp.URI c.relativeBaseDir (R.ProcessTarget t dn dv) = none)
    (hexts : ∀ ext ∈ c.Extensions, ext.URI ≠ "" →
      eg ext.URI c.relativeBaseDir (R.ProcessTarget t dn dv) = none)
    (hbuild : c.Build.Image ≠ "" → ef c.Build.Image (R.ProcessTarget t dn dv) = none)
    (hrun : ∀ runImg ∈ c.Run.Images,
      runImageFails (fun uri => (ef uri (R.ProcessTarget t dn dv)).isSome) runImg = false)
    (hsb : c.Stack.BuildImage ≠ "" → ef c.Stack.BuildImage (R.ProcessTarget t dn dv) = none)
    (hset : c.Stack.RunImage ≠ "")
    (hfail : ef c.Stack.RunImage (R.ProcessTarget t dn dv) = some e) :
    (∀ pre m post, c.Stack.RunImageMirrors = pre ++ m :: post →
      (∀ x ∈ pre, ef x (R.ProcessTarget t dn dv) ≠ none) →
      ef m (R.ProcessTarget t dn dv) = none →
      (c.processTarget t dn dv R s).2.1 = none ∧
      ∃ s1,
        (c.processTarget t dn dv R s).2.2 =
          triedState (fun uri => R.ParseURItoString uri (R.ProcessTarget t dn dv))
            (pre ++ [m])
            (R.ParseURItoString c.Stack.RunImage (R.ProcessTarget t dn dv) s1).2.2 ∧
        (c.processTarget t dn dv R s).1.Stack.RunImageMirrors =
          triedResults (fun uri => R.ParseURItoString uri (R.ProcessTarget t dn dv))
            (pre ++ [m])
            (R.ParseURItoString c.Stack.RunImage (R.ProcessTarget t dn dv) s1).2.2 ++
          List.replicate post.length "") ∧
    ((∀ x ∈ c.Stack.RunImageMirrors, ef x (R.ProcessTarget t dn dv) ≠ none) →
      (c.processTarget t dn dv R s).2.1 ≠ none ∧
      ∃ s1,
        (c.processTarget t dn dv R s).2.2 =
          triedState (fun uri => R.ParseURItoString uri (R.ProcessTarget t dn dv))
            c.Stack.RunImageMirrors
            (R.ParseURItoString c.Stack.RunImage (R.ProcessTarget t dn dv) s1).2.2) ∧
    (c.Stack.RunImageMirrors = [] → (c.processTarget t dn dv R s).2.1 ≠ none) := by
  obtain ⟨mk, sa, hmk, hshape⟩ := processTarget_run_images c t dn dv R s
    (fun bp hbp hu s0 => by rw [herr.1]; exact hbps bp hbp hu)
    (fun ext hext hu s0 => by rw [herr.1]; exact hexts ext hext hu)
    (fun hb s0 => by rw [herr.2]; exact hbuild hb)
  have hloop := (resolveRunImages_fn_error
    (fun uri => R.ParseURItoString uri (R.ProcessTarget t dn dv))
    (fun uri => ef uri (R.ProcessTarget t dn dv))
    (fun uri s0 => herr.2 uri _ s0) c.Run.Images 0
    (List.replicate c.Run.Images.length {}) sa).1 hrun
  rw [hshape]
  rcases hr : resolveRunImages (fun uri => R.ParseURItoString uri (R.ProcessTarget t dn dv))
    c.Run.Images 0 (List.replicate c.Run.Images.length {}) sa with ⟨images, err, sb⟩
  rw [hr] at hloop
  simp only at hloop
  subst hloop
  simp only
  have hsbe := (resolveStackBuildImage_no_error c (R.ProcessTarget t dn dv) R (mk images) sb
    (fun hb s0 => by rw [herr.2]; exact hsb hb)).1
  rcases hb1 : resolveStackBuildImage c (R.ProcessTarget t dn dv) R (mk images) sb with
    ⟨config1, errb, s1⟩
  rw [hb1] at hsbe
  simp only at hsbe
  subst hsbe
  have hf := herr.2 c.Stack.RunImage (R.ProcessTarget t dn dv) s1
  rw [hfail] at hf
  rcases hp : R.ParseURItoString c.Stack.RunImage (R.ProcessTarget t dn dv) s1 with
    ⟨img, e1, s2⟩
  rw [hp] at hf
  simp only at hf
  subst hf
  obtain ⟨hfb, hallf⟩ := processStack_fallback c (R.ProcessTarget t dn dv) R (mk images)
    config1 sb s1 s2 img e (hmk images).2 hb1 hset hp
  have hs2 : (R.ParseURItoString c.Stack.RunImage (R.ProcessTarget t dn dv) s1).2.2 = s2 := by
    rw [hp]
  refine ⟨?_, ?_, ?_⟩
  · intro pre m post hmir hpre hm
    have hallpre := allFail_of_errors
      (fun uri => R.ParseURItoString uri (R.ProcessTarget t dn dv))
      (fun uri => ef uri (R.ProcessTarget t dn dv))
      (fun uri s0 => herr.2 uri _ s0) pre hpre s2
    have hme := herr.2 m (R.ProcessTarget t dn dv)
      (triedState (fun uri => R.ParseURItoString uri (R.ProcessTarget t dn dv)) pre s2)
    rw [hm] at hme
    rcases hmr : R.ParseURItoString m (R.ProcessTarget t dn dv)
      (triedState (fun uri => R.ParseURItoString uri (R.ProcessTarget t dn dv)) pre s2) with
      ⟨r, em, s3⟩
    rw [hmr] at hme
    simp only at hme
    subst hme
    obtain ⟨h1, h2⟩ := hfb pre m post r s3 hmir hallpre hmr
    refine ⟨by rw [h1], s1, ?_, ?_⟩
    · rw [h1, triedState_append_singleton, hs2, hmr]
    · rw [h2, triedResults_append_singleton, hs2, hmr]
      simp
  · intro hall
    have h := hallf (allFail_of_errors
      (fun uri => R.ParseURItoString uri (R.ProcessTarget t dn dv))
      (fun uri => ef uri (R.ProcessTarget t dn dv))
      (fun uri s0 => herr.2 uri _ s0) c.Stack.RunImageMirrors hall s2)
    exact ⟨h.1, s1, by rw [h.2, hs2]⟩
  · intro hnil
    have h := hallf (by rw [hnil]; rfl)
    exact h.1

/-- Witness of C25: with `logResolver` the stack run image `bad` of
`mirrorsConfig` fails, its first mirror `bad` fails too and its second mirror
resolves: the unit succeeds after the call for `s2` and the third mirror is
left empty.  The stack run image of `failingStackConfig` and its one mirror
fail, and so does the unit. -/
theorem C25_stack_run_image_fallback_witness :
    (mirrorsConfig.processTarget { OS := "linux", Arch := "amd64" } "" "" logResolver []).2 =
      (none, ["build", "bad", "bad", "m2", "bad", "bad", "s2"]) ∧
    (mirrorsConfig.processTarget { OS := "linux", Arch := "amd64" } "" "" logResolver
        []).1.Stack.RunImageMirrors = ["linux:bad", "linux:s2", ""] ∧
    (mirrorsConfig.processTarget { OS := "linux", Arch := "amd64" } "" "" logResolver
        []).2.1 = none ∧
    (failingStackConfig.processTarget { OS := "linux", Arch := "amd64" } "" "" logResolver
        []).2.1 ≠ none :=
  ⟨by decide, by decide,
   ((C25_stack_run_image_fallback mirrorsConfig { OS := "linux", Arch := "amd64" } "" ""
      logResolver
      (fun uri _ target =>
        if uri = "bad" then some "unresolvable"
        else if target.Arch = "" then some "unresolvable" else none)
      (fun uri target =>
        if uri = "bad" then some "unresolvable"
        else if target.Arch = "" then some "unresolvable" else none)
      [] "unresolvable" ⟨fun _ _ _ _ => rfl, fun _ _ _ => rfl⟩
      (by decide) (by decide) (by decide) (by decide) (by decide) (by decide) (by decide)).1
      ["bad"] "s2" ["s3"] (by decide) (by decide) (by decide)).1,
   ((C25_stack_run_image_fallback failingStackConfig { OS := "linux", Arch := "amd64" } "" ""
      logResolver
      (fun uri _ target =>
        if uri = "bad" then some "unresolvable"
        else if target.Arch = "" then some "unresolvable" else none)
      (fun uri target =>
        if uri = "bad" then some "unresolvable"
        else if target.Arch = "" then some "unresolvable" else none)
      [] "unresolvable" ⟨fun _ _ _ _ => rfl, fun _ _ _ => rfl⟩
      (by decide) (by decide) (by decide) (by decide) (by decide) (by decide) (by decide)).2.1
      (by decide)).1⟩

/-! ## Theorems: claim C29 -/

theorem resolveModules_det {σ ε : Type} (resolve : String → σ → String × Option ε × σ)
    (h : stateless resolve) (base : List ModuleConfig) (i : Nat) (out : List ModuleConfig)
    (sa sb : σ) :
    (resolveModules resolve base i out sa).1 = (resolveModules resolve base i out sb).1 ∧
    (resolveModules resolve base i out sa).2.1 = (resolveModules resolve base i out sb).2.1 := by
  induction base generalizing i out sa sb with
  | nil => exact ⟨rfl, rfl⟩
  | cons bp rest ih =>
    simp only [resolveModules]
    by_cases hu : bp.URI = ""
    · simp only [hu, ne_eq, not_true_eq_false, if_false]
      exact ih _ _ _ _
    · simp only [hu, ne_eq, not_false_eq_true, if_true]
      obtain ⟨h1, h2⟩ := h bp.URI sa sb
      rcases ha : resolve bp.URI sa with ⟨ua, ea, sa1⟩
      rcases hb : resolve bp.URI sb with ⟨ub, eb, sb1⟩
      rw [ha, hb] at h1 h2
      simp only at h1 h2
      subst h1
      subst h2
      cases ea with
      | none => exact ih _ _ _ _
      | some e => exact ⟨rfl, rfl⟩

theorem resolveMirrors_det {σ ε : Type} (resolve : String → σ → String × Option ε × σ)
    (h : stateless resolve) (mirrors : List String) (j : Nat) (out : List String)
    (err : Option ε) (sa sb : σ) :
    (resolveMirrors resolve mirrors j out err sa).1 =
      (resolveMirrors resolve mirrors j out err sb).1 ∧
    (resolveMirrors resolve mirrors j out err sa).2.1 =
      (resolveMirrors resolve mirrors j out err sb).2.1 := by
  induction mirrors generalizing j out err sa sb with
  | nil => exact ⟨rfl, rfl⟩
  | cons m rest ih =>
    simp only [resolveMirrors]
    obtain ⟨h1, h2⟩ := h m sa sb
    rcases ha : resolve m sa with ⟨ua, ea, sa1⟩
    rcases hb : resolve m sb with ⟨ub, eb, sb1⟩
    rw [ha, hb] at h1 h2
    simp only at h1 h2
    subst h1
    subst h2
    cases ea with
    | none => exact ⟨rfl, rfl⟩
    | some e => exact ih _ _ _ _ _

theorem resolveRunImage_det {σ ε : Type} (resolve : String → σ → String × Option ε × σ)
    (h : stateless resolve) (runImg cur : RunImageConfig) (sa sb : σ) :
    (resolveRunImage resolve runImg cur sa).1 = (resolveRunImage resolve runImg cur sb).1 ∧
    (resolveRunImage resolve runImg cur sa).2.1 =
      (resolveRunImage resolve runImg cur sb).2.1 := by
  simp only [resolveRunImage]
  obtain ⟨h1, h2⟩ := h runImg.Image sa sb
  rcases ha : resolve runImg.Image sa with ⟨ua, ea, sa1⟩
  rcases hb : resolve runImg.Image sb with ⟨ub, eb, sb1⟩
  rw [ha, hb] at h1 h2
  simp only at h1 h2
  subst h1
  subst h2
  cases ea with
  | none => exact ⟨rfl, rfl⟩
  | some e =>
    simp only
    obtain ⟨h3, h4⟩ := resolveMirrors_det resolve h runImg.Mirrors 0
      (if ({ cur with Image := ua } : RunImageConfig).Mirrors.length = 0 then
          ({ { cur with Image := ua } with
              Mirrors := List.replicate runImg.Mirrors.length "" } : RunImageConfig)
        else { cur with Image := ua }).Mirrors (some e) sa1 sb1
    exact ⟨by rw [h3], h4⟩

theorem resolveRunImages_det {σ ε : Type} (resolve : String → σ → String × Option ε × σ)
    (h : stateless resolve) (base : List RunImageConfig) (i : Nat) (out : List RunImageConfig)
    (sa sb : σ) :
    (resolveRunImages resolve base i out sa).1 = (resolveRunImages resolve base i out sb).1 ∧
    (resolveRunImages resolve base i out sa).2.1 =
      (resolveRunImages resolve base i out sb).2.1 := by
  induction base generalizing i out sa sb with
  | nil => exact ⟨rfl, rfl⟩
  | cons runImg rest ih =>
    simp only [resolveRunImages]
    obtain ⟨h1, h2⟩ := resolveRunImage_det resolve h runImg (out.getD i {}) sa sb
    rcases ha : resolveRunImage resolve runImg (out.getD i {}) sa with ⟨ua, ea, sa1⟩
    rcases hb : resolveRunImage resolve runImg (out.getD i {}) sb with ⟨ub, eb, sb1⟩
    rw [ha, hb] at h1 h2
    simp only at h1 h2
    subst h1
    subst h2
    cases ea with
    | none => exact ih _ _ _ _
    | some e => exact ⟨rfl, rfl⟩

theorem processStack_det {σ ε : Type} (c : MultiArchConfig) (t : Target)
    (R : Collaborators σ ε) (h : stateless (fun uri => R.ParseURItoString uri t))
    (config : Config) (sa sb : σ) :
    (processStack c t R config sa).1 = (processStack c t R config sb).1 ∧
    (processStack c t R config sa).2.1 = (processStack c t R config sb).2.1 := by
  have hstep1 : (resolveStackBuildImage c t R config sa).1 =
        (resolveStackBuildImage c t R config sb).1 ∧
      (resolveStackBuildImage c t R config sa).2.1 =
        (resolveStackBuildImage c t R config sb).2.1 := by
    unfold resolveStackBuildImage
    by_cases hb : c.Stack.BuildImage = ""
    · simp [hb]
    · obtain ⟨h1, h2⟩ := h c.Stack.BuildImage sa sb
      simp only at h1 h2
      simp only [hb, ne_eq, not_false_eq_true, if_true]
      exact ⟨by rw [h1], h2⟩
  have hstep2 : ∀ config1 sa1 sb1, (resolveStackRunImage c t R config1 sa1).1 =
        (resolveStackRunImage c t R config1 sb1).1 ∧
      (resolveStackRunImage c t R config1 sa1).2.1 =
        (resolveStackRunImage c t R config1 sb1).2.1 := by
    intro config1 sa1 sb1
    unfold resolveStackRunImage
    by_cases hb : c.Stack.RunImage = ""
    · simp [hb]
    · obtain ⟨h1, h2⟩ := h c.Stack.RunImage sa1 sb1
      simp only at h1 h2
      simp only [hb, ne_eq, not_false_eq_true, if_true]
      exact ⟨by rw [h1], h2⟩
  have hstep3 : ∀ config2 err sa2 sb2, (resolveStackMirrors c t R config2 err sa2).1 =
        (resolveStackMirrors c t R config2 err sb2).1 ∧
      (resolveStackMirrors c t R config2 err sa2).2.1 =
        (resolveStackMirrors c t R config2 err sb2).2.1 := by
    intro config2 err sa2 sb2
    unfold resolveStackMirrors
    cases err with
    | none => exact ⟨rfl, rfl⟩
    | some e =>
      obtain ⟨h1, h2⟩ := resolveMirrors_det (fun uri => R.ParseURItoString uri t) h
        c.Stack.RunImageMirrors 0 config2.Stack.RunImageMirrors (some e) sa2 sb2
      simp only
      exact ⟨by rw [h1], h2⟩
  unfold processStack
  obtain ⟨h1, h2⟩ := hstep1
  rcases ha : resolveStackBuildImage c t R config sa with ⟨ca, ea, sa1⟩
  rcases hb : resolveStackBuildImage c t R config sb with ⟨cb, eb, sb1⟩
  rw [ha, hb] at h1 h2
  simp only at h1 h2
  subst h1
  subst h2
  cases ea with
  | some e => exact ⟨rfl, rfl⟩
  | none =>
    simp only
    obtain ⟨h3, h4⟩ := hstep2 ca sa1 sb1
    rcases ha2 : resolveStackRunImage c t R ca sa1 with ⟨ca2, ea2, sa2⟩
    rcases hb2 : resolveStackRunImage c t R ca sb1 with ⟨cb2, eb2, sb2⟩
    rw [ha2, hb2] at h3 h4
    simp only at h3 h4
    subst h3
    subst h4
    simp only
    obtain ⟨h5, h6⟩ := hstep3 ca2 ea2 sa2 sb2
    exact ⟨by rw [h5], h6⟩

theorem processImages_det {σ ε : Type} (c : MultiArchConfig) (t : Target)
    (R : Collaborators σ ε) (h : stateless (fun uri => R.ParseURItoString uri t))
    (config : Config) (sa sb : σ) :
    (processImages c t R config sa).1 = (processImages c t R config sb).1 ∧
    (processImages c t R config sa).2.1 = (processImages c t R config sb).2.1 := by
  have hstep1 : (resolveBuildImage c t R config sa).1 = (resolveBuildImage c t R config sb).1 ∧
      (resolveBuildImage c t R config sa).2.1 = (resolveBuildImage c t R config sb).2.1 := by
    unfold resolveBuildImage
    by_cases hb : c.Build.Image = ""
    · simp [hb]
    · obtain ⟨h1, h2⟩ := h c.Build.Image sa sb
      simp only at h1 h2
      simp only [hb, ne_eq, not_false_eq_true, if_true]
      exact ⟨by rw [h1], h2⟩
  unfold processImages
  obtain ⟨h1, h2⟩ := hstep1
  rcases ha : resolveBuildImage c t R config sa with ⟨ca, ea, sa1⟩
  rcases hb : resolveBuildImage c t R config sb with ⟨cb, eb, sb1⟩
  rw [ha, hb] at h1 h2
  simp only at h1 h2
  subst h1
  subst h2
  cases ea with
  | some e => exact ⟨rfl, rfl⟩
  | none =>
    simp only
    obtain ⟨h3, h4⟩ := resolveRunImages_det (fun uri => R.ParseURItoString uri t) h
      c.Run.Images 0 ca.Run.Images sa1 sb1
    rcases ha2 : resolveRunImages (fun uri => R.ParseURItoString uri t)
      c.Run.Images 0 ca.Run.Images sa1 with ⟨ia, ea2, sa2⟩
    rcases hb2 : resolveRunImages (fun uri => R.ParseURItoString uri t)
      c.Run.Images 0 ca.Run.Images sb1 with ⟨ib, eb2, sb2⟩
    rw [ha2, hb2] at h3 h4
    simp only at h3 h4
    subst h3
    subst h4
    cases ea2 with
    | some e => exact ⟨rfl, rfl⟩
    | none => exact processStack_det c t R h _ sa2 sb2

/-- With a deterministic resolver, the config and the error that
`processTarget` returns do not depend on the state of the collaborators. -/
theorem processTarget_det {σ ε : Type} (c : MultiArchConfig) (t : Target) (dn dv : String)
    (R : Collaborators σ ε) (hdet : R.Deterministic) (sa sb : σ) :
    (c.processTarget t dn dv R sa).1 = (c.processTarget t dn dv R sb).1 ∧
    (c.processTarget t dn dv R sa).2.1 = (c.processTarget t dn dv R sb).2.1 := by
  have hg := hdet.1 c.relativeBaseDir (R.ProcessTarget t dn dv)
  have hf := hdet.2 (R.ProcessTarget t dn dv)
  simp only [MultiArchConfig.processTarget]
  obtain ⟨h1, h2⟩ := resolveModules_det _ hg c.Buildpacks 0 (copyConfig c.toConfig).Buildpacks
    sa sb
  rcases ha : resolveModules
    (fun uri => R.GetRelativeURI uri c.relativeBaseDir (R.ProcessTarget t dn dv))
    c.Buildpacks 0 (copyConfig c.toConfig).Buildpacks sa with ⟨ba, ea, sa1⟩
  rcases hb : resolveModules
    (fun uri => R.GetRelativeURI uri c.relativeBaseDir (R.ProcessTarget t dn dv))
    c.Buildpacks 0 (copyConfig c.toConfig).Buildpacks sb with ⟨bb, eb, sb1⟩
  rw [ha, hb] at h1 h2
  simp only at h1 h2
  subst h1
  subst h2
  cases ea with
  | some e => exact ⟨rfl, rfl⟩
  | none =>
    simp only
    obtain ⟨h3, h4⟩ := resolveModules_det _ hg c.Extensions 0
      (copyConfig c.toConfig).Extensions sa1 sb1
    rcases ha2 : resolveModules
      (fun uri => R.GetRelativeURI uri c.relativeBaseDir (R.ProcessTarget t dn dv))
      c.Extensions 0 (copyConfig c.toConfig).Extensions sa1 with ⟨xa, ea2, sa2⟩
    rcases hb2 : resolveModules
      (fun uri => R.GetRelativeURI uri c.relativeBaseDir (R.ProcessTarget t dn dv))
      c.Extensions 0 (copyConfig c.toConfig).Extensions sb1 with ⟨xb, eb2, sb2⟩
    rw [ha2, hb2] at h3 h4
    simp only at h3 h4
    subst h3
    subst h4
    cases ea2 with
    | some e => exact ⟨rfl, rfl⟩
    | none => exact processImages_det c _ R hf _ sa2 sb2

theorem configsOf_getElem {σ ε : Type} (c : MultiArchConfig) (R : Collaborators σ ε)
    (us : List (Target × String × String)) (s : σ) (i : Nat) (cfg : Config)
    (h : (c.configsOf R us s)[i]? = some cfg) :
    ∃ u s1, us[i]? = some u ∧ cfg = (c.resolveUnit R u s1).1 := by
  induction us generalizing s i with
  | nil => simp [MultiArchConfig.configsOf] at h
  | cons u rest ih =>
    cases i with
    | zero =>
      simp only [MultiArchConfig.configsOf, List.getElem?_cons_zero, Option.some.injEq] at h
      exact ⟨u, s, by simp, h.symm⟩
    | succ k =>
      simp only [MultiArchConfig.configsOf, List.getElem?_cons_succ] at h
      obtain ⟨v, s1, hv, hc⟩ := ih _ k h
      exact ⟨v, s1, by simpa using hv, hc⟩

/-- The configs that the loop of `BuilderConfigs` appends are those of the
units of a beginning of the list, in order. -/
theorem runOps_builder_prefix {σ ε : Type} (c : MultiArchConfig) (R : Collaborators σ ε)
    (us : List (Target × String × String)) (cfgs : List Config) (s : σ) :
    ∃ k, (runOps (builderConfigsOp c R) us (cfgs, s)).2.1 =
      cfgs ++ c.configsOf R (us.take k) s := by
  induction us generalizing cfgs s with
  | nil => exact ⟨0, by simp [runOps, MultiArchConfig.configsOf]⟩
  | cons u rest ih =>
    simp only [runOps, builderConfigsOp_eq]
    rcases herr : (c.resolveUnit R u s).2.1 with _ | err
    · obtain ⟨k, hk⟩ := ih (cfgs ++ [(c.resolveUnit R u s).1]) (c.resolveUnit R u s).2.2
      exact ⟨k + 1, by simp [hk, MultiArchConfig.configsOf]⟩
    · exact ⟨1, by simp [MultiArchConfig.configsOf]⟩

theorem BuilderConfigs_getElem {σ ε : Type} (c : MultiArchConfig) (R : Collaborators σ ε)
    (s : σ) (i : Nat) (cfg : Config) (h : (c.BuilderConfigs R s).1[i]? = some cfg) :
    ∃ u s1, c.enumeration[i]? = some u ∧ cfg = (c.processTarget u.1 "" "" R s1).1 := by
  rw [BuilderConfigs_eq_runOps] at h
  obtain ⟨k, hk⟩ := runOps_builder_prefix c R c.enumeration [] s
  simp only [hk, List.nil_append] at h
  obtain ⟨u, s1, hu, hc⟩ := configsOf_getElem c R _ s i cfg h
  refine ⟨u, s1, ?_, hc⟩
  rw [List.getElem?_take] at hu
  by_cases hik : i < k
  · simpa [hik] using hu
  · simp [hik] at hu

/-- Claim C29.  For every config and every deterministic resolver, the config
that `BuilderConfigs` returns at an index is the one that `processTarget` gives
for the declared target of the unit enumerated at that index with an empty
distribution name and version, whatever pair was enumerated and in whatever
state; so the configs returned for two units of the same declared target are
equal. -/
theorem C29_units_of_one_target_get_equal_configs {σ ε : Type} (c : MultiArchConfig)
    (R : Collaborators σ ε) (s : σ) (hdet : R.Deterministic) :
    (∀ (i : Nat) (u : Target × String × String) (cfg : Config),
      c.enumeration[i]? = some u → (c.BuilderConfigs R s).1[i]? = some cfg →
      ∀ s0, cfg = (c.processTarget u.1 "" "" R s0).1) ∧
    (∀ (i j : Nat) (u v : Target × String × String) (a b : Config),
      c.enumeration[i]? = some u → c.enumeration[j]? = some v → u.1 = v.1 →
      (c.BuilderConfigs R s).1[i]? = some a → (c.BuilderConfigs R s).1[j]? = some b →
      a = b) := by
  have hfirst : ∀ (i : Nat) (u : Target × String × String) (cfg : Config),
      c.enumeration[i]? = some u → (c.BuilderConfigs R s).1[i]? = some cfg →
      ∀ s0, cfg = (c.processTarget u.1 "" "" R s0).1 := by
    intro i u cfg hu hcfg s0
    obtain ⟨v, s1, hv, hc⟩ := BuilderConfigs_getElem c R s i cfg hcfg
    rw [hu] at hv
    simp only [Option.some.injEq] at hv
    subst hv
    rw [hc]
    exact (processTarget_det c u.1 "" "" R hdet s1 s0).1
  refine ⟨hfirst, ?_⟩
  intro i j u v a b hu hv huv ha hb
  rw [hfirst i u a hu ha s, hfirst j v b hv hb s, huv]

/-- Witness of C29: the first two units of `sampleConfig` are the two versions
of `ubuntu` of its first target; with the resolver that logs its calls, the two
configs returned for them are equal. -/
theorem C29_units_of_one_target_get_equal_configs_witness :
    sampleConfig.enumeration[0]? = some (sampleTarget, "ubuntu", "22.04") ∧
    sampleConfig.enumeration[1]? = some (sampleTarget, "ubuntu", "20.04") ∧
    (sampleConfig.BuilderConfigs logResolver []).1[0]? =
      some (sampleConfig.processTarget sampleTarget "" "" logResolver []).1 ∧
    (sampleConfig.BuilderConfigs logResolver []).1[1]? =
      some (sampleConfig.processTarget sampleTarget "" "" logResolver
        ["bp.tgz", "build", "run"]).1 ∧
    (sampleConfig.processTarget sampleTarget "" "" logResolver []).1 =
      (sampleConfig.processTarget sampleTarget "" "" logResolver
        ["bp.tgz", "build", "run"]).1 :=
  ⟨by decide, by decide, by decide, by decide,
   (C29_units_of_one_target_get_equal_configs sampleConfig logResolver []
      ⟨fun _ _ _ _ _ => ⟨rfl, rfl⟩, fun _ _ _ _ => ⟨rfl, rfl⟩⟩).2 0 1
      (sampleTarget, "ubuntu", "22.04") (sampleTarget, "ubuntu", "20.04")
      (sampleConfig.processTarget sampleTarget "" "" logResolver []).1
      (sampleConfig.processTarget sampleTarget "" "" logResolver ["bp.tgz", "build", "run"]).1
      (by decide) (by decide) rfl (by decide) (by decide)⟩

/-! ## Theorems: claim C11, for every order of the visit of the map -/

theorem finishBuildConfigEnvIn_eq (order : EnvMap → EnvMap) (path : String) (m : EnvMap)
    (w : List EnvWarning) :
    finishBuildConfigEnvIn order path m w =
      (some m, w ++ ((order m).map Prod.fst).filterMap (missingDelimOf m),
       if ((order m).map Prod.fst).filterMap (missingDelimOf m) = [] then none
       else some (EnvError.parsing path)) := by
  unfold finishBuildConfigEnvIn
  rw [checkDelims_eq]
  simp only [Nat.zero_add]
  cases hD : ((order m).map Prod.fst).filterMap (missingDelimOf m) with
  | nil => simp
  | cons x rest => simp

/-- The run that visits the keys in the order of their first write is
`ParseBuildConfigEnv`. -/
theorem parseBuildConfigEnvLoopIn_id (path : String) (env : List BuildConfigEnv)
    (m : EnvMap) (w : List EnvWarning) :
    parseBuildConfigEnvLoopIn id path env m w = parseBuildConfigEnvLoop path env m w := by
  induction env generalizing m w with
  | nil => rfl
  | cons v rest ih => simp only [parseBuildConfigEnvLoopIn, parseBuildConfigEnvLoop, ih]

/-- Whatever the order in which the keys are visited, the call returns the
same map and the same error, and the same warnings up to their order. -/
theorem parseBuildConfigEnvLoopIn_perm (order : EnvMap → EnvMap)
    (horder : ∀ m, (order m).Perm m) (path : String) (env : List BuildConfigEnv)
    (m : EnvMap) (w : List EnvWarning) :
    (parseBuildConfigEnvLoopIn order path env m w).1 =
      (parseBuildConfigEnvLoop path env m w).1 ∧
    (parseBuildConfigEnvLoopIn order path env m w).2.2 =
      (parseBuildConfigEnvLoop path env m w).2.2 ∧
    (parseBuildConfigEnvLoopIn order path env m w).2.1.Perm
      (parseBuildConfigEnvLoop path env m w).2.1 := by
  induction env generalizing m w with
  | nil =>
    have hperm : (((order m).map Prod.fst).filterMap (missingDelimOf m)).Perm
        ((m.map Prod.fst).filterMap (missingDelimOf m)) :=
      ((horder m).map Prod.fst).filterMap (missingDelimOf m)
    have hnil : ((order m).map Prod.fst).filterMap (missingDelimOf m) = [] ↔
        (m.map Prod.fst).filterMap (missingDelimOf m) = [] := by
      constructor
      · intro h
        rw [h] at hperm
        exact (List.Perm.nil_eq hperm).symm
      · intro h
        rw [h] at hperm
        exact List.Perm.eq_nil hperm
    simp only [parseBuildConfigEnvLoopIn, parseBuildConfigEnvLoop, finishBuildConfigEnvIn_eq,
      finishBuildConfigEnv_eq]
    refine ⟨trivial, ?_, List.Perm.append_left w hperm⟩
    by_cases h : (m.map Prod.fst).filterMap (missingDelimOf m) = []
    · rw [if_pos h, if_pos (hnil.mpr h)]
    · rw [if_neg h, if_neg (fun h1 => h (hnil.mp h1))]
  | cons v rest ih =>
    simp only [parseBuildConfigEnvLoopIn, parseBuildConfigEnvLoop]
    by_cases hname : v.Name = ""
    · simp [hname]
    · simp only [hname, if_false]
      rcases hfile : getBuildConfigEnvFileName v with ⟨suffixName, delimName, _ | err⟩
      · exact ih _ _
      · exact ⟨rfl, rfl, List.Perm.refl _⟩

/-- With dot-free names, a written key that is a name followed by a dot and the
suffix `append` or `prepend` is the effective key of a directive of that name
and suffix. -/
theorem written_key_name (env : List BuildConfigEnv)
    (hdot : ∀ d ∈ env, '.' ∉ d.Name.data)
    (hs : ∀ d ∈ env, recognised d.Suffix = true)
    (k : String) (hk : k ∈ (specWrites env).map Prod.fst) (name suffix : String)
    (hsuf : suffix = "append" ∨ suffix = "prepend")
    (hname : k = name ++ "." ++ suffix) : ∃ d ∈ env, d.Name = name ∧ d.Suffix = suffix := by
  obtain ⟨d, hd, hshape⟩ := mem_keys_specWrites env k hk
  have hplain : ∀ name1 ending, d.Name = name1 ++ ending → '.' ∈ ending.data → False := by
    intro name1 ending hname1 hmem
    apply hdot d hd
    rw [hname1, String.data_append]
    exact List.mem_append_right _ hmem
  rcases hsuf with hsuf | hsuf
  · have hname1 : k = name ++ ".append" := by
      rw [hname, hsuf, String.append_assoc]
      rfl
    rcases hshape with ⟨_, hk1⟩ | hk1
    · rw [hk1] at hname1
      rcases ending_comparable _ _ _ _ hname1 with h1 | h1 <;> exact absurd h1 (by decide)
    · rw [hk1] at hname1
      rcases effectiveKey_cases d (hs d hd) with
        ⟨_, he⟩ | ⟨_, he⟩ | ⟨_, he⟩ | ⟨hsuf1, he⟩ | ⟨_, he⟩
      · rw [he] at hname1
        exact absurd (hplain name ".append" hname1 (by decide)) id
      · rw [he] at hname1
        rcases ending_comparable _ _ _ _ hname1 with h1 | h1 <;> exact absurd h1 (by decide)
      · rw [he] at hname1
        rcases ending_comparable _ _ _ _ hname1 with h1 | h1 <;> exact absurd h1 (by decide)
      · rw [he] at hname1
        exact ⟨d, hd, append_right_cancel _ _ _ hname1, by rw [hsuf1, hsuf]⟩
      · rw [he] at hname1
        rcases ending_comparable _ _ _ _ hname1 with h1 | h1 <;> exact absurd h1 (by decide)
  · have hname1 : k = name ++ ".prepend" := by
      rw [hname, hsuf, String.append_assoc]
      rfl
    rcases hshape with ⟨_, hk1⟩ | hk1
    · rw [hk1] at hname1
      rcases ending_comparable _ _ _ _ hname1 with h1 | h1 <;> exact absurd h1 (by decide)
    · rw [hk1] at hname1
      rcases effectiveKey_cases d (hs d hd) with
        ⟨_, he⟩ | ⟨_, he⟩ | ⟨_, he⟩ | ⟨_, he⟩ | ⟨hsuf1, he⟩
      · rw [he] at hname1
        exact absurd (hplain name ".prepend" hname1 (by decide)) id
      · rw [he] at hname1
        rcases ending_comparable _ _ _ _ hname1 with h1 | h1 <;> exact absurd h1 (by decide)
      · rw [he] at hname1
        rcases ending_comparable _ _ _ _ hname1 with h1 | h1 <;> exact absurd h1 (by decide)
      · rw [he] at hname1
        rcases ending_comparable _ _ _ _ hname1 with h1 | h1 <;> exact absurd h1 (by decide)
      · rw [he] at hname1
        exact ⟨d, hd, append_right_cancel _ _ _ hname1, by rw [hsuf1, hsuf]⟩

/-- What a missing-delimiter warning among those of the keys says of its
key. -/
theorem mem_missingDelim_warnings (m : EnvMap) (name suffix : String)
    (h : EnvWarning.missingDelim name suffix ∈ (m.map Prod.fst).filterMap (missingDelimOf m)) :
    (suffix = "append" ∨ suffix = "prepend") ∧ name ++ "." ++ suffix ∈ m.map Prod.fst ∧
      envGet m (name ++ ".delim") = none := by
  obtain ⟨k, hk, hof⟩ := List.mem_filterMap.mp h
  unfold missingDelimOf at hof
  rcases hsplit : getFilePrefixSuffix k with ⟨name1, suffix1, _ | err⟩
  · rw [hsplit] at hof
    simp only at hof
    split at hof
    · rename_i hcond
      simp only [Option.some.injEq, EnvWarning.missingDelim.injEq] at hof
      obtain ⟨h1, h2⟩ := hof
      subst h1
      subst h2
      have hjoin := getFilePrefixSuffix_join k name1 suffix1 hsplit
      rw [← hjoin]
      exact ⟨hcond.1, hk, hcond.2⟩
    · simp at hof
  · rw [hsplit] at hof
    simp at hof

/-- Claim C11, as the code has it.  Missing-delimiter failures are collected,
whatever the order in which the keys of the map are visited.  Whenever the call
ends with the error of the delimiter check, it returns with it the fully folded
map, which is not nil, and warnings among which the missing-delimiter warnings
are, in some order and no two alike, those of the keys of the map that split at
their first dot into a name and the suffix `append` or `prepend` and whose
`name + ".delim"` is not a key; there is at least one.  When no name of a
directive holds a dot, these are exactly one warning that names the `Name` and
the `Suffix` of the directive for every directive with the suffix `append` or
`prepend` whose `Name + ".delim"` is not a key, and every missing-delimiter
warning is the warning of such a directive.  And, for well-formed directives
with dot-free names, the call does end with that error as soon as some
directive has the suffix `append` or `prepend` and no directive of its name has
a delimiter. -/
theorem C11_missing_delimiters_are_collected (order : EnvMap → EnvMap)
    (horder : ∀ m, (order m).Perm m) (env : List BuildConfigEnv) (path : String) :
    ((ParseBuildConfigEnvIn order env path).2.2 = some (EnvError.parsing path) →
      (ParseBuildConfigEnvIn order env path).1 = some (specFold env []) ∧
      ((ParseBuildConfigEnvIn order env path).2.1.filter EnvWarning.isMissingDelim).Perm
        (((specFold env []).map Prod.fst).filterMap (missingDelimOf (specFold env []))) ∧
      (((specFold env []).map Prod.fst).filterMap (missingDelimOf (specFold env []))).Nodup ∧
      ((specFold env []).map Prod.fst).filterMap (missingDelimOf (specFold env [])) ≠ [] ∧
      ((∀ d ∈ env, '.' ∉ d.Name.data) →
        (∀ d ∈ env, d.Suffix = "append" ∨ d.Suffix = "prepend" →
          envGet (specFold env []) (d.Name ++ ".delim") = none →
          d.Name ++ "." ++ d.Suffix ∈ (specFold env []).map Prod.fst ∧
          (ParseBuildConfigEnvIn order env path).2.1.count
            (EnvWarning.missingDelim d.Name d.Suffix) = 1) ∧
        (∀ name suffix,
          EnvWarning.missingDelim name suffix ∈ (ParseBuildConfigEnvIn order env path).2.1 →
          (suffix = "append" ∨ suffix = "prepend") ∧
          name ++ "." ++ suffix ∈ (specFold env []).map Prod.fst ∧
          envGet (specFold env []) (name ++ ".delim") = none ∧
          ∃ d ∈ env, d.Name = name ∧ d.Suffix = suffix))) ∧
    ((∀ d ∈ env, d.Name ≠ "") → (∀ d ∈ env, '.' ∉ d.Name.data) →
      (∀ d ∈ env, recognised d.Suffix = true) →
      (∃ d ∈ env, (d.Suffix = "append" ∨ d.Suffix = "prepend") ∧
        ∀ d1 ∈ env, d1.Name = d.Name → d1.Delim = "") →
      (ParseBuildConfigEnvIn order env path).2.2 = some (EnvError.parsing path)) := by
  obtain ⟨hmap, herror, hperm⟩ := parseBuildConfigEnvLoopIn_perm order horder path env [] []
  constructor
  · intro h
    unfold ParseBuildConfigEnvIn at h ⊢
    rw [herror] at h
    obtain ⟨hn, hs, w1, hw1, heq⟩ :=
      parseBuildConfigEnvLoop_of_parsing_error path env [] []
        (fun _ hx => absurd hx (List.not_mem_nil _)) h
    have hnodup : ((specFold env []).map Prod.fst).Nodup :=
      specFold_nodup env [] (by simp)
    have hDnodup := missingDelim_warnings_nodup (specFold env []) hnodup
    rw [heq, finishBuildConfigEnv_eq] at h hmap hperm
    simp only at h hmap hperm
    have hne : ((specFold env []).map Prod.fst).filterMap (missingDelimOf (specFold env [])) ≠
        [] := by
      intro hnil
      simp [hnil] at h
    have hfilter : (w1 ++ ((specFold env []).map Prod.fst).filterMap
        (missingDelimOf (specFold env []))).filter EnvWarning.isMissingDelim =
        ((specFold env []).map Prod.fst).filterMap (missingDelimOf (specFold env [])) := by
      rw [List.filter_append, filter_missing_of_none w1 hw1, filter_missing_filterMap]
      rfl
    have hnot : ∀ name suffix, EnvWarning.missingDelim name suffix ∉ w1 := by
      intro name suffix hin
      have := hw1 _ hin
      simp [EnvWarning.isMissingDelim] at this
    have hkeys : ∀ k, k ∈ (specFold env []).map Prod.fst ↔
        k ∈ (specWrites env).map Prod.fst := by
      obtain ⟨m, _, hm, hk, _⟩ := parseBuildConfigEnv_map_aux env path hn hs
      rw [← hm]
      exact hk
    refine ⟨hmap, ?_, hDnodup, hne, ?_⟩
    · have hp := hperm.filter EnvWarning.isMissingDelim
      rw [hfilter] at hp
      exact hp
    · intro hdot
      constructor
      · intro d hd hsuf hnone
        have hsne : d.Suffix ≠ "" := by
          rcases hsuf with h1 | h1 <;> rw [h1] <;> decide
        have hkey : effectiveKey d = d.Name ++ "." ++ d.Suffix := by
          simp [effectiveKey, hsne]
        have hpresent : d.Name ++ "." ++ d.Suffix ∈ (specFold env []).map Prod.fst := by
          rw [hkeys, ← hkey]
          exact effective_key_written env d hd
        have hof : missingDelimOf (specFold env []) (d.Name ++ "." ++ d.Suffix) =
            some (EnvWarning.missingDelim d.Name d.Suffix) := by
          simp [missingDelimOf,
            getFilePrefixSuffix_of_dot_free d.Name d.Suffix (hdot d hd) hsuf, hsuf, hnone]
        have hmem : EnvWarning.missingDelim d.Name d.Suffix ∈
            ((specFold env []).map Prod.fst).filterMap (missingDelimOf (specFold env [])) :=
          List.mem_filterMap.mpr ⟨_, hpresent, hof⟩
        refine ⟨hpresent, ?_⟩
        rw [hperm.count_eq, List.count_append, List.count_eq_zero_of_not_mem (hnot _ _),
          List.count_eq_one_of_mem hDnodup hmem]
      · intro name suffix hin
        have hin1 := (hperm.mem_iff).mp hin
        rcases List.mem_append.mp hin1 with h1 | h1
        · exact absurd h1 (hnot _ _)
        · obtain ⟨hsuf, hk, hnone⟩ := mem_missingDelim_warnings _ name suffix h1
          exact ⟨hsuf, hk, hnone,
            written_key_name env hdot hs _ ((hkeys _).mp hk) name suffix hsuf rfl⟩
  · rintro hn hdot hs ⟨d, hd, hsuf, hnodelim⟩
    unfold ParseBuildConfigEnvIn
    rw [herror]
    exact error_of_missing_delim_dot_free env path d hn hdot hs hd hsuf hnodelim

/-- Witness of C11: two directives without delimiter, the second with an empty
value, and a plain variable, in the run that visits the keys of the map from
the last written to the first.  The call returns the error and the map of the
three keys, and each of the two directives has its one warning. -/
theorem C11_missing_delimiters_are_collected_witness :
    (ParseBuildConfigEnvIn List.reverse twoUndelimitedEnv "builder.toml").1 =
      some [("A.append", "1"), ("B.prepend", ""), ("C", "x")] ∧
    (ParseBuildConfigEnvIn List.reverse twoUndelimitedEnv "builder.toml").2.2 =
      some (EnvError.parsing "builder.toml") ∧
    (ParseBuildConfigEnvIn List.reverse twoUndelimitedEnv "builder.toml").2.1.count
      (EnvWarning.missingDelim "A" "append") = 1 ∧
    (ParseBuildConfigEnvIn List.reverse twoUndelimitedEnv "builder.toml").2.1.count
      (EnvWarning.missingDelim "B" "prepend") = 1 :=
  ⟨by decide, by decide,
   (((C11_missing_delimiters_are_collected List.reverse (fun m => List.reverse_perm m)
      twoUndelimitedEnv "builder.toml").1 (by decide)).2.2.2.2 (by decide)).1
      { Name := "A", Value := "1", Suffix := "append" } (by decide) (by decide) (by decide) |>.2,
   (((C11_missing_delimiters_are_collected List.reverse (fun m => List.reverse_perm m)
      twoUndelimitedEnv "builder.toml").1 (by decide)).2.2.2.2 (by decide)).1
      { Name := "B", Value := "", Suffix := "prepend" } (by decide) (by decide) (by decide) |>.2⟩

/-- Counterexample to C11 as stated.  The first directive has the name `A.B`
and the suffix `append`; its key `A.B.append` is in the map and the key
`A.B.delim` is not.  The delimiter check fails, for the key `C.append`, but no
warning names `A.B` and `append`: the one missing-delimiter warning is that of
`C`, in the run that visits the keys in the order of their first write and in
the run that visits them in the opposite order, and in no run is there a
warning for `A.B`. -/
theorem C11_counterexample :
    (ParseBuildConfigEnv dottedAndPlainEnv "builder.toml").1 =
      some [("A.B.append", "1"), ("C.append", "2")] ∧
    envGet [("A.B.append", "1"), ("C.append", "2")] "A.B.delim" = none ∧
    (ParseBuildConfigEnv dottedAndPlainEnv "builder.toml").2.2 =
      some (EnvError.parsing "builder.toml") ∧
    (ParseBuildConfigEnv dottedAndPlainEnv "builder.toml").2.1 =
      [EnvWarning.missingDelim "C" "append"] ∧
    (ParseBuildConfigEnvIn List.reverse dottedAndPlainEnv "builder.toml").2.1 =
      [EnvWarning.missingDelim "C" "append"] ∧
    (ParseBuildConfigEnv dottedAndPlainEnv "builder.toml").2.1.count
      (EnvWarning.missingDelim "A.B" "append") = 0 ∧
    ∀ order : EnvMap → EnvMap, (∀ m, (order m).Perm m) →
      (ParseBuildConfigEnvIn order dottedAndPlainEnv "builder.toml").2.2 =
        some (EnvError.parsing "builder.toml") ∧
      (ParseBuildConfigEnvIn order dottedAndPlainEnv "builder.toml").2.1.count
        (EnvWarning.missingDelim "A.B" "append") = 0 := by
  refine ⟨by decide, by decide, by decide, by decide, by decide, by decide, ?_⟩
  intro order horder
  obtain ⟨_, herror, hperm⟩ :=
    parseBuildConfigEnvLoopIn_perm order horder "builder.toml" dottedAndPlainEnv [] []
  unfold ParseBuildConfigEnvIn
  rw [herror, hperm.count_eq]
  decide

end Pack
